import Mathlib

/-!
# Verification of `zoobzio/erd`: the validator and the renderers

A shallow embedding of `validate.go`, `mermaid.go`, `dot.go`, `builder.go` and
of the converters of `sentinel.go`, and of the data model of `types.go`.

* A method that updates its receiver through the pointer (`AddEntity`,
  `WithNote`, `parseErdTag`, ...) is the function from the value before the
  call to the value after it.

Modelling conventions.

* A Go `string` is a Lean `String` (a sequence of code points); the inputs are
  taken to be valid UTF-8, which is what `strings.TrimSpace` decodes.
* Pointers to aggregates (`*Entity`, `*Attribute`, `*Relationship`) are
  modelled by the value pointed to; optional fields (`*string`, `*KeyType`)
  are `Option`s.  For the question whether rendering can fail, the renderers
  are given a second time with the pointers kept (`DiagramP`), where
  dereferencing nil fails.
* `map[string]*Entity` is modelled by the sequence of `(key, value)` pairs in
  the order in which a `range` over the map visits them.  A real map has
  distinct keys (`EntityMap.WF`); the order is arbitrary, so statements are
  made for every sequence.
* `fmt.Sprintf` with `%s` and `%d` verbs is string concatenation, with `%d`
  the decimal numeral of the index.
* A loop `for ... { errors = append(errors, ...) }` is a left fold (or an
  index-carrying recursion) threading the `errors` accumulator; a
  `strings.Builder` is the string written so far.
* The verb `%q` is `strconv.Quote`; the Unicode tables it consults for code
  points above U+00FF are a parameter `table` of the functions that print
  with `%q`.
-/

namespace Erd

/-! ## Data model (`types.go`) -/

/-- KeyType represents the key constraint on an attribute (a string type). -/
abbrev KeyType := String

/-- Cardinality represents the type of relationship between entities (a string type). -/
abbrev Cardinality := String

def PrimaryKey : KeyType := "PK"
def ForeignKey : KeyType := "FK"
def UniqueKey : KeyType := "UK"

def OneToOne : Cardinality := "one-to-one"
def OneToMany : Cardinality := "one-to-many"
def ManyToOne : Cardinality := "many-to-one"
def ManyToMany : Cardinality := "many-to-many"

/-- Attribute represents a field/property of an entity. -/
structure Attribute where
  Key : Option KeyType
  Note : Option String
  Name : String
  /-- The field `Type` of the source (a reserved word here). -/
  Typ : String
  Nullable : Bool
deriving DecidableEq, Repr

/-- Entity represents a domain model entity. -/
structure Entity where
  Package : Option String
  Note : Option String
  Name : String
  Attributes : List Attribute
deriving DecidableEq, Repr

/-- Relationship represents a relationship between entities. -/
structure Relationship where
  Label : Option String
  Note : Option String
  From : String
  To : String
  Field : String
  Cardinality : Cardinality
deriving DecidableEq, Repr

/-- The Go map from entity name to entity, as the sequence of its entries in
iteration order. -/
abbrev EntityMap := List (String × Entity)

/-- A sequence of entries is a map when its keys are distinct. -/
def EntityMap.WF (m : EntityMap) : Prop := (m.map Prod.fst).Nodup

instance (m : EntityMap) : Decidable m.WF := by
  unfold EntityMap.WF; infer_instance

/-- The comma-ok lookup `_, exists := entities[k]`. -/
def EntityMap.contains (m : EntityMap) (k : String) : Bool :=
  m.any fun p => p.1 == k

/-- Diagram represents an Entity Relationship Diagram. -/
structure Diagram where
  Title : String
  Description : Option String
  Entities : EntityMap
  Relationships : List Relationship
deriving DecidableEq, Repr

/-! ## Library functions used by the validator -/

/-- The predicate `unicode.IsSpace` of the Go standard library. -/
def isSpace (c : Char) : Bool :=
  let n := c.toNat
  n == 0x09 || n == 0x0A || n == 0x0B || n == 0x0C || n == 0x0D || n == 0x20 ||
  n == 0x85 || n == 0xA0 || n == 0x1680 || (0x2000 ≤ n && n ≤ 0x200A) ||
  n == 0x2028 || n == 0x2029 || n == 0x202F || n == 0x205F || n == 0x3000

/-- The function `strings.TrimSpace`: leading and trailing white space removed. -/
def TrimSpace (s : String) : String :=
  ⟨((s.data.dropWhile isSpace).reverse.dropWhile isSpace).reverse⟩

/-- The decimal numeral printed by the `%d` verb for a slice index. -/
def fmtInt (i : Nat) : String := toString i

/-! ## `validate.go` -/

/-- ValidationError represents a validation error. -/
structure ValidationError where
  Field : String
  Message : String
deriving DecidableEq, Repr

/-- Error implements the error interface: `fmt.Sprintf("%s: %s", e.Field, e.Message)`. -/
def ValidationError.Error (e : ValidationError) : String :=
  e.Field ++ ": " ++ e.Message

/-- Function isValidKeyType checks if a key type is valid. -/
def isValidKeyType (kt : KeyType) : Bool :=
  if kt = PrimaryKey ∨ kt = ForeignKey ∨ kt = UniqueKey then true else false

/-- Function isValidCardinality checks if a cardinality is valid. -/
def isValidCardinality (c : Cardinality) : Bool :=
  if c = OneToOne ∨ c = OneToMany ∨ c = ManyToOne ∨ c = ManyToMany then true else false

/-- Validate checks the attribute for structural validity. -/
def Attribute.Validate (a : Attribute) : List ValidationError :=
  let errors : List ValidationError := []
  let errors :=
    if TrimSpace a.Name = "" then
      errors ++ [{ Field := "Name", Message := "attribute name is required" }]
    else errors
  let errors :=
    if TrimSpace a.Typ = "" then
      errors ++ [{ Field := "Type", Message := "attribute type is required" }]
    else errors
  let errors :=
    match a.Key with
    | some k =>
      if !isValidKeyType k then
        errors ++ [{ Field := "Key", Message := "invalid key type: " ++ k }]
      else errors
    | none => errors
  errors

/-- The loop `for i, attr := range e.Attributes` of `Entity.Validate`, started
at index `i` with the accumulator `errors`. -/
def Entity.validateAttributes :
    List Attribute → Nat → List ValidationError → List ValidationError
  | [], _, errors => errors
  | attr :: rest, i, errors =>
    let attrErrors := attr.Validate
    let errors :=
      if attrErrors.length > 0 then
        attrErrors.foldl
          (fun errors err => errors ++
            [{ Field := "Attribute[" ++ fmtInt i ++ "]." ++ err.Field,
               Message := err.Message }])
          errors
      else errors
    Entity.validateAttributes rest (i + 1) errors

/-- Validate checks the entity for structural validity. -/
def Entity.Validate (e : Entity) : List ValidationError :=
  let errors : List ValidationError := []
  let errors :=
    if TrimSpace e.Name = "" then
      errors ++ [{ Field := "Name", Message := "entity name is required" }]
    else errors
  let errors :=
    if e.Attributes.length = 0 then
      errors ++ [{ Field := "Attributes", Message := "entity must have at least one attribute" }]
    else errors
  Entity.validateAttributes e.Attributes 0 errors

/-- ValidateAgainst checks the relationship references valid entities. -/
def Relationship.ValidateAgainst (r : Relationship) (entities : EntityMap) :
    List ValidationError :=
  let errors : List ValidationError := []
  let errors :=
    if TrimSpace r.From = "" then
      errors ++ [{ Field := "From", Message := "from entity is required" }]
    else if !entities.contains r.From then
      errors ++ [{ Field := "From", Message := "entity '" ++ r.From ++ "' does not exist" }]
    else errors
  let errors :=
    if TrimSpace r.To = "" then
      errors ++ [{ Field := "To", Message := "to entity is required" }]
    else if !entities.contains r.To then
      errors ++ [{ Field := "To", Message := "entity '" ++ r.To ++ "' does not exist" }]
    else errors
  let errors :=
    if TrimSpace r.Field = "" then
      errors ++ [{ Field := "Field", Message := "field name is required" }]
    else errors
  let errors :=
    if !isValidCardinality r.Cardinality then
      errors ++ [{ Field := "Cardinality", Message := "invalid cardinality: " ++ r.Cardinality }]
    else errors
  errors

/-- The loop `for name, entity := range d.Entities` of `Diagram.Validate`,
over the entries in iteration order, with the accumulator `errors`. -/
def Diagram.validateEntities :
    EntityMap → List ValidationError → List ValidationError
  | [], errors => errors
  | (name, entity) :: rest, errors =>
    let entityErrors := entity.Validate
    let errors :=
      if entityErrors.length > 0 then
        entityErrors.foldl
          (fun errors err => errors ++
            [{ Field := "Entity[" ++ name ++ "]." ++ err.Field,
               Message := err.Message }])
          errors
      else errors
    Diagram.validateEntities rest errors

/-- The loop `for i, rel := range d.Relationships` of `Diagram.Validate`,
started at index `i` with the accumulator `errors`. -/
def Diagram.validateRelationships (entities : EntityMap) :
    List Relationship → Nat → List ValidationError → List ValidationError
  | [], _, errors => errors
  | rel :: rest, i, errors =>
    let relErrors := rel.ValidateAgainst entities
    let errors :=
      if relErrors.length > 0 then
        relErrors.foldl
          (fun errors err => errors ++
            [{ Field := "Relationship[" ++ fmtInt i ++ "]." ++ err.Field,
               Message := err.Message }])
          errors
      else errors
    Diagram.validateRelationships entities rest (i + 1) errors

/-- Validate checks the diagram for structural validity. -/
def Diagram.Validate (d : Diagram) : List ValidationError :=
  let errors : List ValidationError := []
  let errors :=
    if TrimSpace d.Title = "" then
      errors ++ [{ Field := "Title", Message := "diagram title is required" }]
    else errors
  let errors :=
    if d.Entities.length = 0 then
      errors ++ [{ Field := "Entities", Message := "diagram must have at least one entity" }]
    else errors
  let errors := Diagram.validateEntities d.Entities errors
  Diagram.validateRelationships d.Entities d.Relationships 0 errors

/-! ## Library functions used by the renderers

The replaced patterns and the separator are ASCII at every call site, so the
byte-wise standard functions agree with these code-point-wise models on valid
UTF-8. -/

/-- The scan of `strings.Replace` with a non-empty pattern: the leftmost match
is replaced and the scan resumes after it; `skip` counts the characters of a
match still to be passed over. -/
def replaceScan (old new : List Char) : Nat → List Char → List Char
  | _, [] => []
  | skip + 1, _ :: cs => replaceScan old new skip cs
  | 0, c :: cs =>
    if old.isPrefixOf (c :: cs) then new ++ replaceScan old new (old.length - 1) cs
    else c :: replaceScan old new 0 cs

/-- The function `strings.ReplaceAll`: every non-overlapping instance of `old`
replaced by `new`; an empty `old` matches before every character and at the
end. -/
def ReplaceAll (s old new : String) : String :=
  if old.data = [] then ⟨new.data ++ s.data.flatMap fun c => c :: new.data⟩
  else ⟨replaceScan old.data new.data 0 s.data⟩

/-- The scan of `strings.Split` with a non-empty separator. -/
def splitScan (sep : List Char) : Nat → List Char → List (List Char)
  | _, [] => [[]]
  | skip + 1, _ :: cs => splitScan sep skip cs
  | 0, c :: cs =>
    if sep.isPrefixOf (c :: cs) then [] :: splitScan sep (sep.length - 1) cs
    else
      match splitScan sep 0 cs with
      | [] => [[c]]
      | part :: parts => (c :: part) :: parts

/-- The function `strings.Split`: the substrings between the instances of
`sep`; an empty `sep` splits after every character. -/
def Split (s sep : String) : List String :=
  if sep.data = [] then s.data.map fun c => ⟨[c]⟩
  else (splitScan sep.data 0 s.data).map fun part => ⟨part⟩

/-- The function `strings.Join`. -/
def Join : List String → String → String
  | [], _ => ""
  | [a], _ => a
  | a :: b :: rest, sep => a ++ sep ++ Join (b :: rest) sep

/-- The comparison `<` of Go strings, lexicographic by byte, which on valid
UTF-8 is lexicographic by code point; here `a ≤ b`. -/
def stringLE (a b : String) : Prop := a.data ≤ b.data

instance : DecidableRel stringLE := fun a b => by
  unfold stringLE; infer_instance

/-- The function `sort.Strings`: the strings in increasing order. -/
def SortStrings (names : List String) : List String :=
  names.insertionSort stringLE

/-- The digits `lowerhex` of `strconv`. -/
def lowerhex (n : Nat) : Char :=
  "0123456789abcdef".data.getD n '0'

/-- The function `strconv.IsPrint`; `table` stands for the Unicode tables of
the standard library, consulted above U+00FF only. -/
def IsPrint (table : Char → Bool) (r : Char) : Bool :=
  let n := r.toNat
  if n ≤ 0xFF then
    if 0x20 ≤ n && n ≤ 0x7E then true
    else if 0xA1 ≤ n && n ≤ 0xFF then n != 0xAD
    else false
  else table r

/-- The function `appendEscapedRune` of `strconv`, for the double quote and
without the ASCII-only and graphic-only modes. -/
def appendEscapedRune (table : Char → Bool) (r : Char) : List Char :=
  let n := r.toNat
  if r = '"' ∨ r = '\\' then ['\\', r]
  else if IsPrint table r then [r]
  else if n = 0x07 then ['\\', 'a']
  else if n = 0x08 then ['\\', 'b']
  else if n = 0x0C then ['\\', 'f']
  else if n = 0x0A then ['\\', 'n']
  else if n = 0x0D then ['\\', 'r']
  else if n = 0x09 then ['\\', 't']
  else if n = 0x0B then ['\\', 'v']
  else if n < 0x20 ∨ n = 0x7F then ['\\', 'x', lowerhex (n / 16 % 16), lowerhex (n % 16)]
  else if n < 0x10000 then
    ['\\', 'u', lowerhex (n / 4096 % 16), lowerhex (n / 256 % 16), lowerhex (n / 16 % 16),
      lowerhex (n % 16)]
  else
    ['\\', 'U', lowerhex (n / 268435456 % 16), lowerhex (n / 16777216 % 16),
      lowerhex (n / 1048576 % 16), lowerhex (n / 65536 % 16), lowerhex (n / 4096 % 16),
      lowerhex (n / 256 % 16), lowerhex (n / 16 % 16), lowerhex (n % 16)]

/-- The function `strconv.Quote`, which is what the verb `%q` prints for a
string: a double-quoted Go string literal. -/
def Quote (table : Char → Bool) (s : String) : String :=
  ⟨(s.data.foldl (fun buf r => buf ++ appendEscapedRune table r) ['"']) ++ ['"']⟩

/-- The map index expression `entities[name]` for a name that is present. -/
def EntityMap.get? (m : EntityMap) (name : String) : Option Entity :=
  m.lookup name

/-! ## `mermaid.go` -/

/-- Function sanitizeName ensures names are valid for Mermaid syntax. -/
def sanitizeName (name : String) : String :=
  let name := ReplaceAll name " " "_"
  let name := ReplaceAll name "-" "_"
  let name := ReplaceAll name "." "_"
  name

/-- Function sanitizeType simplifies type names for display. -/
def sanitizeType (typeName : String) : String :=
  let parts := Split typeName "."
  let typeName := if parts.length > 1 then parts.getLastD "" else typeName
  let typeName := ReplaceAll typeName "[]" "Array_"
  let typeName := ReplaceAll typeName "*" ""
  let typeName := ReplaceAll typeName " " "_"
  typeName

/-- Function getMermaidCardinality converts cardinality to Mermaid relationship syntax. -/
def getMermaidCardinality (c : Cardinality) : String :=
  if c = OneToOne then "||--||"
  else if c = OneToMany then "||--o\x7b"
  else if c = ManyToOne then "\x7do--||"
  else if c = ManyToMany then "\x7do--o\x7b"
  else "||--||"

/-- Function formatMermaidAttribute formats an attribute for Mermaid syntax. -/
def formatMermaidAttribute (table : Char → Bool) (attr : Attribute) : String :=
  let parts : List String := []
  let parts := parts ++ [sanitizeType attr.Typ]
  let parts := parts ++ [attr.Name]
  let parts :=
    match attr.Key with
    | some k => parts ++ [k]
    | none => parts
  let comments : List String := []
  let comments := if attr.Nullable then comments ++ ["nullable"] else comments
  let comments :=
    match attr.Note with
    | some note => comments ++ [note]
    | none => comments
  let line := "        " ++ Join parts " "
  let line :=
    if comments.length > 0 then line ++ " " ++ Quote table (Join comments ", ")
    else line
  line ++ "\n"

/-- Function formatMermaidRelationship formats a relationship for Mermaid syntax. -/
def formatMermaidRelationship (rel : Relationship) : String :=
  let symbol := getMermaidCardinality rel.Cardinality
  let label := rel.Field
  let label :=
    match rel.Label with
    | some l => l
    | none => label
  "    " ++ sanitizeName rel.From ++ " " ++ symbol ++ " " ++ sanitizeName rel.To ++ " : " ++
    label ++ "\n"

/-- The names collected by `for name := range d.Entities` and sorted. -/
def Diagram.entityNames (d : Diagram) : List String :=
  let entityNames : List String := []
  let entityNames := d.Entities.foldl (fun entityNames p => entityNames ++ [p.1]) entityNames
  SortStrings entityNames

/-- ToMermaid generates a Mermaid ERD diagram from the diagram structure.  The
index expression `d.Entities[name]` always finds its entry, the names being
those of the map; the branch `none` is never taken. -/
def Diagram.ToMermaid (table : Char → Bool) (d : Diagram) : String :=
  let sb := ""
  let sb := sb ++ "erDiagram\n"
  let entityNames := d.entityNames
  let sb :=
    entityNames.foldl
      (fun sb name =>
        match d.Entities.get? name with
        | some entity =>
          let sb := sb ++ ("    " ++ sanitizeName entity.Name ++ " \x7b\n")
          let sb :=
            entity.Attributes.foldl (fun sb attr => sb ++ formatMermaidAttribute table attr) sb
          sb ++ "    \x7d\n"
        | none => sb)
      sb
  let sb := d.Relationships.foldl (fun sb rel => sb ++ formatMermaidRelationship rel) sb
  sb

/-! ## `dot.go` -/

/-- Function escapeDOT escapes special characters for DOT syntax. -/
def escapeDOT (s : String) : String :=
  let s := ReplaceAll s "\\" "\\\\"
  let s := ReplaceAll s "\"" "\\\""
  let s := ReplaceAll s "\n" "\\n"
  s

/-- Function getDOTCardinality returns DOT edge styling for cardinality. -/
def getDOTCardinality (c : Cardinality) : String :=
  if c = OneToOne then "arrowhead=normal, arrowtail=normal, dir=both"
  else if c = OneToMany then "arrowhead=crow, arrowtail=normal, dir=both"
  else if c = ManyToOne then "arrowhead=normal, arrowtail=crow, dir=both"
  else if c = ManyToMany then "arrowhead=crow, arrowtail=crow, dir=both"
  else "arrowhead=normal"

/-- Function formatDOTRelationship formats a relationship for DOT syntax. -/
def formatDOTRelationship (table : Char → Bool) (rel : Relationship) : String :=
  let edgeStyle := getDOTCardinality rel.Cardinality
  let label := rel.Field
  let label :=
    match rel.Label with
    | some l => l
    | none => label
  "    " ++ sanitizeName rel.From ++ " -> " ++ sanitizeName rel.To ++ " [" ++ edgeStyle ++
    " label=" ++ Quote table (escapeDOT label) ++ "];\n"

/-- Function formatDOTAttribute formats an attribute for DOT syntax. -/
def formatDOTAttribute (attr : Attribute) : String :=
  let parts : List String := []
  let parts :=
    match attr.Key with
    | some k => parts ++ [k]
    | none => parts
  let parts := parts ++ [attr.Name ++ ": " ++ sanitizeType attr.Typ]
  let parts := if attr.Nullable then parts ++ ["?"] else parts
  escapeDOT (Join parts " ")

/-- Function formatDOTEntity formats an entity as a DOT record node. -/
def formatDOTEntity (entity : Entity) : String :=
  let sb := ""
  let sb := sb ++ ("    " ++ sanitizeName entity.Name ++ " [label=\"\x7b" ++
    escapeDOT entity.Name ++ "|")
  let attrs : List String := []
  let attrs := entity.Attributes.foldl (fun attrs attr => attrs ++ [formatDOTAttribute attr]) attrs
  let sb := sb ++ Join attrs "\\l"
  let sb := sb ++ "\\l\x7d\"];\n"
  sb

/-- ToDOT generates a GraphViz DOT diagram from the diagram structure.  As in
`ToMermaid`, the branch `none` of the index expression is never taken. -/
def Diagram.ToDOT (table : Char → Bool) (d : Diagram) : String :=
  let sb := ""
  let sb := sb ++ "digraph ERD \x7b\n"
  let sb := sb ++ "    rankdir=LR;\n"
  let sb := sb ++ "    node [shape=record];\n"
  let sb :=
    if d.Title ≠ "" then
      let sb := sb ++ "    labelloc=\"t\";\n"
      sb ++ ("    label=" ++ Quote table (escapeDOT d.Title) ++ ";\n")
    else sb
  let sb := sb ++ "\n"
  let entityNames := d.entityNames
  let sb :=
    entityNames.foldl
      (fun sb name =>
        match d.Entities.get? name with
        | some entity => sb ++ formatDOTEntity entity
        | none => sb)
      sb
  let sb := sb ++ "\n"
  let sb := d.Relationships.foldl (fun sb rel => sb ++ formatDOTRelationship table rel) sb
  let sb := sb ++ "\x7d\n"
  sb

/-! ## `builder.go` -/

/-- The map assignment `m[k] = e`: the entry stored under `k` is replaced, or a
new entry is added.  The iteration order of a Go map being arbitrary, the place
of a new entry in the sequence is immaterial; it is put last. -/
def EntityMap.set : EntityMap → String → Entity → EntityMap
  | [], k, e => [(k, e)]
  | (k1, e1) :: rest, k, e =>
    if k1 = k then (k, e) :: rest else (k1, e1) :: EntityMap.set rest k e

/-- NewDiagram creates a new ERD diagram. -/
def NewDiagram (title : String) : Diagram :=
  { Title := title, Description := none, Entities := [], Relationships := [] }

/-- WithDescription sets the description for the diagram. -/
def Diagram.WithDescription (d : Diagram) (description : String) : Diagram :=
  { d with Description := some description }

/-- AddEntity adds an entity to the diagram. -/
def Diagram.AddEntity (d : Diagram) (entity : Entity) : Diagram :=
  { d with Entities := d.Entities.set entity.Name entity }

/-- AddRelationship adds a relationship to the diagram. -/
def Diagram.AddRelationship (d : Diagram) (rel : Relationship) : Diagram :=
  { d with Relationships := d.Relationships ++ [rel] }

/-- NewEntity creates a new entity. -/
def NewEntity (name : String) : Entity :=
  { Package := none, Note := none, Name := name, Attributes := [] }

/-- NewAttribute creates a new attribute. -/
def NewAttribute (name attrType : String) : Attribute :=
  { Key := none, Note := none, Name := name, Typ := attrType, Nullable := false }

/-- WithPrimaryKey marks the attribute as a primary key. -/
def Attribute.WithPrimaryKey (a : Attribute) : Attribute :=
  { a with Key := some PrimaryKey }

/-- WithForeignKey marks the attribute as a foreign key. -/
def Attribute.WithForeignKey (a : Attribute) : Attribute :=
  { a with Key := some ForeignKey }

/-- WithUnique marks the attribute as unique. -/
def Attribute.WithUnique (a : Attribute) : Attribute :=
  { a with Key := some UniqueKey }

/-- WithNullable marks the attribute as nullable. -/
def Attribute.WithNullable (a : Attribute) : Attribute :=
  { a with Nullable := true }

/-- WithNote adds a note to the attribute. -/
def Attribute.WithNote (a : Attribute) (note : String) : Attribute :=
  { a with Note := some note }

/-- NewRelationship creates a new relationship. -/
def NewRelationship (src dst field : String) (cardinality : Cardinality) : Relationship :=
  { Label := none, Note := none, From := src, To := dst, Field := field,
    Cardinality := cardinality }

/-! ## `sentinel.go` -/

/-- The function `strings.HasPrefix`. -/
def HasPrefix (s pfx : String) : Bool :=
  pfx.data.isPrefixOf s.data

/-- The function `strings.TrimPrefix`: `s` without the leading `pfx`, or `s`
itself when it does not start with `pfx`. -/
def TrimPrefix (s pfx : String) : String :=
  if HasPrefix s pfx then ⟨s.data.drop pfx.data.length⟩ else s

/-- Modelled from the spec: the field metadata of the external scanning
facility, with fields name, type string and tag map; the tag map is the
sequence of its entries. -/
structure FieldMetadata where
  Name : String
  /-- The field `Type` of the metadata. -/
  Typ : String
  Tags : List (String × String)
deriving DecidableEq, Repr

/-- Modelled from the spec: the four relationship kind constants of the
external scanning facility (reference, collection, embedding, map), whose
values the repository does not fix. -/
structure RelationshipKinds where
  RelationshipReference : String
  RelationshipCollection : String
  RelationshipEmbedding : String
  RelationshipMap : String
deriving DecidableEq, Repr

/-- Function parseErdTag parses the erd struct tag and applies settings to the
attribute; the attribute after the call is returned. -/
def parseErdTag (attr : Attribute) (tag : String) : Attribute :=
  let parts := Split tag ","
  parts.foldl
    (fun attr part =>
      let part := TrimSpace part
      if part = "pk" then attr.WithPrimaryKey
      else if part = "fk" then attr.WithForeignKey
      else if part = "uk" then attr.WithUnique
      else if HasPrefix part "note:" then
        let note := TrimPrefix part "note:"
        attr.WithNote note
      else attr)
    attr

/-- Function attributeFromField converts a sentinel FieldMetadata to an ERD Attribute. -/
def attributeFromField (field : FieldMetadata) : Attribute :=
  let attrType := field.Typ
  let nullable := HasPrefix field.Typ "*"
  let attrType := if nullable then TrimPrefix field.Typ "*" else attrType
  let attr := NewAttribute field.Name attrType
  let attr := if nullable then attr.WithNullable else attr
  let attr :=
    match field.Tags.lookup "erd" with
    | some erdTag => parseErdTag attr erdTag
    | none => attr
  attr

/-- Function cardinalityFromKind maps sentinel relationship kinds to ERD cardinalities. -/
def cardinalityFromKind (kinds : RelationshipKinds) (kind : String) : Cardinality :=
  if kind = kinds.RelationshipReference then OneToOne
  else if kind = kinds.RelationshipCollection then OneToMany
  else if kind = kinds.RelationshipEmbedding then OneToOne
  else if kind = kinds.RelationshipMap then ManyToMany
  else OneToOne

/-! ## The renderers with the pointers kept

In `types.go` the map values, the elements of the attribute slices and the
elements of the relationship slice are pointers, and the code dereferences
them without a check.  Here they are kept as `Option`s, `none` being nil, and
a renderer returns `none` when it dereferences nil, which in Go is a panic. -/

/-- An entity with its slice of attribute pointers. -/
structure EntityP where
  Package : Option String
  Note : Option String
  Name : String
  Attributes : List (Option Attribute)
deriving DecidableEq, Repr

/-- A diagram with its map of entity pointers and its slice of relationship
pointers. -/
structure DiagramP where
  Title : String
  Description : Option String
  Entities : List (String × Option EntityP)
  Relationships : List (Option Relationship)
deriving DecidableEq, Repr

/-- The body of a loop `for _, x := range xs` whose first use of the pointer
`x` dereferences it: the loop stays failed once it has failed, and fails when
`x` is nil. -/
def derefStep {α β : Type} (body : β → α → β) (acc : Option β) (x : Option α) : Option β :=
  match acc, x with
  | some acc, some x => some (body acc x)
  | _, _ => none

/-- The index expression `d.Entities[name]`: the stored pointer, nil for a
name that is not in the map. -/
def DiagramP.entity (d : DiagramP) (name : String) : Option EntityP :=
  (d.Entities.lookup name).join

/-- Function formatDOTEntity on a pointer: `entity.Name` dereferences it, and
`formatDOTAttribute` dereferences each attribute pointer. -/
def formatDOTEntityP (entity : Option EntityP) : Option String :=
  match entity with
  | none => none
  | some entity =>
    let sb := ""
    let sb := sb ++ ("    " ++ sanitizeName entity.Name ++ " [label=\"\x7b" ++
      escapeDOT entity.Name ++ "|")
    let attrs :=
      entity.Attributes.foldl
        (derefStep fun attrs attr => attrs ++ [formatDOTAttribute attr]) (some [])
    match attrs with
    | none => none
    | some attrs =>
      let sb := sb ++ Join attrs "\\l"
      let sb := sb ++ "\\l\x7d\"];\n"
      some sb

/-- ToDOT with the pointers kept; `formatDOTRelationship` dereferences each
relationship pointer. -/
def DiagramP.ToDOT (table : Char → Bool) (d : DiagramP) : Option String :=
  let sb := ""
  let sb := sb ++ "digraph ERD \x7b\n"
  let sb := sb ++ "    rankdir=LR;\n"
  let sb := sb ++ "    node [shape=record];\n"
  let sb :=
    if d.Title ≠ "" then
      let sb := sb ++ "    labelloc=\"t\";\n"
      sb ++ ("    label=" ++ Quote table (escapeDOT d.Title) ++ ";\n")
    else sb
  let sb := sb ++ "\n"
  let entityNames : List String := []
  let entityNames := d.Entities.foldl (fun entityNames p => entityNames ++ [p.1]) entityNames
  let entityNames := SortStrings entityNames
  let sb :=
    entityNames.foldl
      (fun sb name =>
        sb.bind fun sb =>
          (formatDOTEntityP (d.entity name)).map fun text => sb ++ text)
      (some sb)
  let sb := sb.map fun sb => sb ++ "\n"
  let sb :=
    d.Relationships.foldl (derefStep fun sb rel => sb ++ formatDOTRelationship table rel) sb
  sb.map fun sb => sb ++ "\x7d\n"

/-- ToMermaid with the pointers kept; `entity.Name` dereferences the entity
pointer, `formatMermaidAttribute` and `formatMermaidRelationship` dereference
their argument. -/
def DiagramP.ToMermaid (table : Char → Bool) (d : DiagramP) : Option String :=
  let sb := ""
  let sb := sb ++ "erDiagram\n"
  let entityNames : List String := []
  let entityNames := d.Entities.foldl (fun entityNames p => entityNames ++ [p.1]) entityNames
  let entityNames := SortStrings entityNames
  let sb :=
    entityNames.foldl
      (fun sb name =>
        sb.bind fun sb =>
          (d.entity name).bind fun entity =>
            let sb := sb ++ ("    " ++ sanitizeName entity.Name ++ " \x7b\n")
            let sb :=
              entity.Attributes.foldl
                (derefStep fun sb attr => sb ++ formatMermaidAttribute table attr) (some sb)
            sb.map fun sb => sb ++ "    \x7d\n")
      (some sb)
  d.Relationships.foldl (derefStep fun sb rel => sb ++ formatMermaidRelationship rel) sb

/-- An entity value as an entity whose attribute pointers are all non-nil. -/
def Entity.toP (e : Entity) : EntityP :=
  { Package := e.Package, Note := e.Note, Name := e.Name, Attributes := e.Attributes.map some }

/-- A diagram value as a diagram whose pointers are all non-nil. -/
def Diagram.toP (d : Diagram) : DiagramP :=
  { Title := d.Title, Description := d.Description,
    Entities := d.Entities.map fun p => (p.1, some p.2.toP),
    Relationships := d.Relationships.map some }

/-- No attribute pointer of the entity is nil. -/
def EntityP.nonNil (e : EntityP) : Bool :=
  e.Attributes.all Option.isSome

/-- No pointer of the diagram is nil: every map value, every attribute of
every entity, every element of the relationship slice. -/
def DiagramP.nonNil (d : DiagramP) : Bool :=
  d.Entities.all (fun p =>
    match p.2 with
    | some e => e.nonNil
    | none => false) &&
  d.Relationships.all Option.isSome

/-! ## Specification-side definitions

These follow the wording of the specification, not the code, and are compared
with the embedding of the code in the theorems below. -/

/-- A string is blank when it is empty or consists of white space only. -/
def Blank (s : String) : Prop := ∀ c ∈ s.data, isSpace c = true

instance (s : String) : Decidable (Blank s) := by
  unfold Blank; infer_instance

/-- The names under which the entities of a mapping are stored. -/
def EntityMap.keys (m : EntityMap) : List String := m.map Prod.fst

/-- Re-prefixing of diagnostics: every field gets `pfx` in front, the message
is unchanged. -/
def rePrefix (pfx : String) (errs : List ValidationError) : List ValidationError :=
  errs.map fun err => { Field := pfx ++ err.Field, Message := err.Message }

/-- The attribute diagnostics of an entity: for each attribute at 0-based index
`i`, its own diagnostics re-prefixed with `Attribute[i].`. -/
def attributeDiagnostics (attrs : List Attribute) : List ValidationError :=
  attrs.enum.flatMap fun p => rePrefix ("Attribute[" ++ toString p.1 ++ "].") p.2.Validate

/-- The entity diagnostics of a diagram: for each stored entry, the diagnostics
of the entity re-prefixed with `Entity[key].`. -/
def entityDiagnostics (m : EntityMap) : List ValidationError :=
  m.flatMap fun p => rePrefix ("Entity[" ++ p.1 ++ "].") p.2.Validate

/-- The relationship diagnostics of a diagram: for each relationship at 0-based
index `i`, its diagnostics against the mapping re-prefixed with
`Relationship[i].`. -/
def relationshipDiagnostics (m : EntityMap) (rels : List Relationship) :
    List ValidationError :=
  rels.enum.flatMap fun p =>
    rePrefix ("Relationship[" ++ toString p.1 ++ "].") (p.2.ValidateAgainst m)

/-- Concatenation of a list of strings, in order. -/
def Concat : List String → String
  | [] => ""
  | a :: rest => a ++ Concat rest

/-- The entries of a mapping in the order in which the renderers visit them:
the names sorted, each with the entity stored under it. -/
def EntityMap.sorted (m : EntityMap) : List (String × Entity) :=
  (SortStrings m.keys).filterMap fun k => (m.lookup k).map fun e => (k, e)

/-- The Mermaid block of an entity. -/
def mermaidBlock (table : Char → Bool) (entity : Entity) : String :=
  "    " ++ sanitizeName entity.Name ++ " \x7b\n" ++
    Concat (entity.Attributes.map (formatMermaidAttribute table)) ++ "    \x7d\n"

/-- The single-pass substitution of `escapeDOT`: what one character becomes. -/
def escapeChar (c : Char) : List Char :=
  if c = '\\' then ['\\', '\\']
  else if c = '"' then ['\\', '"']
  else if c = '\n' then ['\\', 'n']
  else [c]

/-- The substitution of `sanitizeName`: space, hyphen and period become an
underscore, every other character is kept. -/
def underscoreChar (c : Char) : Char :=
  if c = ' ' ∨ c = '-' ∨ c = '.' then '_' else c

/-- The cleaning of a type name without package qualifier: every `[]` replaced
by `Array_`, then every `*` deleted, then every space replaced by `_`. -/
def clean (u : String) : String :=
  ReplaceAll (ReplaceAll (ReplaceAll u "[]" "Array_") "*" "") " " "_"

/-- The key set by a directive of the erd tag, if it is a key directive. -/
def keyDirective (part : String) : Option KeyType :=
  if part = "pk" then some "PK"
  else if part = "fk" then some "FK"
  else if part = "uk" then some "UK"
  else none

/-- One directive of the erd tag applied to an attribute, as the specification
words it. -/
def applyDirective (attr : Attribute) (part : String) : Attribute :=
  match keyDirective part with
  | some k => { attr with Key := some k }
  | none =>
    if HasPrefix part "note:" then
      { attr with Note := some ⟨part.data.drop 5⟩ }
    else attr

/-- A call of the builder on a diagram. -/
inductive BuilderCall where
  | AddEntity (entity : Entity)
  | AddRelationship (rel : Relationship)
  | WithDescription (description : String)

/-- The diagram after a call of the builder. -/
def BuilderCall.apply (d : Diagram) : BuilderCall → Diagram
  | .AddEntity entity => d.AddEntity entity
  | .AddRelationship rel => d.AddRelationship rel
  | .WithDescription description => d.WithDescription description

/-- The diagram obtained from `NewDiagram` by a sequence of calls. -/
def built (title : String) (calls : List BuilderCall) : Diagram :=
  calls.foldl BuilderCall.apply (NewDiagram title)

/-- The four kind constants are pairwise distinct, as the cases of a `switch`
over constants are. -/
def RelationshipKinds.Distinct (kinds : RelationshipKinds) : Prop :=
  [kinds.RelationshipReference, kinds.RelationshipCollection,
    kinds.RelationshipEmbedding, kinds.RelationshipMap].Nodup

instance (kinds : RelationshipKinds) : Decidable kinds.Distinct := by
  unfold RelationshipKinds.Distinct; infer_instance

/-- The inverse of the substitution of `escapeDOT`: a backslash and the
character after it are read as one escaped character. -/
def unescapeDOT : List Char → List Char
  | [] => []
  | [c] => [c]
  | c :: c2 :: rest =>
    if c = '\\' then (if c2 = 'n' then '\n' else c2) :: unescapeDOT rest
    else c :: unescapeDOT (c2 :: rest)

/-- The text `pat` occurs in the text `l`. -/
def Occurs (pat l : List Char) : Prop :=
  ∃ pre post, l = pre ++ pat ++ post

/-- An attribute is structurally valid. -/
def Attribute.Valid (a : Attribute) : Prop :=
  ¬ Blank a.Name ∧ ¬ Blank a.Typ ∧
    (a.Key = none ∨ a.Key = some "PK" ∨ a.Key = some "FK" ∨ a.Key = some "UK")

/-- An entity is structurally valid. -/
def Entity.Valid (e : Entity) : Prop :=
  ¬ Blank e.Name ∧ e.Attributes ≠ [] ∧ ∀ a ∈ e.Attributes, a.Valid

/-- A relationship is structurally valid with respect to an entity mapping. -/
def Relationship.ValidIn (r : Relationship) (m : EntityMap) : Prop :=
  ¬ Blank r.From ∧ ¬ Blank r.To ∧ ¬ Blank r.Field ∧
    r.From ∈ m.keys ∧ r.To ∈ m.keys ∧
    (r.Cardinality = "one-to-one" ∨ r.Cardinality = "one-to-many" ∨
      r.Cardinality = "many-to-one" ∨ r.Cardinality = "many-to-many")

/-- A diagram is structurally valid. -/
def Diagram.StructurallyValid (d : Diagram) : Prop :=
  ¬ Blank d.Title ∧ d.Entities ≠ [] ∧ (∀ p ∈ d.Entities, p.2.Valid) ∧
    ∀ r ∈ d.Relationships, r.ValidIn d.Entities

/-! ## Auxiliary lemmas -/

theorem TrimSpace_eq_empty_iff (s : String) : TrimSpace s = "" ↔ Blank s := by
  unfold TrimSpace Blank
  constructor
  · intro h
    have h1 : ((s.data.dropWhile isSpace).reverse.dropWhile isSpace).reverse = [] :=
      congrArg String.data h
    rw [List.reverse_eq_nil_iff, List.dropWhile_eq_nil_iff] at h1
    by_cases h2 : s.data.dropWhile isSpace = []
    · exact List.dropWhile_eq_nil_iff.mp h2
    · exfalso
      obtain ⟨x, xs, hx⟩ := List.exists_cons_of_ne_nil h2
      have hx1 : isSpace x = true := h1 x (by rw [hx]; simp)
      have hx2 := List.head_dropWhile_not isSpace s.data h2
      simp [hx] at hx2
      simp [hx1] at hx2
  · intro h
    have h2 : s.data.dropWhile isSpace = [] := List.dropWhile_eq_nil_iff.mpr h
    apply String.ext
    simp [h2]

theorem contains_iff_mem_keys (m : EntityMap) (k : String) :
    m.contains k = true ↔ k ∈ m.keys := by
  unfold EntityMap.contains EntityMap.keys
  simp only [List.any_eq_true, List.mem_map, beq_iff_eq]

theorem foldl_append_singleton {α β : Type} (f : α → β) (sub : List α) (acc : List β) :
    sub.foldl (fun errors err => errors ++ [f err]) acc = acc ++ sub.map f := by
  induction sub generalizing acc with
  | nil => simp
  | cons x xs ih => simp [ih]

theorem guarded_fold_eq (pfx : String) (sub acc : List ValidationError) :
    (if sub.length > 0 then
        sub.foldl (fun errors err => errors ++
          [({ Field := pfx ++ err.Field, Message := err.Message } : ValidationError)]) acc
      else acc) = acc ++ rePrefix pfx sub := by
  unfold rePrefix
  rw [foldl_append_singleton (fun err : ValidationError =>
    ({ Field := pfx ++ err.Field, Message := err.Message } : ValidationError))]
  cases sub with
  | nil => simp
  | cons x xs => simp

/-- The diagnostics of `Attribute.Validate`, one optional entry per check. -/
theorem attributeValidate_eq (a : Attribute) :
    a.Validate =
      (if Blank a.Name then [⟨"Name", "attribute name is required"⟩] else []) ++
      (if Blank a.Typ then [⟨"Type", "attribute type is required"⟩] else []) ++
      (match a.Key with
        | some k =>
          if k = "PK" ∨ k = "FK" ∨ k = "UK" then []
          else [⟨"Key", "invalid key type: " ++ k⟩]
        | none => []) := by
  unfold Attribute.Validate isValidKeyType PrimaryKey ForeignKey UniqueKey
  simp only [TrimSpace_eq_empty_iff]
  cases a.Key with
  | none => by_cases h1 : Blank a.Name <;> by_cases h2 : Blank a.Typ <;> simp [h1, h2]
  | some k =>
    by_cases h1 : Blank a.Name <;> by_cases h2 : Blank a.Typ <;>
      by_cases h3 : (k = "PK" ∨ k = "FK" ∨ k = "UK") <;> simp [h1, h2, h3]

theorem validateAttributes_eq (attrs : List Attribute) (i : Nat)
    (errors : List ValidationError) :
    Entity.validateAttributes attrs i errors =
      errors ++ (attrs.enumFrom i).flatMap fun p =>
        rePrefix ("Attribute[" ++ toString p.1 ++ "].") p.2.Validate := by
  induction attrs generalizing i errors with
  | nil => simp [Entity.validateAttributes]
  | cons a rest ih =>
    simp only [Entity.validateAttributes, guarded_fold_eq, ih, fmtInt,
      List.enumFrom_cons, List.flatMap_cons, List.append_assoc]

/-- The diagnostics of `Entity.Validate` in closed form. -/
theorem entityValidate_eq (e : Entity) :
    e.Validate =
      (if Blank e.Name then [⟨"Name", "entity name is required"⟩] else []) ++
      (if e.Attributes = [] then
          [⟨"Attributes", "entity must have at least one attribute"⟩] else []) ++
      attributeDiagnostics e.Attributes := by
  unfold Entity.Validate attributeDiagnostics List.enum
  simp only [validateAttributes_eq, TrimSpace_eq_empty_iff, List.length_eq_zero,
    List.nil_append]
  by_cases h1 : Blank e.Name <;> by_cases h2 : e.Attributes = [] <;> simp [h1, h2]

/-- The diagnostics of `Relationship.ValidateAgainst`, one optional entry per check. -/
theorem validateAgainst_eq (r : Relationship) (m : EntityMap) :
    r.ValidateAgainst m =
      (if Blank r.From then [⟨"From", "from entity is required"⟩]
        else if r.From ∈ m.keys then []
        else [⟨"From", "entity '" ++ r.From ++ "' does not exist"⟩]) ++
      (if Blank r.To then [⟨"To", "to entity is required"⟩]
        else if r.To ∈ m.keys then []
        else [⟨"To", "entity '" ++ r.To ++ "' does not exist"⟩]) ++
      (if Blank r.Field then [⟨"Field", "field name is required"⟩] else []) ++
      (if r.Cardinality = "one-to-one" ∨ r.Cardinality = "one-to-many" ∨
          r.Cardinality = "many-to-one" ∨ r.Cardinality = "many-to-many" then []
        else [⟨"Cardinality", "invalid cardinality: " ++ r.Cardinality⟩]) := by
  unfold Relationship.ValidateAgainst isValidCardinality OneToOne OneToMany ManyToOne
    ManyToMany
  simp only [TrimSpace_eq_empty_iff, ← contains_iff_mem_keys]
  cases m.contains r.From <;> cases m.contains r.To <;>
    by_cases h1 : Blank r.From <;> by_cases h2 : Blank r.To <;>
    by_cases h3 : Blank r.Field <;>
    by_cases h4 : (r.Cardinality = "one-to-one" ∨ r.Cardinality = "one-to-many" ∨
          r.Cardinality = "many-to-one" ∨ r.Cardinality = "many-to-many") <;>
    simp [h1, h2, h3, h4]

theorem validateEntities_eq (m : EntityMap) (errors : List ValidationError) :
    Diagram.validateEntities m errors = errors ++ entityDiagnostics m := by
  unfold entityDiagnostics
  induction m generalizing errors with
  | nil => simp [Diagram.validateEntities]
  | cons p rest ih =>
    obtain ⟨name, entity⟩ := p
    simp only [Diagram.validateEntities, guarded_fold_eq, ih, List.flatMap_cons,
      List.append_assoc]

theorem validateRelationships_eq (m : EntityMap) (rels : List Relationship)
    (i : Nat) (errors : List ValidationError) :
    Diagram.validateRelationships m rels i errors =
      errors ++ (rels.enumFrom i).flatMap fun p =>
        rePrefix ("Relationship[" ++ toString p.1 ++ "].") (p.2.ValidateAgainst m) := by
  induction rels generalizing i errors with
  | nil => simp [Diagram.validateRelationships]
  | cons r rest ih =>
    simp only [Diagram.validateRelationships, guarded_fold_eq, ih, fmtInt,
      List.enumFrom_cons, List.flatMap_cons, List.append_assoc]

/-- The diagnostics of `Diagram.Validate` in closed form: the title entry, the
entities entry, the entity diagnostics and the relationship diagnostics. -/
theorem diagramValidate_eq (d : Diagram) :
    d.Validate =
      (if Blank d.Title then [⟨"Title", "diagram title is required"⟩] else []) ++
      (if d.Entities = [] then
          [⟨"Entities", "diagram must have at least one entity"⟩] else []) ++
      entityDiagnostics d.Entities ++
      relationshipDiagnostics d.Entities d.Relationships := by
  unfold Diagram.Validate relationshipDiagnostics List.enum
  simp only [validateEntities_eq, validateRelationships_eq,
    TrimSpace_eq_empty_iff, List.length_eq_zero, List.nil_append]
  by_cases h1 : Blank d.Title <;> by_cases h2 : d.Entities = [] <;> simp [h1, h2]

theorem rePrefix_eq_nil_iff (pfx : String) (errs : List ValidationError) :
    rePrefix pfx errs = [] ↔ errs = [] := by
  unfold rePrefix
  exact List.map_eq_nil_iff

theorem flatMap_enumFrom_eq_nil_iff {α : Type} (g : α → List ValidationError)
    (pf : Nat → String) (l : List α) (i : Nat) :
    ((l.enumFrom i).flatMap fun p => rePrefix (pf p.1) (g p.2)) = [] ↔
      ∀ a ∈ l, g a = [] := by
  induction l generalizing i with
  | nil => simp
  | cons x xs ih =>
    simp only [List.enumFrom_cons, List.flatMap_cons, List.append_eq_nil, ih,
      rePrefix_eq_nil_iff, List.mem_cons, forall_eq_or_imp]

theorem mem_flatMap_enumFrom {α : Type} (g : α → List ValidationError)
    (pf : Nat → String) (l : List α) (i j : Nat) (a : α) (err : ValidationError)
    (ha : l[j]? = some a) (herr : err ∈ g a) :
    (⟨pf (i + j) ++ err.Field, err.Message⟩ : ValidationError) ∈
      (l.enumFrom i).flatMap fun p => rePrefix (pf p.1) (g p.2) := by
  rw [List.mem_flatMap]
  refine ⟨(i + j, a), ?_, ?_⟩
  · rw [List.mem_iff_getElem?]
    exact ⟨j, by rw [List.getElem?_enumFrom, ha]; rfl⟩
  · unfold rePrefix
    exact List.mem_map.mpr ⟨err, herr, rfl⟩

theorem attributeValidate_eq_nil_iff (a : Attribute) : a.Validate = [] ↔ a.Valid := by
  rw [attributeValidate_eq]
  unfold Attribute.Valid
  cases hk : a.Key with
  | none => by_cases h1 : Blank a.Name <;> by_cases h2 : Blank a.Typ <;> simp [h1, h2]
  | some k =>
    by_cases h1 : Blank a.Name <;> by_cases h2 : Blank a.Typ <;>
      by_cases h3 : (k = "PK" ∨ k = "FK" ∨ k = "UK") <;> simp [h1, h2, h3]

theorem entityValidate_eq_nil_iff (e : Entity) : e.Validate = [] ↔ e.Valid := by
  rw [entityValidate_eq]
  unfold Entity.Valid attributeDiagnostics List.enum
  simp only [List.append_eq_nil,
    flatMap_enumFrom_eq_nil_iff Attribute.Validate
      (fun i => "Attribute[" ++ toString i ++ "]."),
    attributeValidate_eq_nil_iff]
  by_cases h1 : Blank e.Name <;> by_cases h2 : e.Attributes = [] <;> simp [h1, h2]

theorem validateAgainst_eq_nil_iff (r : Relationship) (m : EntityMap) :
    r.ValidateAgainst m = [] ↔ r.ValidIn m := by
  rw [validateAgainst_eq]
  unfold Relationship.ValidIn
  by_cases h1 : Blank r.From <;> by_cases h2 : Blank r.To <;>
    by_cases h3 : Blank r.Field <;>
    by_cases h4 : (r.Cardinality = "one-to-one" ∨ r.Cardinality = "one-to-many" ∨
          r.Cardinality = "many-to-one" ∨ r.Cardinality = "many-to-many") <;>
    by_cases h5 : r.From ∈ m.keys <;> by_cases h6 : r.To ∈ m.keys <;>
    simp [h1, h2, h3, h4, h5, h6]

theorem entityDiagnostics_field (m : EntityMap) (err : ValidationError)
    (h : err ∈ entityDiagnostics m) :
    ∃ k f, err.Field = "Entity[" ++ k ++ "]." ++ f := by
  unfold entityDiagnostics rePrefix at h
  simp only [List.mem_flatMap, List.mem_map] at h
  obtain ⟨p, _, e0, _, rfl⟩ := h
  exact ⟨p.1, e0.Field, rfl⟩

theorem relationshipDiagnostics_field (m : EntityMap) (rels : List Relationship)
    (err : ValidationError) (h : err ∈ relationshipDiagnostics m rels) :
    ∃ (i : Nat) (f : String), err.Field = "Relationship[" ++ toString i ++ "]." ++ f := by
  unfold relationshipDiagnostics rePrefix at h
  simp only [List.mem_flatMap, List.mem_map] at h
  obtain ⟨p, _, e0, _, rfl⟩ := h
  exact ⟨p.1, e0.Field, rfl⟩

theorem entity_field_ne_title (k f : String) : "Entity[" ++ k ++ "]." ++ f ≠ "Title" := by
  intro h
  have := congrArg String.data h
  simp at this

theorem entity_field_ne_entities (k f : String) :
    "Entity[" ++ k ++ "]." ++ f ≠ "Entities" := by
  intro h
  have := congrArg String.data h
  simp at this

theorem relationship_field_ne_title (i f : String) :
    "Relationship[" ++ i ++ "]." ++ f ≠ "Title" := by
  intro h
  have := congrArg String.data h
  simp at this

theorem relationship_field_ne_entities (i f : String) :
    "Relationship[" ++ i ++ "]." ++ f ≠ "Entities" := by
  intro h
  have := congrArg String.data h
  simp at this

theorem mem_relationshipDiagnostics (m : EntityMap) (rels : List Relationship) (i : Nat)
    (r : Relationship) (err : ValidationError) (hr : rels[i]? = some r)
    (herr : err ∈ r.ValidateAgainst m) :
    (⟨"Relationship[" ++ toString i ++ "]." ++ err.Field, err.Message⟩ : ValidationError) ∈
      relationshipDiagnostics m rels := by
  have h := mem_flatMap_enumFrom (fun r : Relationship => r.ValidateAgainst m)
    (fun i => "Relationship[" ++ toString i ++ "].") rels 0 i r err hr herr
  simp only [Nat.zero_add] at h
  exact h

theorem mem_entityDiagnostics (m : EntityMap) (k : String) (e : Entity)
    (err : ValidationError) (hk : (k, e) ∈ m) (herr : err ∈ e.Validate) :
    (⟨"Entity[" ++ k ++ "]." ++ err.Field, err.Message⟩ : ValidationError) ∈
      entityDiagnostics m := by
  unfold entityDiagnostics rePrefix
  rw [List.mem_flatMap]
  exact ⟨(k, e), hk, List.mem_map.mpr ⟨err, herr, rfl⟩⟩

theorem mem_validate_of_mem_relationshipDiagnostics (d : Diagram) (err : ValidationError)
    (h : err ∈ relationshipDiagnostics d.Entities d.Relationships) : err ∈ d.Validate := by
  rw [diagramValidate_eq]
  exact List.mem_append_right _ h

theorem mem_validate_of_mem_entityDiagnostics (d : Diagram) (err : ValidationError)
    (h : err ∈ entityDiagnostics d.Entities) : err ∈ d.Validate := by
  rw [diagramValidate_eq]
  exact List.mem_append_left _ (List.mem_append_right _ h)

/-! ## The claims -/

/-- C1: `Diagram.Validate` returns the empty list if and only if the diagram is
structurally valid: the title is not blank, the mapping has at least one entry,
every stored entity has a non-blank name and at least one attribute, every
attribute has a non-blank name and type and a key that is absent or one of
`PK`, `FK`, `UK`, and every relationship has non-blank `From`, `To` and `Field`,
`From` and `To` among the keys of the mapping, and one of the four valid
cardinalities. -/
theorem C1_validate_nil_iff_structurallyValid (d : Diagram) :
    d.Validate = [] ↔ d.StructurallyValid := by
  rw [diagramValidate_eq]
  unfold Diagram.StructurallyValid entityDiagnostics relationshipDiagnostics List.enum
  simp only [List.append_eq_nil,
    flatMap_enumFrom_eq_nil_iff (fun r : Relationship => r.ValidateAgainst d.Entities)
      (fun i => "Relationship[" ++ toString i ++ "]."),
    validateAgainst_eq_nil_iff, List.flatMap_eq_nil_iff, rePrefix_eq_nil_iff,
    entityValidate_eq_nil_iff]
  by_cases h1 : Blank d.Title <;> by_cases h2 : d.Entities = [] <;> simp [h1, h2]

/-- C2: a diagram with a non-blank title whose only entity `E` (stored under
its own non-blank name) has no attributes, and whose only relationship goes
from `E` to a non-blank name `X` that is not in the mapping, with a non-blank
field and a valid cardinality, yields exactly two errors, in this order:
`Entity[E].Attributes: entity must have at least one attribute` and
`Relationship[0].To: entity 'X' does not exist`. -/
theorem C2_empty_entity_and_dangling_target (title E X field : String) (c : Cardinality)
    (description pkg note label rnote : Option String)
    (hTitle : ¬ Blank title) (hE : ¬ Blank E) (hX : ¬ Blank X) (hXE : X ≠ E)
    (hField : ¬ Blank field)
    (hc : c = "one-to-one" ∨ c = "one-to-many" ∨ c = "many-to-one" ∨ c = "many-to-many") :
    Diagram.Validate
        { Title := title, Description := description,
          Entities := [(E, { Package := pkg, Note := note, Name := E, Attributes := [] })],
          Relationships :=
            [{ Label := label, Note := rnote, From := E, To := X, Field := field,
               Cardinality := c }] } =
      [⟨"Entity[" ++ E ++ "].Attributes", "entity must have at least one attribute"⟩,
       ⟨"Relationship[0].To", "entity \x27" ++ X ++ "\x27 does not exist"⟩] ∧
    (Diagram.Validate
        { Title := title, Description := description,
          Entities := [(E, { Package := pkg, Note := note, Name := E, Attributes := [] })],
          Relationships :=
            [{ Label := label, Note := rnote, From := E, To := X, Field := field,
               Cardinality := c }] }).map ValidationError.Error =
      ["Entity[" ++ E ++ "].Attributes: entity must have at least one attribute",
       "Relationship[0].To: entity \x27" ++ X ++ "\x27 does not exist"] := by
  have key : Diagram.Validate
        { Title := title, Description := description,
          Entities := [(E, { Package := pkg, Note := note, Name := E, Attributes := [] })],
          Relationships :=
            [{ Label := label, Note := rnote, From := E, To := X, Field := field,
               Cardinality := c }] } =
      [⟨"Entity[" ++ E ++ "].Attributes", "entity must have at least one attribute"⟩,
       ⟨"Relationship[0].To", "entity \x27" ++ X ++ "\x27 does not exist"⟩] := by
    rw [diagramValidate_eq]
    simp [entityDiagnostics, relationshipDiagnostics, entityValidate_eq,
      validateAgainst_eq, attributeDiagnostics, rePrefix, EntityMap.keys,
      hTitle, hE, hX, hXE, hField, hc, List.enum]
    refine ⟨?_, by decide⟩
    apply String.ext
    simp [String.data_append]
  refine ⟨key, ?_⟩
  rw [key]
  simp only [List.map, ValidationError.Error]
  congr 1
  · apply String.ext; simp [String.data_append]

/-- C2, witness: the scenario of the specification, `E = "Empty"` and
`X = "NonExistent"`. -/
theorem C2_empty_entity_and_dangling_target_witness :
    (Diagram.Validate
        { Title := "Invalid Diagram", Description := none,
          Entities := [("Empty", { Package := none, Note := none, Name := "Empty",
                                   Attributes := [] })],
          Relationships :=
            [{ Label := none, Note := none, From := "Empty", To := "NonExistent",
               Field := "Field", Cardinality := OneToOne }] }).map ValidationError.Error =
      ["Entity[Empty].Attributes: entity must have at least one attribute",
       "Relationship[0].To: entity \x27NonExistent\x27 does not exist"] :=
  (C2_empty_entity_and_dangling_target "Invalid Diagram" "Empty" "NonExistent" "Field"
    OneToOne none none none none none (by decide) (by decide) (by decide) (by decide)
    (by decide) (by decide)).2.trans (by decide)

/-- C3: when the title is blank (empty or white space only) the result of
`Diagram.Validate` starts with the error of field `Title` and message
`diagram title is required`; when the title is not blank no error of the
result has field exactly `Title`. -/
theorem C3_title_error (d : Diagram) :
    (Blank d.Title →
      d.Validate.head? = some ⟨"Title", "diagram title is required"⟩ ∧
      (⟨"Title", "diagram title is required"⟩ : ValidationError) ∈ d.Validate) ∧
    (¬ Blank d.Title → ∀ err ∈ d.Validate, err.Field ≠ "Title") := by
  rw [diagramValidate_eq]
  refine ⟨fun h => ?_, fun h err herr => ?_⟩
  · simp [h]
  · simp only [h, if_false, List.nil_append, List.mem_append] at herr
    rcases herr with (herr | herr) | herr
    · by_cases h2 : d.Entities = []
      · simp only [h2, if_true, List.mem_singleton] at herr
        rw [herr]; decide
      · simp [h2] at herr
    · obtain ⟨k, f, hf⟩ := entityDiagnostics_field _ _ herr
      rw [hf]; exact entity_field_ne_title k f
    · obtain ⟨i, f, hf⟩ := relationshipDiagnostics_field _ _ _ herr
      rw [hf]; exact relationship_field_ne_title _ f

/-- C3, witness: a title of white space only, and a proper title. -/
theorem C3_title_error_witness :
    (Diagram.Validate ⟨" \t\n", none, [], []⟩).head? =
        some ⟨"Title", "diagram title is required"⟩ ∧
    ∀ err ∈ Diagram.Validate ⟨"Test", none, [], []⟩, err.Field ≠ "Title" :=
  ⟨((C3_title_error ⟨" \t\n", none, [], []⟩).1 (by decide)).1,
   (C3_title_error ⟨"Test", none, [], []⟩).2 (by decide)⟩

/-- C4: a diagram with zero entities gets the error of field `Entities` and
message `diagram must have at least one entity`; for a diagram with at least
one entity no error of the result has field exactly `Entities`. -/
theorem C4_entities_error (d : Diagram) :
    (d.Entities.length = 0 →
      (⟨"Entities", "diagram must have at least one entity"⟩ : ValidationError) ∈
        d.Validate) ∧
    (1 ≤ d.Entities.length → ∀ err ∈ d.Validate, err.Field ≠ "Entities") := by
  rw [diagramValidate_eq]
  refine ⟨fun h => ?_, fun h err herr => ?_⟩
  · have h0 : d.Entities = [] := List.length_eq_zero.mp h
    simp [h0]
  · have h0 : d.Entities ≠ [] := by
      intro h1; rw [h1] at h; simp at h
    simp only [h0, if_false, List.append_nil, List.mem_append] at herr
    rcases herr with (herr | herr) | herr
    · by_cases h1 : Blank d.Title
      · simp only [h1, if_true, List.mem_singleton] at herr
        rw [herr]; decide
      · simp [h1] at herr
    · obtain ⟨k, f, hf⟩ := entityDiagnostics_field _ _ herr
      rw [hf]; exact entity_field_ne_entities k f
    · obtain ⟨i, f, hf⟩ := relationshipDiagnostics_field _ _ _ herr
      rw [hf]; exact relationship_field_ne_entities _ f

/-- C4, witness: the empty diagram titled `Test`, and the valid diagram of the
tests (one entity `User` with one attribute). -/
theorem C4_entities_error_witness :
    (⟨"Entities", "diagram must have at least one entity"⟩ : ValidationError) ∈
        Diagram.Validate ⟨"Test", none, [], []⟩ ∧
    ∀ err ∈ Diagram.Validate
        ⟨"Test", none,
          [("User", ⟨none, none, "User", [⟨none, none, "ID", "string", false⟩]⟩)], []⟩,
      err.Field ≠ "Entities" :=
  ⟨(C4_entities_error ⟨"Test", none, [], []⟩).1 (by decide),
   (C4_entities_error
      ⟨"Test", none,
        [("User", ⟨none, none, "User", [⟨none, none, "ID", "string", false⟩]⟩)], []⟩).2
      (by decide)⟩

/-- C5, as stated, fails: in the diagram titled `Test` with the single entity
`User` and the single relationship from the empty name to `User`, the `From`
name is absent from the mapping, yet the only diagnostic is
`Relationship[0].From: from entity is required`; no error carries the message
`entity '' does not exist`. -/
theorem C5_counterexample :
    ("" : String) ∉ EntityMap.keys
        [("User", ⟨none, none, "User", [⟨none, none, "ID", "string", false⟩]⟩)] ∧
    Diagram.Validate
        ⟨"Test", none,
          [("User", ⟨none, none, "User", [⟨none, none, "ID", "string", false⟩]⟩)],
          [⟨none, none, "", "User", "Ref", OneToOne⟩]⟩ =
      [⟨"Relationship[0].From", "from entity is required"⟩] ∧
    (⟨"Relationship[" ++ toString 0 ++ "].From",
        "entity \x27" ++ "" ++ "\x27 does not exist"⟩ : ValidationError) ∉
      Diagram.Validate
        ⟨"Test", none,
          [("User", ⟨none, none, "User", [⟨none, none, "ID", "string", false⟩]⟩)],
          [⟨none, none, "", "User", "Ref", OneToOne⟩]⟩ := by
  refine ⟨by decide, by decide, by decide⟩

/-- C5, amended: for every diagram and every relationship at index `i` whose
`From` name is not blank and is absent from the entity mapping, the result of
`Diagram.Validate` contains the error with field `Relationship[i].From` and
message `entity '<From>' does not exist`; likewise for a `To` name that is not
blank and absent, with field `Relationship[i].To`. -/
theorem C5_missing_endpoint (d : Diagram) (i : Nat) (r : Relationship)
    (hr : d.Relationships[i]? = some r) :
    (¬ Blank r.From → r.From ∉ d.Entities.keys →
      (⟨"Relationship[" ++ toString i ++ "].From",
          "entity \x27" ++ r.From ++ "\x27 does not exist"⟩ : ValidationError) ∈
        d.Validate) ∧
    (¬ Blank r.To → r.To ∉ d.Entities.keys →
      (⟨"Relationship[" ++ toString i ++ "].To",
          "entity \x27" ++ r.To ++ "\x27 does not exist"⟩ : ValidationError) ∈
        d.Validate) := by
  constructor
  · intro hb habs
    have hmem : (⟨"From", "entity \x27" ++ r.From ++ "\x27 does not exist"⟩ :
        ValidationError) ∈ r.ValidateAgainst d.Entities := by
      rw [validateAgainst_eq]; simp [hb, habs]
    have h := mem_validate_of_mem_relationshipDiagnostics d _
      (mem_relationshipDiagnostics d.Entities d.Relationships i r _ hr hmem)
    have hs : "Relationship[" ++ toString i ++ "]." ++ "From" =
        "Relationship[" ++ toString i ++ "].From" := by
      apply String.ext; simp [String.data_append]
    simpa only [hs] using h
  · intro hb habs
    have hmem : (⟨"To", "entity \x27" ++ r.To ++ "\x27 does not exist"⟩ :
        ValidationError) ∈ r.ValidateAgainst d.Entities := by
      rw [validateAgainst_eq]; simp [hb, habs]
    have h := mem_validate_of_mem_relationshipDiagnostics d _
      (mem_relationshipDiagnostics d.Entities d.Relationships i r _ hr hmem)
    have hs : "Relationship[" ++ toString i ++ "]." ++ "To" =
        "Relationship[" ++ toString i ++ "].To" := by
      apply String.ext; simp [String.data_append]
    simpa only [hs] using h

/-- C5, witness: the relationship `NonExistent -> Missing` at index 1 of a
diagram whose only entity is `User`. -/
theorem C5_missing_endpoint_witness :
    (⟨"Relationship[" ++ toString 1 ++ "].From",
        "entity \x27" ++ "NonExistent" ++ "\x27 does not exist"⟩ : ValidationError) ∈
      Diagram.Validate
        ⟨"Test", none,
          [("User", ⟨none, none, "User", [⟨none, none, "ID", "string", false⟩]⟩)],
          [⟨none, none, "User", "User", "Self", OneToOne⟩,
           ⟨none, none, "NonExistent", "Missing", "Ref", OneToMany⟩]⟩ ∧
    (⟨"Relationship[" ++ toString 1 ++ "].To",
        "entity \x27" ++ "Missing" ++ "\x27 does not exist"⟩ : ValidationError) ∈
      Diagram.Validate
        ⟨"Test", none,
          [("User", ⟨none, none, "User", [⟨none, none, "ID", "string", false⟩]⟩)],
          [⟨none, none, "User", "User", "Self", OneToOne⟩,
           ⟨none, none, "NonExistent", "Missing", "Ref", OneToMany⟩]⟩ :=
  ⟨(C5_missing_endpoint
      ⟨"Test", none,
        [("User", ⟨none, none, "User", [⟨none, none, "ID", "string", false⟩]⟩)],
        [⟨none, none, "User", "User", "Self", OneToOne⟩,
         ⟨none, none, "NonExistent", "Missing", "Ref", OneToMany⟩]⟩
      1 ⟨none, none, "NonExistent", "Missing", "Ref", OneToMany⟩ rfl).1
      (by decide) (by decide),
   (C5_missing_endpoint
      ⟨"Test", none,
        [("User", ⟨none, none, "User", [⟨none, none, "ID", "string", false⟩]⟩)],
        [⟨none, none, "User", "User", "Self", OneToOne⟩,
         ⟨none, none, "NonExistent", "Missing", "Ref", OneToMany⟩]⟩
      1 ⟨none, none, "NonExistent", "Missing", "Ref", OneToMany⟩ rfl).2
      (by decide) (by decide)⟩

/-- C6: `Relationship.ValidateAgainst` returns at most one error of field
`From` and at most one of field `To`.  When `From` is blank the errors of field
`From` are exactly `from entity is required`, whatever the mapping holds;
otherwise they are exactly `entity '<From>' does not exist` when `From` is not
a key of the mapping, and none when it is.  The same holds for `To` with
`to entity is required`. -/
theorem C6_blank_and_existence_exclusive (r : Relationship) (m : EntityMap) :
    ((r.ValidateAgainst m).filter fun err => err.Field = "From").length ≤ 1 ∧
    ((r.ValidateAgainst m).filter fun err => err.Field = "To").length ≤ 1 ∧
    (Blank r.From →
      ((r.ValidateAgainst m).filter fun err => err.Field = "From") =
        [⟨"From", "from entity is required"⟩]) ∧
    (¬ Blank r.From → r.From ∉ m.keys →
      ((r.ValidateAgainst m).filter fun err => err.Field = "From") =
        [⟨"From", "entity \x27" ++ r.From ++ "\x27 does not exist"⟩]) ∧
    (¬ Blank r.From → r.From ∈ m.keys →
      ((r.ValidateAgainst m).filter fun err => err.Field = "From") = []) ∧
    (Blank r.To →
      ((r.ValidateAgainst m).filter fun err => err.Field = "To") =
        [⟨"To", "to entity is required"⟩]) ∧
    (¬ Blank r.To → r.To ∉ m.keys →
      ((r.ValidateAgainst m).filter fun err => err.Field = "To") =
        [⟨"To", "entity \x27" ++ r.To ++ "\x27 does not exist"⟩]) ∧
    (¬ Blank r.To → r.To ∈ m.keys →
      ((r.ValidateAgainst m).filter fun err => err.Field = "To") = []) := by
  rw [validateAgainst_eq]
  by_cases h1 : Blank r.From <;> by_cases h2 : Blank r.To <;>
    by_cases h3 : Blank r.Field <;>
    by_cases h4 : (r.Cardinality = "one-to-one" ∨ r.Cardinality = "one-to-many" ∨
          r.Cardinality = "many-to-one" ∨ r.Cardinality = "many-to-many") <;>
    by_cases h5 : r.From ∈ m.keys <;> by_cases h6 : r.To ∈ m.keys <;>
    simp [h1, h2, h3, h4, h5, h6, List.filter_cons]

/-- C6, witness: a mapping with an entry stored under the blank key of one
space; a relationship from that blank name to the absent name `Ghost`. -/
theorem C6_blank_and_existence_exclusive_witness :
    ((Relationship.ValidateAgainst ⟨none, none, " ", "Ghost", "Posts", OneToMany⟩
        [(" ", ⟨none, none, " ", []⟩)]).filter fun err => err.Field = "From") =
      [⟨"From", "from entity is required"⟩] ∧
    ((Relationship.ValidateAgainst ⟨none, none, " ", "Ghost", "Posts", OneToMany⟩
        [(" ", ⟨none, none, " ", []⟩)]).filter fun err => err.Field = "To") =
      [⟨"To", "entity \x27" ++ "Ghost" ++ "\x27 does not exist"⟩] :=
  ⟨(C6_blank_and_existence_exclusive ⟨none, none, " ", "Ghost", "Posts", OneToMany⟩
      [(" ", ⟨none, none, " ", []⟩)]).2.2.1 (by decide),
   (C6_blank_and_existence_exclusive ⟨none, none, " ", "Ghost", "Posts", OneToMany⟩
      [(" ", ⟨none, none, " ", []⟩)]).2.2.2.2.2.2.1 (by decide) (by decide)⟩

/-- C7: the relationship diagnostics form the tail of the result of
`Diagram.Validate`, after the `Title` error, the `Entities` error and all
entity diagnostics: the tail is the concatenation, for `i = 0, 1, ...` in
declaration order, of `ValidateAgainst` of relationship `i` against the mapping,
each field rewritten to `Relationship[i].<field>` with `i` in decimal and each
message unchanged; within one relationship the errors come in the order
`From`, `To`, `Field`, `Cardinality`. -/
theorem C7_relationship_diagnostics_tail (d : Diagram) :
    d.Validate =
      ((if Blank d.Title then [⟨"Title", "diagram title is required"⟩] else []) ++
        (if d.Entities.length = 0 then
          [⟨"Entities", "diagram must have at least one entity"⟩] else []) ++
        (d.Entities.flatMap fun p =>
          p.2.Validate.map fun err =>
            ⟨"Entity[" ++ p.1 ++ "]." ++ err.Field, err.Message⟩)) ++
      (d.Relationships.enum.flatMap fun p =>
        (p.2.ValidateAgainst d.Entities).map fun err =>
          ⟨"Relationship[" ++ toString p.1 ++ "]." ++ err.Field, err.Message⟩) ∧
    ∀ (r : Relationship) (m : EntityMap),
      ((r.ValidateAgainst m).map fun err => err.Field).Sublist
        ["From", "To", "Field", "Cardinality"] := by
  constructor
  · rw [diagramValidate_eq]
    simp only [List.length_eq_zero]
    rfl
  · intro r m
    rw [validateAgainst_eq]
    by_cases h1 : Blank r.From <;> by_cases h2 : Blank r.To <;>
      by_cases h3 : Blank r.Field <;>
      by_cases h4 : (r.Cardinality = "one-to-one" ∨ r.Cardinality = "one-to-many" ∨
            r.Cardinality = "many-to-one" ∨ r.Cardinality = "many-to-many") <;>
      by_cases h5 : r.From ∈ m.keys <;> by_cases h6 : r.To ∈ m.keys <;>
      simp [h1, h2, h3, h4, h5, h6]

/-- C8, as stated, fails: in the diagram titled `Test` whose mapping stores,
under the key `K`, an entity named `E` without attributes, the entity reports
`Attributes: entity must have at least one attribute`, but the result of
`Diagram.Validate` is `Entity[K].Attributes: ...` only; no error has the field
`Entity[E].Attributes`. -/
theorem C8_counterexample :
    EntityMap.WF [("K", ⟨none, none, "E", []⟩)] ∧
    (⟨"Attributes", "entity must have at least one attribute"⟩ : ValidationError) ∈
      Entity.Validate ⟨none, none, "E", []⟩ ∧
    Diagram.Validate ⟨"Test", none, [("K", ⟨none, none, "E", []⟩)], []⟩ =
      [⟨"Entity[K].Attributes", "entity must have at least one attribute"⟩] ∧
    (⟨"Entity[" ++ Entity.Name ⟨none, none, "E", []⟩ ++ "]." ++ "Attributes",
        "entity must have at least one attribute"⟩ : ValidationError) ∉
      Diagram.Validate ⟨"Test", none, [("K", ⟨none, none, "E", []⟩)], []⟩ := by
  refine ⟨by decide, by decide, by decide, by decide⟩

/-- C8, amended: for every diagram and every entity stored in its mapping under
the key `k`, each error produced by `Entity.Validate` appears in the result of
`Diagram.Validate` with field `Entity[k].<original field>` and the same
message; `k` is the entity's `Name` whenever the entity is stored under its own
name. -/
theorem C8_entity_diagnostics_prefixed (d : Diagram) (k : String) (e : Entity)
    (hk : (k, e) ∈ d.Entities) (err : ValidationError) (herr : err ∈ e.Validate) :
    (⟨"Entity[" ++ k ++ "]." ++ err.Field, err.Message⟩ : ValidationError) ∈ d.Validate ∧
    (e.Name = k →
      (⟨"Entity[" ++ e.Name ++ "]." ++ err.Field, err.Message⟩ : ValidationError) ∈
        d.Validate) := by
  have h := mem_validate_of_mem_entityDiagnostics d _
    (mem_entityDiagnostics d.Entities k e err hk herr)
  exact ⟨h, fun hn => by rw [hn]; exact h⟩

/-- C8, witness: the entity `Empty`, stored under its own name, without
attributes. -/
theorem C8_entity_diagnostics_prefixed_witness :
    (⟨"Entity[" ++ "Empty" ++ "]." ++ "Attributes",
        "entity must have at least one attribute"⟩ : ValidationError) ∈
      Diagram.Validate ⟨"Test", none, [("Empty", ⟨none, none, "Empty", []⟩)], []⟩ :=
  (C8_entity_diagnostics_prefixed
    ⟨"Test", none, [("Empty", ⟨none, none, "Empty", []⟩)], []⟩
    "Empty" ⟨none, none, "Empty", []⟩ (by decide)
    ⟨"Attributes", "entity must have at least one attribute"⟩ (by decide)).1

/-- C9: `Entity.Validate` returns exactly: the error `Name` /
`entity name is required` if the name is blank, then the error `Attributes` /
`entity must have at least one attribute` if the attribute list is empty, then
for each attribute at 0-based index `i`, in list order, the errors of
`Attribute.Validate` with field rewritten to `Attribute[i].<original field>`
and message unchanged. -/
theorem C9_entity_validate_exact (e : Entity) :
    e.Validate =
      (if Blank e.Name then [⟨"Name", "entity name is required"⟩] else []) ++
      (if e.Attributes.length = 0 then
          [⟨"Attributes", "entity must have at least one attribute"⟩] else []) ++
      (e.Attributes.enum.flatMap fun p =>
        p.2.Validate.map fun err =>
          ⟨"Attribute[" ++ toString p.1 ++ "]." ++ err.Field, err.Message⟩) := by
  rw [entityValidate_eq]
  simp only [List.length_eq_zero]
  rfl

/-- C10: `Attribute.Validate` contains an error of field `Key` if and only if a
key is set and its value is not one of `PK`, `FK`, `UK`, and then its message
is `invalid key type: <value>`; the result has at most three errors, with
fields in the order `Name`, `Type`, `Key`; the key `INVALID` renders as
`Key: invalid key type: INVALID`. -/
theorem C10_attribute_key_error (a : Attribute) :
    ((∃ err ∈ a.Validate, err.Field = "Key") ↔
      ∃ k, a.Key = some k ∧ k ≠ "PK" ∧ k ≠ "FK" ∧ k ≠ "UK") ∧
    (∀ err ∈ a.Validate, err.Field = "Key" →
      ∃ k, a.Key = some k ∧ err.Message = "invalid key type: " ++ k) ∧
    a.Validate.length ≤ 3 ∧
    (a.Validate.map fun err => err.Field).Sublist ["Name", "Type", "Key"] ∧
    (a.Key = some "INVALID" →
      (a.Validate.filter fun err => err.Field = "Key").map ValidationError.Error =
        ["Key: invalid key type: INVALID"]) := by
  rw [attributeValidate_eq]
  cases hk : a.Key with
  | none =>
    by_cases h1 : Blank a.Name <;> by_cases h2 : Blank a.Typ <;> simp [h1, h2]
  | some k =>
    by_cases h3 : (k = "PK" ∨ k = "FK" ∨ k = "UK")
    · have h4 : ¬ k = "INVALID" := by
        rcases h3 with rfl | rfl | rfl <;> decide
      have h5 : ¬ k = "PK" → ¬ k = "FK" → k = "UK" := by tauto
      by_cases h1 : Blank a.Name <;> by_cases h2 : Blank a.Typ <;>
        simp [h1, h2, h3, List.filter_cons, ValidationError.Error] <;>
        exact ⟨h5, h4⟩
    · have h4 : ¬ k = "PK" ∧ ¬ k = "FK" ∧ ¬ k = "UK" := by tauto
      have h5 : k = "INVALID" →
          "Key: " ++ ("invalid key type: " ++ k) = "Key: invalid key type: INVALID" := by
        intro hk2; subst hk2; decide
      by_cases h1 : Blank a.Name <;> by_cases h2 : Blank a.Typ <;>
        simp [h1, h2, h3, List.filter_cons, ValidationError.Error] <;>
        exact ⟨h4, h5⟩

/-- C10, witness: the attribute `ID : string` with the key `INVALID`. -/
theorem C10_attribute_key_error_witness :
    ((Attribute.Validate ⟨some "INVALID", none, "ID", "string", false⟩).filter
        fun err => err.Field = "Key").map ValidationError.Error =
      ["Key: invalid key type: INVALID"] :=
  (C10_attribute_key_error ⟨some "INVALID", none, "ID", "string", false⟩).2.2.2.2 rfl

/-- C18: an override label replaces the field name completely.  With override
label `L`, each of `formatDOTRelationship` and `formatMermaidRelationship`
returns the text it returns for the relationship with the same `From`, `To`
and cardinality, no override and field name `L`; without an override the label
shown is the field name. -/
theorem C18_override_label_replaces_field (table : Char → Bool) (L src dst field : String)
    (c : Cardinality) (note note2 : Option String) :
    formatDOTRelationship table ⟨some L, note, src, dst, field, c⟩ =
      formatDOTRelationship table ⟨none, note2, src, dst, L, c⟩ ∧
    formatMermaidRelationship ⟨some L, note, src, dst, field, c⟩ =
      formatMermaidRelationship ⟨none, note2, src, dst, L, c⟩ ∧
    formatMermaidRelationship ⟨none, note, src, dst, field, c⟩ =
      "    " ++ sanitizeName src ++ " " ++ getMermaidCardinality c ++ " " ++
        sanitizeName dst ++ " : " ++ field ++ "\n" ∧
    formatDOTRelationship table ⟨none, note, src, dst, field, c⟩ =
      "    " ++ sanitizeName src ++ " -> " ++ sanitizeName dst ++ " [" ++
        getDOTCardinality c ++ " label=" ++ Quote table (escapeDOT field) ++ "];\n" :=
  ⟨rfl, rfl, rfl, rfl⟩

/-- C19: `getDOTCardinality` maps the four valid cardinalities to their style
strings and every other string to `arrowhead=normal`; the five results are
pairwise distinct, so that equal styles come from cardinalities that are both
valid and equal, or both unrecognized. -/
theorem C19_getDOTCardinality_table (c : Cardinality) :
    getDOTCardinality "one-to-one" = "arrowhead=normal, arrowtail=normal, dir=both" ∧
    getDOTCardinality "one-to-many" = "arrowhead=crow, arrowtail=normal, dir=both" ∧
    getDOTCardinality "many-to-one" = "arrowhead=normal, arrowtail=crow, dir=both" ∧
    getDOTCardinality "many-to-many" = "arrowhead=crow, arrowtail=crow, dir=both" ∧
    (c ≠ "one-to-one" → c ≠ "one-to-many" → c ≠ "many-to-one" → c ≠ "many-to-many" →
      getDOTCardinality c = "arrowhead=normal") ∧
    ["arrowhead=normal, arrowtail=normal, dir=both",
      "arrowhead=crow, arrowtail=normal, dir=both",
      "arrowhead=normal, arrowtail=crow, dir=both",
      "arrowhead=crow, arrowtail=crow, dir=both",
      "arrowhead=normal"].Nodup ∧
    ∀ c2 : Cardinality, getDOTCardinality c = getDOTCardinality c2 →
      isValidCardinality c = isValidCardinality c2 ∧
      (isValidCardinality c = true → c = c2) := by
  refine ⟨by decide, by decide, by decide, by decide, ?_, by decide, ?_⟩
  · intro h1 h2 h3 h4
    simp [getDOTCardinality, OneToOne, OneToMany, ManyToOne, ManyToMany, h1, h2, h3, h4]
  · intro c2
    unfold getDOTCardinality isValidCardinality OneToOne OneToMany ManyToOne ManyToMany
    by_cases a1 : c = "one-to-one" <;> by_cases a2 : c = "one-to-many" <;>
      by_cases a3 : c = "many-to-one" <;> by_cases a4 : c = "many-to-many" <;>
      by_cases b1 : c2 = "one-to-one" <;> by_cases b2 : c2 = "one-to-many" <;>
      by_cases b3 : c2 = "many-to-one" <;> by_cases b4 : c2 = "many-to-many" <;>
      simp_all

/-- C19, witness: the unrecognized cardinality `unknown`. -/
theorem C19_getDOTCardinality_table_witness :
    getDOTCardinality "unknown" = "arrowhead=normal" :=
  (C19_getDOTCardinality_table "unknown").2.2.2.2.1 (by decide) (by decide) (by decide)
    (by decide)

/-- C20: `getMermaidCardinality` maps the four valid cardinalities to their
symbols and every other string to the symbol of one-to-one; the four symbols
of the valid cardinalities are pairwise distinct, and a relationship with an
unrecognized cardinality is rendered exactly like the same relationship with
cardinality one-to-one. -/
theorem C20_getMermaidCardinality_table (c : Cardinality) :
    getMermaidCardinality "one-to-one" = "||--||" ∧
    getMermaidCardinality "one-to-many" = "||--o\x7b" ∧
    getMermaidCardinality "many-to-one" = "\x7do--||" ∧
    getMermaidCardinality "many-to-many" = "\x7do--o\x7b" ∧
    (c ≠ "one-to-one" → c ≠ "one-to-many" → c ≠ "many-to-one" → c ≠ "many-to-many" →
      getMermaidCardinality c = "||--||" ∧
      ∀ (label note : Option String) (src dst field : String),
        formatMermaidRelationship ⟨label, note, src, dst, field, c⟩ =
          formatMermaidRelationship ⟨label, note, src, dst, field, OneToOne⟩) ∧
    ["||--||", "||--o\x7b", "\x7do--||", "\x7do--o\x7b"].Nodup := by
  refine ⟨by decide, by decide, by decide, by decide, ?_, by decide⟩
  intro h1 h2 h3 h4
  have h : getMermaidCardinality c = "||--||" := by
    simp [getMermaidCardinality, OneToOne, OneToMany, ManyToOne, ManyToMany, h1, h2, h3, h4]
  refine ⟨h, ?_⟩
  intro label note src dst field
  unfold formatMermaidRelationship
  simp only [h]
  rfl

/-- C20, witness: the unrecognized cardinality `unknown`. -/
theorem C20_getMermaidCardinality_table_witness :
    getMermaidCardinality "unknown" = "||--||" :=
  ((C20_getMermaidCardinality_table "unknown").2.2.2.2.1 (by decide) (by decide) (by decide)
    (by decide)).1

/-! ## Auxiliary lemmas on the renderers -/

theorem replaceScan_single (c : Char) (new l : List Char) :
    replaceScan [c] new 0 l = l.flatMap fun x => if x = c then new else [x] := by
  induction l with
  | nil => simp [replaceScan]
  | cons x xs ih =>
    by_cases h : x = c
    · subst h
      simp [replaceScan, List.isPrefixOf, ih]
    · have h2 : ¬ c = x := fun e => h e.symm
      simp [replaceScan, List.isPrefixOf, ih, h, h2]

theorem escapeDOT_data (s : String) :
    (escapeDOT s).data =
      ((s.data.flatMap fun x => if x = '\\' then ['\\', '\\'] else [x]).flatMap
        fun x => if x = '"' then ['\\', '"'] else [x]).flatMap
        fun x => if x = '\n' then ['\\', 'n'] else [x] := by
  have h1 : ("\\" : String).data = ['\\'] := rfl
  have h2 : ("\"" : String).data = ['"'] := rfl
  have h3 : ("\n" : String).data = ['\n'] := rfl
  have e1 : ("\\\\" : String).data = ['\\', '\\'] := rfl
  have e2 : ("\\\"" : String).data = ['\\', '"'] := rfl
  have e3 : ("\\n" : String).data = ['\\', 'n'] := rfl
  simp [escapeDOT, ReplaceAll, h1, h2, h3, e1, e2, e3, replaceScan_single]

theorem escapeDOT_append (a b : String) :
    escapeDOT (a ++ b) = escapeDOT a ++ escapeDOT b := by
  apply String.ext
  simp only [escapeDOT_data, String.data_append, List.flatMap_append]

theorem foldl_concat {α : Type} (f : α → String) (l : List α) (acc : String) :
    l.foldl (fun sb x => sb ++ f x) acc = acc ++ Concat (l.map f) := by
  induction l generalizing acc with
  | nil => simp [Concat]
  | cons x xs ih => simp [ih, Concat, String.append_assoc]

theorem join_append_sep (l : List String) (sep : String) (h : l ≠ []) :
    Join l sep ++ sep = Concat (l.map fun x => x ++ sep) := by
  induction l with
  | nil => exact absurd rfl h
  | cons a rest ih =>
    cases rest with
    | nil => simp [Join, Concat]
    | cons b rest2 =>
      have ih2 := ih (by simp)
      simp only [Join, List.map, Concat, String.append_assoc] at ih2 ⊢
      rw [ih2]

theorem escapeDOT_colon : escapeDOT ": " = ": " := by decide

theorem escapeDOT_space : escapeDOT " " = " " := by decide

theorem escapeDOT_question : escapeDOT "?" = "?" := by decide

/-- C15: `formatDOTEntity` emits a node declaration whose identifier is
`sanitizeName` of the name and whose record label holds, after the name (as
escaped for DOT) and the delimiter `|`, every formatted attribute line followed
by the marker backslash-l, the last one included; with zero attributes the body
is the single marker. -/
theorem C15_formatDOTEntity_lines (entity : Entity) :
    (entity.Attributes ≠ [] →
      formatDOTEntity entity =
        "    " ++ sanitizeName entity.Name ++ " [label=\"\x7b" ++ escapeDOT entity.Name ++
          "|" ++ Concat (entity.Attributes.map fun attr => formatDOTAttribute attr ++ "\\l") ++
          "\x7d\"];\n") ∧
    (entity.Attributes = [] →
      formatDOTEntity entity =
        "    " ++ sanitizeName entity.Name ++ " [label=\"\x7b" ++ escapeDOT entity.Name ++
          "|\\l\x7d\"];\n") := by
  unfold formatDOTEntity
  simp only [foldl_append_singleton formatDOTAttribute, List.nil_append]
  constructor
  · intro h
    have h2 : entity.Attributes.map formatDOTAttribute ≠ [] := by simpa using h
    have h3 := join_append_sep (entity.Attributes.map formatDOTAttribute) "\\l" h2
    simp only [List.map_map] at h3
    have h4 : ((fun x : String => x ++ "\\l") ∘ formatDOTAttribute) =
        fun attr => formatDOTAttribute attr ++ "\\l" := rfl
    rw [h4] at h3
    rw [← h3]
    apply String.ext
    simp [String.data_append]
  · intro h
    rw [h]
    apply String.ext
    simp [String.data_append, Join]

/-- C15, witness: the entity `Cart` of the example, and an entity without
attributes. -/
theorem C15_formatDOTEntity_lines_witness :
    formatDOTEntity
        ⟨none, none, "Cart",
          [⟨some "PK", none, "ID", "string", false⟩,
           ⟨some "FK", none, "UserID", "string", false⟩]⟩ =
      "    Cart [label=\"\x7bCart|PK ID: string\\lFK UserID: string\\l\x7d\"];\n" ∧
    formatDOTEntity ⟨none, none, "Empty", []⟩ =
      "    Empty [label=\"\x7bEmpty|\\l\x7d\"];\n" :=
  ⟨((C15_formatDOTEntity_lines
      ⟨none, none, "Cart",
        [⟨some "PK", none, "ID", "string", false⟩,
         ⟨some "FK", none, "UserID", "string", false⟩]⟩).1 (by decide)).trans (by decide),
   ((C15_formatDOTEntity_lines ⟨none, none, "Empty", []⟩).2 rfl).trans (by decide)⟩

/-- C16: `formatDOTAttribute` is `escapeDOT` of the single-space join of, in
this order: the key string (only if a key is set), the text
`<name>: <sanitizeType(type)>`, and `?` (only if nullable).  Hence the line of
a nullable attribute is the line of the same attribute without the flag
followed by a space and `?`, and the line of an attribute without a key begins
with the escaped name followed by a colon and a space. -/
theorem C16_formatDOTAttribute_parts (attr : Attribute) :
    formatDOTAttribute attr =
      escapeDOT (Join
        ((match attr.Key with
          | some k => [k]
          | none => []) ++
          [attr.Name ++ ": " ++ sanitizeType attr.Typ] ++
          (if attr.Nullable then ["?"] else [])) " ") ∧
    (attr.Nullable = true →
      formatDOTAttribute attr =
        formatDOTAttribute ⟨attr.Key, attr.Note, attr.Name, attr.Typ, false⟩ ++ " ?") ∧
    (attr.Key = none →
      formatDOTAttribute attr =
        escapeDOT attr.Name ++ ": " ++ escapeDOT (sanitizeType attr.Typ) ++
          (if attr.Nullable then " ?" else "")) := by
  obtain ⟨key, note, name, typ, nullable⟩ := attr
  refine ⟨?_, ?_, ?_⟩
  · cases key <;> cases nullable <;> rfl
  · intro h
    simp only at h
    subst h
    cases key with
    | none =>
      simp only [formatDOTAttribute, List.nil_append, if_true, Join, List.singleton_append,
        Bool.false_eq_true, if_false, escapeDOT_append, escapeDOT_space, escapeDOT_question,
        String.append_assoc]
      rfl
    | some k =>
      simp only [formatDOTAttribute, List.nil_append, if_true, Join, List.singleton_append,
        List.cons_append, Bool.false_eq_true, if_false, escapeDOT_append, escapeDOT_space,
        escapeDOT_question, String.append_assoc]
      rfl
  · intro h
    simp only at h
    subst h
    cases nullable
    · simp only [formatDOTAttribute, List.nil_append, Join, Bool.false_eq_true, if_false,
        escapeDOT_append, escapeDOT_colon, String.append_assoc]
      apply String.ext; simp [String.data_append]
    · simp only [formatDOTAttribute, List.nil_append, if_true, Join, List.singleton_append,
        escapeDOT_append, escapeDOT_space, escapeDOT_question, escapeDOT_colon,
        String.append_assoc]
      rfl

/-- C16, witness: a nullable attribute without a key, and one with a key. -/
theorem C16_formatDOTAttribute_parts_witness :
    formatDOTAttribute ⟨none, none, "Name", "string", true⟩ =
      formatDOTAttribute ⟨none, none, "Name", "string", false⟩ ++ " ?" ∧
    formatDOTAttribute ⟨none, none, "Name", "string", true⟩ =
      escapeDOT "Name" ++ ": " ++ escapeDOT (sanitizeType "string") ++ " ?" :=
  ⟨(C16_formatDOTAttribute_parts ⟨none, none, "Name", "string", true⟩).2.1 rfl,
   (C16_formatDOTAttribute_parts ⟨none, none, "Name", "string", true⟩).2.2 rfl⟩

/-! ## The order of the entities in the renderers -/

theorem stringLE_iff (a b : String) : stringLE a b ↔ a ≤ b := by
  unfold stringLE
  exact String.le_iff_toList_le.symm

instance : IsTotal String stringLE :=
  ⟨fun a b => by simp only [stringLE_iff]; exact le_total a b⟩

instance : IsTrans String stringLE :=
  ⟨fun a b c => by simp only [stringLE_iff]; exact le_trans⟩

instance : IsAntisymm String stringLE :=
  ⟨fun a b => by simp only [stringLE_iff]; exact le_antisymm⟩

theorem sortStrings_perm (names : List String) : (SortStrings names).Perm names :=
  List.perm_insertionSort stringLE names

theorem sortStrings_sorted (names : List String) : (SortStrings names).Sorted stringLE :=
  List.sorted_insertionSort stringLE names

theorem sortStrings_eq_of_perm (l₁ l₂ : List String) (h : l₁.Perm l₂) :
    SortStrings l₁ = SortStrings l₂ :=
  List.eq_of_perm_of_sorted
    (((sortStrings_perm l₁).trans h).trans (sortStrings_perm l₂).symm)
    (sortStrings_sorted l₁) (sortStrings_sorted l₂)

theorem entityNames_eq (d : Diagram) : d.entityNames = SortStrings d.Entities.keys := by
  unfold Diagram.entityNames EntityMap.keys
  have h := foldl_append_singleton (Prod.fst : String × Entity → String) d.Entities []
  simp only [List.nil_append] at h
  simp only [h]

theorem lookup_eq_some_iff_mem (m : EntityMap) (hm : m.WF) (k : String) (e : Entity) :
    m.lookup k = some e ↔ (k, e) ∈ m := by
  induction m with
  | nil => simp
  | cons p rest ih =>
    obtain ⟨k1, e1⟩ := p
    have hnd : k1 ∉ rest.map Prod.fst ∧ (rest.map Prod.fst).Nodup := by
      simpa [EntityMap.WF] using hm
    have ih2 := ih hnd.2
    by_cases hk : k = k1
    · subst hk
      have hnot : (k, e) ∉ rest := fun hmem => hnd.1 (List.mem_map.mpr ⟨(k, e), hmem, rfl⟩)
      simp [List.lookup, hnot, eq_comm]
    · have hb : (k == k1) = false := by simpa using hk
      simp [List.lookup, hb, ih2, hk]

theorem lookup_isSome_of_mem_keys (m : EntityMap) (k : String) (hk : k ∈ m.keys) :
    ∃ e, m.lookup k = some e := by
  induction m with
  | nil => simp [EntityMap.keys] at hk
  | cons p rest ih =>
    obtain ⟨k1, e1⟩ := p
    by_cases h : k = k1
    · subst h; exact ⟨e1, by simp [List.lookup]⟩
    · have hb : (k == k1) = false := by simpa using h
      have hk2 : k ∈ EntityMap.keys rest := by
        simp only [EntityMap.keys, List.map_cons, List.mem_cons] at hk
        rcases hk with hk | hk
        · exact absurd hk h
        · exact hk
      obtain ⟨e, he⟩ := ih hk2
      exact ⟨e, by simp [List.lookup, hb, he]⟩

theorem filterMap_lookup_keys (m : EntityMap) (ns : List String)
    (h : ∀ k ∈ ns, k ∈ m.keys) :
    (ns.filterMap fun k => (m.lookup k).map fun e => (k, e)).map Prod.fst = ns := by
  induction ns with
  | nil => simp
  | cons k rest ih =>
    obtain ⟨e, he⟩ := lookup_isSome_of_mem_keys m k (h k (List.mem_cons_self _ _))
    have ih2 := ih fun k2 hk2 => h k2 (List.mem_cons_of_mem _ hk2)
    simp [List.filterMap_cons, he, ih2]

theorem sorted_keys (m : EntityMap) : m.sorted.map Prod.fst = SortStrings m.keys := by
  unfold EntityMap.sorted
  exact filterMap_lookup_keys m _ fun k hk => (sortStrings_perm m.keys).mem_iff.mp hk

theorem sorted_perm (m : EntityMap) (hm : m.WF) : m.sorted.Perm m := by
  have hnd1 : m.sorted.Nodup := by
    apply List.Nodup.of_map Prod.fst
    rw [sorted_keys]
    exact (sortStrings_perm m.keys).nodup_iff.mpr hm
  have hnd2 : m.Nodup := List.Nodup.of_map Prod.fst hm
  rw [List.perm_ext_iff_of_nodup hnd1 hnd2]
  rintro ⟨k, e⟩
  unfold EntityMap.sorted
  simp only [List.mem_filterMap, Option.map_eq_some', Prod.mk.injEq]
  constructor
  · rintro ⟨k2, _, e2, he2, rfl, rfl⟩
    exact (lookup_eq_some_iff_mem m hm _ _).mp he2
  · intro hmem
    refine ⟨k, ?_, e, (lookup_eq_some_iff_mem m hm k e).mpr hmem, rfl, rfl⟩
    exact (sortStrings_perm m.keys).mem_iff.mpr (List.mem_map.mpr ⟨(k, e), hmem, rfl⟩)

theorem sorted_eq_of_perm (m₁ m₂ : EntityMap) (hm : m₁.WF) (h : m₁.Perm m₂) :
    m₁.sorted = m₂.sorted := by
  have hm2 : m₂.WF := (h.map Prod.fst).nodup_iff.mp hm
  unfold EntityMap.sorted
  rw [sortStrings_eq_of_perm m₁.keys m₂.keys (h.map Prod.fst)]
  apply List.filterMap_congr
  intro k _
  have : m₁.lookup k = m₂.lookup k := by
    apply Option.ext
    intro e
    simp only [Option.mem_def]
    rw [lookup_eq_some_iff_mem m₁ hm, lookup_eq_some_iff_mem m₂ hm2]
    exact h.mem_iff
  rw [this]

theorem foldl_names_eq (m : EntityMap) (g : Entity → String) (ns : List String)
    (acc : String) :
    ns.foldl
        (fun sb name =>
          match m.get? name with
          | some entity => sb ++ g entity
          | none => sb)
        acc =
      acc ++ Concat
        ((ns.filterMap fun k => (m.lookup k).map fun e => (k, e)).map fun p => g p.2) := by
  induction ns generalizing acc with
  | nil => simp [Concat]
  | cons k rest ih =>
    simp only [List.foldl_cons, EntityMap.get?, List.filterMap_cons]
    cases hk : m.lookup k with
    | none => simp only [Option.map_none']; exact ih acc
    | some e =>
      simp only [Option.map_some', List.map_cons, Concat]
      rw [← String.append_assoc]
      exact ih (acc ++ g e)

/-- The text of `ToMermaid` in closed form. -/
theorem toMermaid_eq (table : Char → Bool) (d : Diagram) :
    d.ToMermaid table =
      "erDiagram\n" ++ Concat (d.Entities.sorted.map fun p => mermaidBlock table p.2) ++
        Concat (d.Relationships.map formatMermaidRelationship) := by
  have hstep : (fun (sb : String) (name : String) =>
        match d.Entities.get? name with
        | some entity =>
          sb ++ ("    " ++ sanitizeName entity.Name ++ " \x7b\n") ++
              Concat (List.map (formatMermaidAttribute table) entity.Attributes) ++
            "    \x7d\n"
        | none => sb) =
      fun sb name =>
        match d.Entities.get? name with
        | some entity => sb ++ mermaidBlock table entity
        | none => sb := by
    funext sb name
    cases d.Entities.get? name with
    | none => rfl
    | some entity =>
      simp only [mermaidBlock, String.append_assoc]
  unfold Diagram.ToMermaid
  simp only [foldl_concat, entityNames_eq, String.empty_append]
  rw [hstep, foldl_names_eq]
  rfl

/-- The text of `ToDOT` in closed form. -/
theorem toDOT_eq (table : Char → Bool) (d : Diagram) :
    d.ToDOT table =
      "digraph ERD \x7b\n    rankdir=LR;\n    node [shape=record];\n" ++
        (if d.Title ≠ "" then
          "    labelloc=\"t\";\n" ++ ("    label=" ++ Quote table (escapeDOT d.Title) ++ ";\n")
          else "") ++
        "\n" ++ Concat (d.Entities.sorted.map fun p => formatDOTEntity p.2) ++ "\n" ++
        Concat (d.Relationships.map (formatDOTRelationship table)) ++ "\x7d\n" := by
  unfold Diagram.ToDOT
  simp only [foldl_names_eq, foldl_concat, entityNames_eq, String.empty_append]
  by_cases h : d.Title = ""
  · simp only [h, ne_eq, not_true_eq_false, if_false, String.append_empty]
    rfl
  · simp only [h, ne_eq, not_false_eq_true, if_true, String.append_assoc]
    rfl

theorem sorted_names_of_own_name (m : EntityMap) (hm : m.WF)
    (hown : ∀ p ∈ m, p.2.Name = p.1) :
    (m.sorted.map fun p => p.2.Name).Sorted stringLE := by
  have h : (m.sorted.map fun p => p.2.Name) = m.sorted.map Prod.fst := by
    apply List.map_congr_left
    intro p hp
    exact hown p ((sorted_perm m hm).mem_iff.mp hp)
  rw [h, sorted_keys]
  exact sortStrings_sorted _

theorem formatMermaidRelationship_eq (r : Relationship) :
    formatMermaidRelationship r =
      "    " ++ sanitizeName r.From ++ " " ++ getMermaidCardinality r.Cardinality ++ " " ++
        sanitizeName r.To ++ " : " ++ r.Label.getD r.Field ++ "\n" := by
  obtain ⟨label, note, src, dst, field, c⟩ := r
  cases label <;> rfl

/-- C11, as stated, fails: in the diagram whose mapping stores the entity named
`Z` under `a` and the entity named `A` under `b`, `ToMermaid` writes the block
of `Z` before the block of `A`.  The blocks are not in ascending order of the
names they show, and they do not show the names `a`, `b` by which they are
ordered. -/
theorem C11_counterexample :
    EntityMap.WF [("a", ⟨none, none, "Z", []⟩), ("b", ⟨none, none, "A", []⟩)] ∧
    Diagram.ToMermaid (fun _ => true)
        ⟨"T", none, [("a", ⟨none, none, "Z", []⟩), ("b", ⟨none, none, "A", []⟩)], []⟩ =
      "erDiagram\n    Z \x7b\n    \x7d\n    A \x7b\n    \x7d\n" ∧
    ¬ stringLE "Z" "A" ∧
    Diagram.ToMermaid (fun _ => true)
        ⟨"T", none, [("a", ⟨none, none, "Z", []⟩), ("b", ⟨none, none, "A", []⟩)], []⟩ ≠
      "erDiagram\n    A \x7b\n    \x7d\n    Z \x7b\n    \x7d\n" ∧
    Diagram.ToMermaid (fun _ => true)
        ⟨"T", none, [("a", ⟨none, none, "Z", []⟩), ("b", ⟨none, none, "A", []⟩)], []⟩ ≠
      "erDiagram\n    " ++ sanitizeName "a" ++ " \x7b\n    \x7d\n    " ++ sanitizeName "b" ++
        " \x7b\n    \x7d\n" := by
  refine ⟨by decide, by decide, by decide, by decide, by decide⟩

/-- C11, amended: `ToMermaid` returns the header line `erDiagram`, followed for
each entry of the entity mapping, in ascending lexicographic order of the name
under which the entity is stored, by the block of the entity (its own `Name`
sanitized, an opening brace, one `formatMermaidAttribute` line per attribute
in list order, a closing brace), followed for each relationship in declaration
order by its line, with the symbol of its cardinality and with the override
label if present, else the field name.  When every entity is stored under its
own name the blocks are in ascending order of the names they show. -/
theorem C11_toMermaid_structure (table : Char → Bool) (d : Diagram)
    (hm : d.Entities.WF) :
    ∃ es : List (String × Entity),
      es.Perm d.Entities ∧ (es.map Prod.fst).Sorted stringLE ∧
      d.ToMermaid table =
        "erDiagram\n" ++
          Concat (es.map fun p =>
            "    " ++ sanitizeName p.2.Name ++ " \x7b\n" ++
              Concat (p.2.Attributes.map (formatMermaidAttribute table)) ++ "    \x7d\n") ++
          Concat (d.Relationships.map fun r =>
            "    " ++ sanitizeName r.From ++ " " ++ getMermaidCardinality r.Cardinality ++
              " " ++ sanitizeName r.To ++ " : " ++ r.Label.getD r.Field ++ "\n") ∧
      ((∀ p ∈ d.Entities, p.2.Name = p.1) →
        (es.map fun p => p.2.Name).Sorted stringLE) := by
  refine ⟨d.Entities.sorted, sorted_perm _ hm, ?_, ?_, sorted_names_of_own_name _ hm⟩
  · rw [sorted_keys]; exact sortStrings_sorted _
  · rw [toMermaid_eq]
    have h1 : (fun r => formatMermaidRelationship r) = fun r : Relationship =>
        "    " ++ sanitizeName r.From ++ " " ++ getMermaidCardinality r.Cardinality ++
          " " ++ sanitizeName r.To ++ " : " ++ r.Label.getD r.Field ++ "\n" :=
      funext formatMermaidRelationship_eq
    rw [← h1]
    rfl

/-- C11, witness: the entities `Product` and `Cart`, added in this order, with
one relationship. -/
theorem C11_toMermaid_structure_witness :
    ∃ es : List (String × Entity),
      es.Perm [("Product", ⟨none, none, "Product", [⟨some "PK", none, "ID", "string", false⟩]⟩),
               ("Cart", ⟨none, none, "Cart", [⟨some "PK", none, "ID", "string", false⟩]⟩)] ∧
      (es.map Prod.fst).Sorted stringLE ∧
      Diagram.ToMermaid (fun _ => true)
          ⟨"Shop", none,
            [("Product", ⟨none, none, "Product", [⟨some "PK", none, "ID", "string", false⟩]⟩),
             ("Cart", ⟨none, none, "Cart", [⟨some "PK", none, "ID", "string", false⟩]⟩)],
            [⟨none, none, "Cart", "Product", "Items", OneToMany⟩]⟩ =
        "erDiagram\n" ++
          Concat (es.map fun p =>
            "    " ++ sanitizeName p.2.Name ++ " \x7b\n" ++
              Concat (p.2.Attributes.map (formatMermaidAttribute fun _ => true)) ++
              "    \x7d\n") ++
          Concat ([(⟨none, none, "Cart", "Product", "Items", OneToMany⟩ : Relationship)].map
            fun r =>
              "    " ++ sanitizeName r.From ++ " " ++ getMermaidCardinality r.Cardinality ++
                " " ++ sanitizeName r.To ++ " : " ++ r.Label.getD r.Field ++ "\n") ∧
      ((∀ p ∈ [("Product", (⟨none, none, "Product",
                  [⟨some "PK", none, "ID", "string", false⟩]⟩ : Entity)),
               ("Cart", ⟨none, none, "Cart", [⟨some "PK", none, "ID", "string", false⟩]⟩)],
          p.2.Name = p.1) →
        (es.map fun p => p.2.Name).Sorted stringLE) :=
  C11_toMermaid_structure (fun _ => true)
    ⟨"Shop", none,
      [("Product", ⟨none, none, "Product", [⟨some "PK", none, "ID", "string", false⟩]⟩),
       ("Cart", ⟨none, none, "Cart", [⟨some "PK", none, "ID", "string", false⟩]⟩)],
      [⟨none, none, "Cart", "Product", "Items", OneToMany⟩]⟩
    (by decide)

/-- C12, as stated, fails: in the diagram whose mapping stores the entity named
`Z` under `a` and the entity named `A` under `b`, `ToDOT` writes the node
declaration of `Z` before that of `A`: the declarations are not in ascending
order of the entities' names. -/
theorem C12_counterexample :
    EntityMap.WF [("a", ⟨none, none, "Z", []⟩), ("b", ⟨none, none, "A", []⟩)] ∧
    Diagram.ToDOT (fun _ => true)
        ⟨"T", none, [("a", ⟨none, none, "Z", []⟩), ("b", ⟨none, none, "A", []⟩)], []⟩ =
      "digraph ERD \x7b\n    rankdir=LR;\n    node [shape=record];\n" ++
        "    labelloc=\"t\";\n    label=\"T\";\n\n" ++
        "    Z [label=\"\x7bZ|\\l\x7d\"];\n" ++ "    A [label=\"\x7bA|\\l\x7d\"];\n" ++
        "\n\x7d\n" ∧
    ¬ stringLE (Entity.Name ⟨none, none, "Z", []⟩) (Entity.Name ⟨none, none, "A", []⟩) ∧
    Diagram.ToDOT (fun _ => true)
        ⟨"T", none, [("a", ⟨none, none, "Z", []⟩), ("b", ⟨none, none, "A", []⟩)], []⟩ ≠
      "digraph ERD \x7b\n    rankdir=LR;\n    node [shape=record];\n" ++
        "    labelloc=\"t\";\n    label=\"T\";\n\n" ++
        formatDOTEntity ⟨none, none, "A", []⟩ ++ formatDOTEntity ⟨none, none, "Z", []⟩ ++
        "\n\x7d\n" := by
  refine ⟨by decide, rfl, by decide, ?_⟩
  have h : Diagram.ToDOT (fun _ => true)
        ⟨"T", none, [("a", ⟨none, none, "Z", []⟩), ("b", ⟨none, none, "A", []⟩)], []⟩ =
      "digraph ERD \x7b\n    rankdir=LR;\n    node [shape=record];\n" ++
        "    labelloc=\"t\";\n    label=\"T\";\n\n" ++
        "    Z [label=\"\x7bZ|\\l\x7d\"];\n" ++ "    A [label=\"\x7bA|\\l\x7d\"];\n" ++
        "\n\x7d\n" := rfl
  rw [h]
  decide

/-- C12, amended: `ToDOT` returns the header and the two styling directives,
then the title block (the `labelloc` line and the `label` line) when the title
is present, then a blank line, then one node declaration `formatDOTEntity` per
entry of the entity mapping in ascending lexicographic order of the key under
which the entity is stored, then a blank line, then one edge declaration
`formatDOTRelationship` per relationship in declaration order, then the closing
brace.  When every entity is stored under its own name the declarations are in
ascending order of the entities' `Name`. -/
theorem C12_toDOT_structure (table : Char → Bool) (d : Diagram) (hm : d.Entities.WF) :
    ∃ es : List (String × Entity),
      es.Perm d.Entities ∧ (es.map Prod.fst).Sorted stringLE ∧
      d.ToDOT table =
        "digraph ERD \x7b\n    rankdir=LR;\n    node [shape=record];\n" ++
          (if d.Title ≠ "" then
            "    labelloc=\"t\";\n" ++
              ("    label=" ++ Quote table (escapeDOT d.Title) ++ ";\n")
            else "") ++
          "\n" ++ Concat (es.map fun p => formatDOTEntity p.2) ++ "\n" ++
          Concat (d.Relationships.map (formatDOTRelationship table)) ++ "\x7d\n" ∧
      ((∀ p ∈ d.Entities, p.2.Name = p.1) →
        (es.map fun p => p.2.Name).Sorted stringLE) :=
  ⟨d.Entities.sorted, sorted_perm _ hm,
    by rw [sorted_keys]; exact sortStrings_sorted _,
    toDOT_eq table d, sorted_names_of_own_name _ hm⟩

/-- C12, witness: the entities `Product` and `Cart`, added in this order, with
one relationship. -/
theorem C12_toDOT_structure_witness :
    ∃ es : List (String × Entity),
      es.Perm [("Product", ⟨none, none, "Product", [⟨some "PK", none, "ID", "string", false⟩]⟩),
               ("Cart", ⟨none, none, "Cart", [⟨some "PK", none, "ID", "string", false⟩]⟩)] ∧
      (es.map Prod.fst).Sorted stringLE ∧
      Diagram.ToDOT (fun _ => true)
          ⟨"Shop", none,
            [("Product", ⟨none, none, "Product", [⟨some "PK", none, "ID", "string", false⟩]⟩),
             ("Cart", ⟨none, none, "Cart", [⟨some "PK", none, "ID", "string", false⟩]⟩)],
            [⟨none, none, "Cart", "Product", "Items", OneToMany⟩]⟩ =
        "digraph ERD \x7b\n    rankdir=LR;\n    node [shape=record];\n" ++
          (if ("Shop" : String) ≠ "" then
            "    labelloc=\"t\";\n" ++
              ("    label=" ++ Quote (fun _ => true) (escapeDOT "Shop") ++ ";\n")
            else "") ++
          "\n" ++ Concat (es.map fun p => formatDOTEntity p.2) ++ "\n" ++
          Concat ([(⟨none, none, "Cart", "Product", "Items", OneToMany⟩ : Relationship)].map
            (formatDOTRelationship fun _ => true)) ++ "\x7d\n" ∧
      ((∀ p ∈ [("Product", (⟨none, none, "Product",
                  [⟨some "PK", none, "ID", "string", false⟩]⟩ : Entity)),
               ("Cart", ⟨none, none, "Cart", [⟨some "PK", none, "ID", "string", false⟩]⟩)],
          p.2.Name = p.1) →
        (es.map fun p => p.2.Name).Sorted stringLE) :=
  C12_toDOT_structure (fun _ => true)
    ⟨"Shop", none,
      [("Product", ⟨none, none, "Product", [⟨some "PK", none, "ID", "string", false⟩]⟩),
       ("Cart", ⟨none, none, "Cart", [⟨some "PK", none, "ID", "string", false⟩]⟩)],
      [⟨none, none, "Cart", "Product", "Items", OneToMany⟩]⟩
    (by decide)

/-- C13: rendering does not depend on the order in which the entities were
added or are iterated: two diagrams with the same title, the same mapping from
names to entities (the entries of one a rearrangement of the entries of the
other) and the same relationship sequence get the same text from `ToDOT` and
the same text from `ToMermaid`. -/
theorem C13_rendering_order_independent (table : Char → Bool) (d₁ d₂ : Diagram)
    (hTitle : d₁.Title = d₂.Title) (hm : d₁.Entities.WF)
    (hEntities : d₁.Entities.Perm d₂.Entities)
    (hRels : d₁.Relationships = d₂.Relationships) :
    d₁.ToDOT table = d₂.ToDOT table ∧ d₁.ToMermaid table = d₂.ToMermaid table := by
  have hs := sorted_eq_of_perm d₁.Entities d₂.Entities hm hEntities
  constructor
  · rw [toDOT_eq, toDOT_eq, hs, hTitle, hRels]
  · rw [toMermaid_eq, toMermaid_eq, hs, hRels]

/-- C13, witness: the entities `Product` and `Cart` in both orders. -/
theorem C13_rendering_order_independent_witness :
    Diagram.ToDOT (fun _ => true)
        ⟨"Shop", none,
          [("Product", ⟨none, none, "Product", [⟨some "PK", none, "ID", "string", false⟩]⟩),
           ("Cart", ⟨none, none, "Cart", [⟨some "PK", none, "ID", "string", false⟩]⟩)],
          [⟨none, none, "Cart", "Product", "Items", OneToMany⟩]⟩ =
      Diagram.ToDOT (fun _ => true)
        ⟨"Shop", some "the same diagram",
          [("Cart", ⟨none, none, "Cart", [⟨some "PK", none, "ID", "string", false⟩]⟩),
           ("Product", ⟨none, none, "Product", [⟨some "PK", none, "ID", "string", false⟩]⟩)],
          [⟨none, none, "Cart", "Product", "Items", OneToMany⟩]⟩ ∧
    Diagram.ToMermaid (fun _ => true)
        ⟨"Shop", none,
          [("Product", ⟨none, none, "Product", [⟨some "PK", none, "ID", "string", false⟩]⟩),
           ("Cart", ⟨none, none, "Cart", [⟨some "PK", none, "ID", "string", false⟩]⟩)],
          [⟨none, none, "Cart", "Product", "Items", OneToMany⟩]⟩ =
      Diagram.ToMermaid (fun _ => true)
        ⟨"Shop", some "the same diagram",
          [("Cart", ⟨none, none, "Cart", [⟨some "PK", none, "ID", "string", false⟩]⟩),
           ("Product", ⟨none, none, "Product", [⟨some "PK", none, "ID", "string", false⟩]⟩)],
          [⟨none, none, "Cart", "Product", "Items", OneToMany⟩]⟩ :=
  C13_rendering_order_independent (fun _ => true)
    ⟨"Shop", none,
      [("Product", ⟨none, none, "Product", [⟨some "PK", none, "ID", "string", false⟩]⟩),
       ("Cart", ⟨none, none, "Cart", [⟨some "PK", none, "ID", "string", false⟩]⟩)],
      [⟨none, none, "Cart", "Product", "Items", OneToMany⟩]⟩
    ⟨"Shop", some "the same diagram",
      [("Cart", ⟨none, none, "Cart", [⟨some "PK", none, "ID", "string", false⟩]⟩),
       ("Product", ⟨none, none, "Product", [⟨some "PK", none, "ID", "string", false⟩]⟩)],
      [⟨none, none, "Cart", "Product", "Items", OneToMany⟩]⟩
    rfl (by decide) (List.Perm.swap _ _ _) rfl

/-- C14, as stated, fails: the title of one space is blank, yet `ToDOT` writes
the title block, the styling directives being followed by the `labelloc` line
and the `label` line. -/
theorem C14_counterexample :
    Blank " " ∧
    Diagram.ToDOT (fun _ => true) ⟨" ", none, [], []⟩ =
      "digraph ERD \x7b\n    rankdir=LR;\n    node [shape=record];\n" ++
        "    labelloc=\"t\";\n    label=\" \";\n\n\n\x7d\n" ∧
    ¬ ∃ rest : String,
      Diagram.ToDOT (fun _ => true) ⟨" ", none, [], []⟩ =
        "digraph ERD \x7b\n    rankdir=LR;\n    node [shape=record];\n\n" ++ rest := by
  refine ⟨by decide, by decide, ?_⟩
  rintro ⟨rest, h⟩
  have h1 : Diagram.ToDOT (fun _ => true) ⟨" ", none, [], []⟩ =
      "digraph ERD \x7b\n    rankdir=LR;\n    node [shape=record];\n" ++
        "    labelloc=\"t\";\n    label=\" \";\n\n\n\x7d\n" := by decide
  rw [h1] at h
  have h2 := congrArg String.data h
  simp [String.data_append] at h2

/-- C14, amended: for every diagram whose title is the empty string `ToDOT`
omits the title block, the output beginning with the header and the styling
directives followed directly by the blank line; for every other title, a title
of white space included, the styling directives are followed by the `labelloc`
line and the `label` line. -/
theorem C14_toDOT_title_block (table : Char → Bool) (d : Diagram) :
    (d.Title = "" →
      ∃ rest : String,
        d.ToDOT table =
          "digraph ERD \x7b\n    rankdir=LR;\n    node [shape=record];\n\n" ++ rest) ∧
    (d.Title ≠ "" →
      ∃ rest : String,
        d.ToDOT table =
          "digraph ERD \x7b\n    rankdir=LR;\n    node [shape=record];\n" ++
            "    labelloc=\"t\";\n    label=" ++ Quote table (escapeDOT d.Title) ++
            ";\n\n" ++ rest) := by
  constructor
  · intro h
    refine ⟨Concat (d.Entities.sorted.map fun p => formatDOTEntity p.2) ++ "\n" ++
      Concat (d.Relationships.map (formatDOTRelationship table)) ++ "\x7d\n", ?_⟩
    rw [toDOT_eq]
    simp only [h, ne_eq, not_true_eq_false, if_false]
    apply String.ext
    simp [String.data_append]
  · intro h
    refine ⟨Concat (d.Entities.sorted.map fun p => formatDOTEntity p.2) ++ "\n" ++
      Concat (d.Relationships.map (formatDOTRelationship table)) ++ "\x7d\n", ?_⟩
    rw [toDOT_eq]
    simp only [h, ne_eq, not_false_eq_true, if_true]
    apply String.ext
    simp [String.data_append]

/-- C14, witness: the diagram of the test with the empty title and the entity
`User`, and the diagram titled `Shop`. -/
theorem C14_toDOT_title_block_witness :
    (∃ rest : String,
      Diagram.ToDOT (fun _ => true)
          ⟨"", none,
            [("User", ⟨none, none, "User", [⟨none, none, "ID", "string", false⟩]⟩)], []⟩ =
        "digraph ERD \x7b\n    rankdir=LR;\n    node [shape=record];\n\n" ++ rest) ∧
    ∃ rest : String,
      Diagram.ToDOT (fun _ => true) ⟨"Shop", none, [], []⟩ =
        "digraph ERD \x7b\n    rankdir=LR;\n    node [shape=record];\n" ++
          "    labelloc=\"t\";\n    label=" ++ Quote (fun _ => true) (escapeDOT "Shop") ++
          ";\n\n" ++ rest :=
  ⟨(C14_toDOT_title_block (fun _ => true)
      ⟨"", none,
        [("User", ⟨none, none, "User", [⟨none, none, "ID", "string", false⟩]⟩)], []⟩).1 rfl,
   (C14_toDOT_title_block (fun _ => true) ⟨"Shop", none, [], []⟩).2 (by decide)⟩

/-- C17: the text that `formatDOTRelationship` computes.  The label is printed
with the verb `%q` applied to `escapeDOT` of the label, that is, escaped a
second time by `strconv.Quote`: for the override label `a"b` the text between
the outer quotes is `a\\\"b`, not `escapeDOT` of the label, `a\"b`. -/
theorem C17_formatDOTRelationship_label_escaped_twice (table : Char → Bool)
    (rel : Relationship) :
    formatDOTRelationship table rel =
      "    " ++ sanitizeName rel.From ++ " -> " ++ sanitizeName rel.To ++ " [" ++
        getDOTCardinality rel.Cardinality ++ " label=" ++
        Quote table (escapeDOT (rel.Label.getD rel.Field)) ++ "];\n" ∧
    escapeDOT "a\"b" = "a\\\"b" ∧
    formatDOTRelationship table ⟨some "a\"b", none, "User", "Post", "Posts", OneToMany⟩ =
      "    User -> Post [arrowhead=crow, arrowtail=normal, dir=both " ++
        "label=\"a\\\\\\\"b\"];\n" ∧
    formatDOTRelationship table ⟨some "a\"b", none, "User", "Post", "Posts", OneToMany⟩ ≠
      "    " ++ sanitizeName "User" ++ " -> " ++ sanitizeName "Post" ++ " [" ++
        getDOTCardinality OneToMany ++ " label=\"" ++ escapeDOT "a\"b" ++ "\"];\n" := by
  have h : formatDOTRelationship table
      ⟨some "a\"b", none, "User", "Post", "Posts", OneToMany⟩ =
      "    User -> Post [arrowhead=crow, arrowtail=normal, dir=both " ++
        "label=\"a\\\\\\\"b\"];\n" := rfl
  refine ⟨?_, by decide, h, ?_⟩
  · obtain ⟨label, note, src, dst, field, c⟩ := rel
    cases label <;> rfl
  · rw [h]
    decide

/-! ## The escaping and sanitizing functions -/

theorem escapeDOT_single_pass (s : String) :
    (escapeDOT s).data = s.data.flatMap escapeChar := by
  rw [escapeDOT_data, List.flatMap_assoc, List.flatMap_assoc]
  congr 1
  funext x
  unfold escapeChar
  by_cases h1 : x = '\\'
  · subst h1; decide
  · by_cases h2 : x = '"'
    · subst h2; decide
    · by_cases h3 : x = '\n'
      · subst h3; decide
      · simp [h1, h2, h3]

theorem flatMap_singleton_subst (c r : Char) (l : List Char) :
    (l.flatMap fun x => if x = c then [r] else [x]) = l.map fun x => if x = c then r else x := by
  induction l with
  | nil => rfl
  | cons x xs ih =>
    simp only [List.flatMap_cons, List.map_cons, ih]
    by_cases h : x = c <;> simp [h]

theorem sanitizeName_data (x : String) :
    (sanitizeName x).data = x.data.map underscoreChar := by
  have h1 : (" " : String).data = [' '] := rfl
  have h2 : ("-" : String).data = ['-'] := rfl
  have h3 : ("." : String).data = ['.'] := rfl
  have h4 : ("_" : String).data = ['_'] := rfl
  simp only [sanitizeName, ReplaceAll, h1, h2, h3, h4, replaceScan_single,
    flatMap_singleton_subst, List.map_map, List.cons_ne_nil, if_false]
  apply List.map_congr_left
  intro c _
  unfold underscoreChar
  by_cases a1 : c = ' '
  · subst a1; decide
  · by_cases a2 : c = '-'
    · subst a2; decide
    · by_cases a3 : c = '.'
      · subst a3; decide
      · simp [a1, a2, a3]

theorem underscoreChar_idem (c : Char) : underscoreChar (underscoreChar c) = underscoreChar c := by
  unfold underscoreChar
  by_cases h : c = ' ' ∨ c = '-' ∨ c = '.'
  · simp only [h, if_true]; decide
  · simp only [h, if_false]

theorem underscoreChar_ne (c : Char) :
    underscoreChar c ≠ ' ' ∧ underscoreChar c ≠ '-' ∧ underscoreChar c ≠ '.' := by
  unfold underscoreChar
  by_cases h : c = ' ' ∨ c = '-' ∨ c = '.'
  · simp only [h, if_true]; decide
  · simp only [h, if_false]
    push_neg at h
    exact h

/-- C22: `escapeDOT`, computed as three successive whole-string replacements
(backslash, then double quote, then newline), equals the single-pass
character-wise substitution mapping a backslash to two backslashes, a double
quote to backslash and double quote, a newline to backslash and `n`, and every
other character to itself; the backslashes inserted for quotes and newlines are
not escaped again, and `escapeDOT` distributes over concatenation. -/
theorem C22_escapeDOT_single_pass (s a b : String) :
    escapeDOT s = ⟨s.data.flatMap escapeChar⟩ ∧
    escapeChar '\\' = ['\\', '\\'] ∧ escapeChar '"' = ['\\', '"'] ∧
    escapeChar '\n' = ['\\', 'n'] ∧
    (∀ c : Char, c ≠ '\\' → c ≠ '"' → c ≠ '\n' → escapeChar c = [c]) ∧
    escapeDOT "\"" = "\\\"" ∧ escapeDOT "\n" = "\\n" ∧
    escapeDOT (a ++ b) = escapeDOT a ++ escapeDOT b := by
  refine ⟨String.ext (escapeDOT_single_pass s), by decide, by decide, by decide, ?_,
    by decide, by decide, escapeDOT_append a b⟩
  intro c h1 h2 h3
  simp [escapeChar, h1, h2, h3]

/-- C22, witness: the test string with a quote, a backslash and a newline. -/
theorem C22_escapeDOT_single_pass_witness :
    escapeDOT "test\"with\\new\nline" = "test\\\"with\\\\new\\nline" ∧
    escapeChar 'a' = ['a'] :=
  ⟨((C22_escapeDOT_single_pass "test\"with\\new\nline" "" "").1).trans (by decide),
   (C22_escapeDOT_single_pass "" "" "").2.2.2.2.1 'a' (by decide) (by decide) (by decide)⟩

/-- C23: `sanitizeName` is idempotent. -/
theorem C23_sanitizeName_idempotent (x : String) :
    sanitizeName (sanitizeName x) = sanitizeName x := by
  apply String.ext
  rw [sanitizeName_data, sanitizeName_data, List.map_map]
  apply List.map_congr_left
  intro c _
  exact underscoreChar_idem c

/-- C24: `sanitizeName` of `x` is `x` with each space, hyphen and period
replaced by an underscore and every other character left unchanged in place;
the result has the length of `x` and contains no space, no hyphen and no
period. -/
theorem C24_sanitizeName_characterwise (x : String) :
    sanitizeName x = ⟨x.data.map underscoreChar⟩ ∧
    underscoreChar ' ' = '_' ∧ underscoreChar '-' = '_' ∧ underscoreChar '.' = '_' ∧
    (∀ c : Char, c ≠ ' ' → c ≠ '-' → c ≠ '.' → underscoreChar c = c) ∧
    (sanitizeName x).length = x.length ∧
    ' ' ∉ (sanitizeName x).data ∧ '-' ∉ (sanitizeName x).data ∧
    '.' ∉ (sanitizeName x).data := by
  have hd := sanitizeName_data x
  refine ⟨String.ext hd, by decide, by decide, by decide, ?_, ?_, ?_, ?_, ?_⟩
  · intro c h1 h2 h3
    simp [underscoreChar, h1, h2, h3]
  · have hlen : ∀ t : String, t.length = t.data.length := fun _ => rfl
    rw [hlen, hlen, hd, List.length_map]
  · rw [hd]
    intro h
    obtain ⟨c, _, hc⟩ := List.mem_map.mp h
    exact (underscoreChar_ne c).1 hc
  · rw [hd]
    intro h
    obtain ⟨c, _, hc⟩ := List.mem_map.mp h
    exact (underscoreChar_ne c).2.1 hc
  · rw [hd]
    intro h
    obtain ⟨c, _, hc⟩ := List.mem_map.mp h
    exact (underscoreChar_ne c).2.2 hc

/-- C24, witness: the name `Cart Item-x.y`. -/
theorem C24_sanitizeName_characterwise_witness :
    sanitizeName "Cart Item-x.y" = "Cart_Item_x_y" ∧ underscoreChar 'C' = 'C' :=
  ⟨((C24_sanitizeName_characterwise "Cart Item-x.y").1).trans (by decide),
   (C24_sanitizeName_characterwise "").2.2.2.2.1 'C' (by decide) (by decide) (by decide)⟩

theorem mem_replaceScan (old new : List Char) (k : Nat) (l : List Char) (x : Char)
    (h : x ∈ replaceScan old new k l) : x ∈ l ∨ x ∈ new := by
  induction l generalizing k with
  | nil => simp [replaceScan] at h
  | cons c cs ih =>
    cases k with
    | succ k2 =>
      simp only [replaceScan] at h
      rcases ih k2 h with h2 | h2
      · exact Or.inl (List.mem_cons_of_mem _ h2)
      · exact Or.inr h2
    | zero =>
      simp only [replaceScan] at h
      by_cases hp : old.isPrefixOf (c :: cs) = true
      · simp only [hp, if_true, List.mem_append] at h
        rcases h with h | h
        · exact Or.inr h
        · rcases ih _ h with h2 | h2
          · exact Or.inl (List.mem_cons_of_mem _ h2)
          · exact Or.inr h2
      · simp only [hp, Bool.false_eq_true, if_false, List.mem_cons] at h
        rcases h with h | h
        · exact Or.inl (by rw [h]; exact List.mem_cons_self _ _)
        · rcases ih _ h with h2 | h2
          · exact Or.inl (List.mem_cons_of_mem _ h2)
          · exact Or.inr h2

theorem not_mem_replaceScan_single (c : Char) (new l : List Char) (hnew : c ∉ new) :
    c ∉ replaceScan [c] new 0 l := by
  rw [replaceScan_single]
  intro h
  obtain ⟨y, _, hy⟩ := List.mem_flatMap.mp h
  by_cases hyc : y = c
  · simp only [hyc, if_true] at hy
    exact hnew hy
  · simp only [hyc, if_false, List.mem_singleton] at hy
    exact hyc hy.symm

theorem replaceAll_data (s old new : String) (h : old.data ≠ []) :
    (ReplaceAll s old new).data = replaceScan old.data new.data 0 s.data := by
  simp [ReplaceAll, h]

theorem splitScan_single_spec (c : Char) (l : List Char) :
    ∃ (parts : List (List Char)) (last : List Char),
      splitScan [c] 0 l = parts ++ [last] ∧ c ∉ last ∧
      (parts = [] → l = last) ∧ (parts ≠ [] → ∃ pre, l = pre ++ c :: last) := by
  induction l with
  | nil => exact ⟨[], [], by simp [splitScan], by simp, fun _ => rfl, fun h => absurd rfl h⟩
  | cons x xs ih =>
    obtain ⟨parts, last, hs, hlast, h1, h2⟩ := ih
    by_cases hx : x = c
    · subst hx
      refine ⟨[] :: parts, last, ?_, hlast, fun h => by simp at h, fun _ => ?_⟩
      · simp [splitScan, List.isPrefixOf, hs]
      · by_cases hp : parts = []
        · exact ⟨[], by rw [h1 hp]; rfl⟩
        · obtain ⟨pre, hpre⟩ := h2 hp
          exact ⟨x :: pre, by rw [hpre]; rfl⟩
    · have hx2 : ¬ c = x := fun e => hx e.symm
      cases parts with
      | nil =>
        refine ⟨[], x :: last, ?_, ?_, fun _ => ?_, fun h => absurd rfl h⟩
        · simp only [List.nil_append] at hs
          simp [splitScan, List.isPrefixOf, hx2, hs]
        · simp only [List.mem_cons, not_or]
          exact ⟨hx2, hlast⟩
        · rw [h1 rfl]
      | cons p ps =>
        refine ⟨(x :: p) :: ps, last, ?_, hlast, fun h => by simp at h, fun _ => ?_⟩
        · simp only [List.cons_append] at hs
          simp [splitScan, List.isPrefixOf, hx2, hs]
        · obtain ⟨pre, hpre⟩ := h2 (by simp)
          exact ⟨x :: pre, by rw [hpre]; rfl⟩

theorem sanitizeType_after_period (t : String) :
    ∃ u : String,
      (('.' ∉ t.data ∧ u = t) ∨ ∃ pre : String, t = pre ++ "." ++ u) ∧
      '.' ∉ u.data ∧ sanitizeType t = clean u := by
  obtain ⟨parts, last, hs, hlast, h1, h2⟩ := splitScan_single_spec '.' t.data
  have hdot : (".": String).data = ['.'] := rfl
  have hsplit : Split t "." = parts.map (fun part => (⟨part⟩ : String)) ++ [⟨last⟩] := by
    simp [Split, hdot, hs]
  refine ⟨⟨last⟩, ?_, hlast, ?_⟩
  · by_cases hp : parts = []
    · left
      have ht : t.data = last := h1 hp
      exact ⟨by rw [ht]; exact hlast, String.ext ht.symm⟩
    · right
      obtain ⟨pre, hpre⟩ := h2 hp
      exact ⟨⟨pre⟩, String.ext (by simp [String.data_append, hpre, hdot])⟩
  · unfold sanitizeType clean
    simp only [hsplit]
    by_cases hp : parts = []
    · have ht : t = ⟨last⟩ := String.ext (h1 hp)
      simp [hp, ← ht]
    · have hlen : (parts.map (fun part => (⟨part⟩ : String)) ++
          [(⟨last⟩ : String)]).length > 1 := by
        cases parts with
        | nil => exact absurd rfl hp
        | cons q qs => simp
      rw [if_pos hlen, List.getLastD_concat]

/-- C25: `sanitizeType` of `t` is `clean` of `u`, where `u` is the part of `t`
after its final period (`t` itself when it contains no period) and `clean`
replaces every `[]` by `Array_`, then deletes every `*`, then replaces every
space by `_`; the result contains no period, no asterisk and no space, and
slice or pointer markers written before a package qualifier are dropped. -/
theorem C25_sanitizeType_clean (t : String) :
    (∃ u : String,
      (('.' ∉ t.data ∧ u = t) ∨ ∃ pre : String, t = pre ++ "." ++ u) ∧
      '.' ∉ u.data ∧ sanitizeType t = clean u) ∧
    '.' ∉ (sanitizeType t).data ∧ '*' ∉ (sanitizeType t).data ∧
    ' ' ∉ (sanitizeType t).data ∧
    sanitizeType "[]*github.com/user/pkg.Type" = "Type" ∧
    sanitizeType "[]string" = "Array_string" := by
  obtain ⟨u, hu, hdot, hst⟩ := sanitizeType_after_period t
  have e1 : ("[]" : String).data = ['[', ']'] := rfl
  have e2 : ("*" : String).data = ['*'] := rfl
  have e3 : (" " : String).data = [' '] := rfl
  have n1 : ("Array_" : String).data = ['A', 'r', 'r', 'a', 'y', '_'] := rfl
  have n2 : ("" : String).data = [] := rfl
  have n3 : ("_" : String).data = ['_'] := rfl
  have hdata : (sanitizeType t).data =
      replaceScan [' '] ['_'] 0
        (replaceScan ['*'] [] 0 (replaceScan ['[', ']'] ['A', 'r', 'r', 'a', 'y', '_'] 0 u.data)) := by
    rw [hst]
    unfold clean
    simp [ReplaceAll, e1, e2, e3, n1, n2, n3]
  refine ⟨⟨u, hu, hdot, hst⟩, ?_, ?_, ?_, by decide, by decide⟩
  · rw [hdata]
    intro h
    rcases mem_replaceScan _ _ _ _ _ h with h | h
    · rcases mem_replaceScan _ _ _ _ _ h with h | h
      · rcases mem_replaceScan _ _ _ _ _ h with h | h
        · exact hdot h
        · revert h; decide
      · simp at h
    · revert h; decide
  · rw [hdata]
    intro h
    rcases mem_replaceScan _ _ _ _ _ h with h | h
    · exact not_mem_replaceScan_single '*' [] _ (by simp) h
    · revert h; decide
  · rw [hdata]
    exact not_mem_replaceScan_single ' ' ['_'] _ (by decide)

/-! ## The Mermaid attribute line and the totality of the renderers -/

theorem foldl_append_flatMap {α β : Type} (f : α → List β) (l : List α) (init : List β) :
    l.foldl (fun buf r => buf ++ f r) init = init ++ l.flatMap f := by
  induction l generalizing init with
  | nil => simp
  | cons x xs ih => simp [ih]

theorem quote_data (table : Char → Bool) (s : String) :
    (Quote table s).data = '"' :: (s.data.flatMap (appendEscapedRune table) ++ ['"']) := by
  simp [Quote, foldl_append_flatMap]

theorem quote_plain (table : Char → Bool) (s : String)
    (h : ∀ c ∈ s.data, c ≠ '"' ∧ c ≠ '\\' ∧ IsPrint table c = true) :
    Quote table s = "\"" ++ s ++ "\"" := by
  apply String.ext
  have hq : ("\"" : String).data = ['"'] := rfl
  rw [quote_data, String.data_append, String.data_append, hq]
  have hflat : s.data.flatMap (appendEscapedRune table) = s.data := by
    have hgen : ∀ l : List Char, (∀ c ∈ l, c ≠ '"' ∧ c ≠ '\\' ∧ IsPrint table c = true) →
        l.flatMap (appendEscapedRune table) = l := by
      intro l
      induction l with
      | nil => intro _; rfl
      | cons x xs ih =>
        intro hl
        have hx := hl x (List.mem_cons_self _ _)
        have hxs := ih fun c hc => hl c (List.mem_cons_of_mem _ hc)
        simp [List.flatMap_cons, appendEscapedRune, hx.1, hx.2.1, hx.2.2, hxs]
    exact hgen s.data h
  rw [hflat]
  rfl

/-- C21, as stated, fails: for the nullable attribute `Bio : string` with the
note `say "hi"` the comment is printed with the verb `%q`, which escapes the
double quotes of the note: what stands between the outer double quotes is
`nullable, say \"hi\"`, not the joined text `nullable, say "hi"`. -/
theorem C21_counterexample :
    formatMermaidAttribute (fun _ => true) ⟨none, some "say \"hi\"", "Bio", "string", true⟩ =
      "        string Bio \"nullable, say \\\"hi\\\"\"\n" ∧
    formatMermaidAttribute (fun _ => true) ⟨none, some "say \"hi\"", "Bio", "string", true⟩ ≠
      "        " ++ Join [sanitizeType "string", "Bio"] " " ++ " " ++
        ("\"" ++ Join ["nullable", "say \"hi\""] ", " ++ "\"") ++ "\n" := by
  have h : formatMermaidAttribute (fun _ => true)
      ⟨none, some "say \"hi\"", "Bio", "string", true⟩ =
      "        string Bio \"nullable, say \\\"hi\\\"\"\n" := rfl
  refine ⟨h, ?_⟩
  rw [h]
  decide

/-- C21, amended: `formatMermaidAttribute` returns eight spaces, then the
single-space join of `sanitizeType` of the type, the name and (only if a key is
set) the key string, then, only if the attribute is nullable or has a note, a
space and the join with a comma and a space of the marker `nullable` (if
nullable) and the note (if present), in that order, as the verb `%q` prints it
(`strconv.Quote`: between double quotes, with double quotes, backslashes and
non-printable characters escaped), then a newline.  A text of printable
characters other than the double quote and the backslash is printed as it is
between two double quotes; a nullable attribute with note `N` carries the
quoted form of `nullable, N`; an attribute neither nullable nor annotated
carries no comment. -/
theorem C21_formatMermaidAttribute_line (table : Char → Bool) (attr : Attribute) :
    formatMermaidAttribute table attr =
      "        " ++
        Join ([sanitizeType attr.Typ, attr.Name] ++
          (match attr.Key with
            | some k => [k]
            | none => [])) " " ++
        (if attr.Nullable = true ∨ attr.Note ≠ none then
          " " ++ Quote table (Join
            ((if attr.Nullable then ["nullable"] else []) ++
              (match attr.Note with
                | some note => [note]
                | none => [])) ", ")
          else "") ++ "\n" ∧
    (∀ s : String, (∀ c ∈ s.data, c ≠ '"' ∧ c ≠ '\\' ∧ IsPrint table c = true) →
      Quote table s = "\"" ++ s ++ "\"") ∧
    (∀ N : String, attr.Nullable = true → attr.Note = some N →
      formatMermaidAttribute table attr =
        "        " ++
          Join ([sanitizeType attr.Typ, attr.Name] ++
            (match attr.Key with
              | some k => [k]
              | none => [])) " " ++
          " " ++ Quote table ("nullable, " ++ N) ++ "\n") ∧
    (attr.Nullable = false → attr.Note = none →
      formatMermaidAttribute table attr =
        "        " ++
          Join ([sanitizeType attr.Typ, attr.Name] ++
            (match attr.Key with
              | some k => [k]
              | none => [])) " " ++ "\n") := by
  obtain ⟨key, note, name, typ, nullable⟩ := attr
  refine ⟨?_, quote_plain table, ?_, ?_⟩
  · cases key <;> cases note <;> cases nullable <;>
      simp [formatMermaidAttribute, Join, String.append_assoc]
  · intro N hn hnote
    simp only at hn hnote
    subst hn hnote
    cases key <;> simp [formatMermaidAttribute, Join, String.append_assoc]
  · intro hn hnote
    simp only at hn hnote
    subst hn hnote
    cases key <;> simp [formatMermaidAttribute, Join, String.append_assoc]

/-- C21, witness: the nullable attribute `Name : string` with the note
`test note`, and the attribute `ID : string` with the key `PK` and no comment. -/
theorem C21_formatMermaidAttribute_line_witness :
    formatMermaidAttribute (fun _ => true) ⟨none, some "test note", "Name", "string", true⟩ =
      "        string Name \"nullable, test note\"\n" ∧
    formatMermaidAttribute (fun _ => true) ⟨some "PK", none, "ID", "string", false⟩ =
      "        string ID PK\n" ∧
    Quote (fun _ => true) "nullable, test note" = "\"" ++ "nullable, test note" ++ "\"" :=
  ⟨((C21_formatMermaidAttribute_line (fun _ => true)
      ⟨none, some "test note", "Name", "string", true⟩).2.2.1 "test note" rfl rfl).trans
      (by decide),
   ((C21_formatMermaidAttribute_line (fun _ => true)
      ⟨some "PK", none, "ID", "string", false⟩).2.2.2 rfl rfl).trans (by decide),
   (C21_formatMermaidAttribute_line (fun _ => true)
      ⟨none, none, "", "", false⟩).2.1 "nullable, test note" (by decide)⟩

theorem entityNames_found (d : Diagram) (name : String) (h : name ∈ d.entityNames) :
    ∃ entity, d.Entities.get? name = some entity := by
  rw [entityNames_eq] at h
  exact lookup_isSome_of_mem_keys d.Entities name ((sortStrings_perm _).mem_iff.mp h)

/-- C27: `cardinalityFromKind` gives one-to-one for the reference kind,
one-to-many for the collection kind, one-to-one for the embedding kind,
many-to-many for the map kind, and one-to-one for every other string; its
result is always a valid cardinality and never many-to-one. -/
theorem C27_cardinalityFromKind_table (kinds : RelationshipKinds) (k : String) :
    (kinds.Distinct →
      cardinalityFromKind kinds kinds.RelationshipReference = "one-to-one" ∧
      cardinalityFromKind kinds kinds.RelationshipCollection = "one-to-many" ∧
      cardinalityFromKind kinds kinds.RelationshipEmbedding = "one-to-one" ∧
      cardinalityFromKind kinds kinds.RelationshipMap = "many-to-many") ∧
    (k ≠ kinds.RelationshipReference → k ≠ kinds.RelationshipCollection →
      k ≠ kinds.RelationshipEmbedding → k ≠ kinds.RelationshipMap →
      cardinalityFromKind kinds k = "one-to-one") ∧
    isValidCardinality (cardinalityFromKind kinds k) = true ∧
    cardinalityFromKind kinds k ≠ "many-to-one" := by
  obtain ⟨r, c, e, m⟩ := kinds
  refine ⟨?_, ?_, ?_, ?_⟩
  · intro hd
    simp only [RelationshipKinds.Distinct, List.nodup_cons, List.mem_cons, List.mem_singleton,
      not_or, List.not_mem_nil, not_false_eq_true, List.nodup_nil, and_true] at hd
    obtain ⟨⟨h1, h2, h3⟩, ⟨h4, h5⟩, h6⟩ := hd
    have g1 : ¬ c = r := fun h => h1 h.symm
    have g2 : ¬ e = r := fun h => h2 h.symm
    have g3 : ¬ m = r := fun h => h3 h.symm
    have g4 : ¬ e = c := fun h => h4 h.symm
    have g5 : ¬ m = c := fun h => h5 h.symm
    have g6 : ¬ m = e := fun h => h6 h.symm
    simp [cardinalityFromKind, OneToOne, OneToMany, ManyToMany, g1, g2, g3, g4, g5, g6]
  · intro h1 h2 h3 h4
    simp only at h1 h2 h3 h4
    simp [cardinalityFromKind, OneToOne, h1, h2, h3, h4]
  · unfold cardinalityFromKind
    split_ifs <;> decide
  · unfold cardinalityFromKind
    split_ifs <;> decide

/-- C27, witness: the kinds named as in the specification, and the string
`unknown`. -/
theorem C27_cardinalityFromKind_table_witness :
    cardinalityFromKind ⟨"reference", "collection", "embedding", "map"⟩ "collection" =
      "one-to-many" ∧
    cardinalityFromKind ⟨"reference", "collection", "embedding", "map"⟩ "unknown" =
      "one-to-one" :=
  ⟨((C27_cardinalityFromKind_table ⟨"reference", "collection", "embedding", "map"⟩ "").1
      (by decide)).2.1,
   (C27_cardinalityFromKind_table ⟨"reference", "collection", "embedding", "map"⟩
      "unknown").2.1 (by decide) (by decide) (by decide) (by decide)⟩

/-! ## The converters of `sentinel.go` -/

/-- One step of the loop of `parseErdTag` is one directive applied. -/
theorem parse_step_eq (attr : Attribute) (part : String) :
    (if part = "pk" then attr.WithPrimaryKey
      else if part = "fk" then attr.WithForeignKey
      else if part = "uk" then attr.WithUnique
      else if HasPrefix part "note:" then attr.WithNote (TrimPrefix part "note:")
      else attr) = applyDirective attr part := by
  unfold applyDirective keyDirective
  by_cases h1 : part = "pk"
  · simp [h1]; rfl
  · by_cases h2 : part = "fk"
    · simp [h2]; rfl
    · by_cases h3 : part = "uk"
      · simp [h3]; rfl
      · by_cases h4 : HasPrefix part "note:" = true
        · simp [h1, h2, h3, h4, TrimPrefix, Attribute.WithNote]
        · simp [h1, h2, h3, h4]

theorem parseErdTag_eq (attr : Attribute) (tag : String) :
    parseErdTag attr tag =
      (Split tag ",").foldl (fun a part => applyDirective a (TrimSpace part)) attr := by
  unfold parseErdTag
  simp only [parse_step_eq]

theorem applyDirective_fixed (attr : Attribute) (part : String) :
    (applyDirective attr part).Name = attr.Name ∧
    (applyDirective attr part).Typ = attr.Typ ∧
    (applyDirective attr part).Nullable = attr.Nullable := by
  unfold applyDirective
  cases keyDirective part with
  | some k => exact ⟨rfl, rfl, rfl⟩
  | none =>
    by_cases h : HasPrefix part "note:" = true
    · simp [h]
    · simp [h]

theorem applyDirective_key (attr : Attribute) (part : String) :
    (applyDirective attr part).Key =
      match keyDirective part with
      | some k => some k
      | none => attr.Key := by
  unfold applyDirective
  cases keyDirective part with
  | some k => rfl
  | none =>
    by_cases h : HasPrefix part "note:" = true
    · simp [h]
    · simp [h]

theorem foldl_directives_fixed (parts : List String) (attr : Attribute) :
    (parts.foldl (fun a part => applyDirective a (TrimSpace part)) attr).Name = attr.Name ∧
    (parts.foldl (fun a part => applyDirective a (TrimSpace part)) attr).Typ = attr.Typ ∧
    (parts.foldl (fun a part => applyDirective a (TrimSpace part)) attr).Nullable =
      attr.Nullable := by
  induction parts generalizing attr with
  | nil => exact ⟨rfl, rfl, rfl⟩
  | cons p rest ih =>
    have h1 := ih (applyDirective attr (TrimSpace p))
    have h2 := applyDirective_fixed attr (TrimSpace p)
    simp only [List.foldl_cons]
    exact ⟨h1.1.trans h2.1, h1.2.1.trans h2.2.1, h1.2.2.trans h2.2.2⟩

theorem foldl_directives_key (parts : List String) (attr : Attribute) :
    (parts.foldl (fun a part => applyDirective a (TrimSpace part)) attr).Key =
      match (parts.filterMap fun part => keyDirective (TrimSpace part)).getLast? with
      | some k => some k
      | none => attr.Key := by
  induction parts using List.reverseRecOn with
  | nil => rfl
  | append_singleton init p ih =>
    rw [List.foldl_append, List.filterMap_append]
    simp only [List.foldl_cons, List.foldl_nil, applyDirective_key, List.filterMap_cons,
      List.filterMap_nil]
    cases hk : keyDirective (TrimSpace p) with
    | some k => simp
    | none => simp [ih]

theorem foldl_directives_unchanged (parts : List String) (attr : Attribute)
    (h : ∀ part ∈ parts, keyDirective (TrimSpace part) = none ∧
      HasPrefix (TrimSpace part) "note:" = false) :
    parts.foldl (fun a part => applyDirective a (TrimSpace part)) attr = attr := by
  induction parts generalizing attr with
  | nil => rfl
  | cons p rest ih =>
    have hp := h p (List.mem_cons_self _ _)
    have hstep : applyDirective attr (TrimSpace p) = attr := by
      simp [applyDirective, hp.1, hp.2]
    simp only [List.foldl_cons, hstep]
    exact ih attr fun part hpart => h part (List.mem_cons_of_mem _ hpart)

theorem keyDirective_valid (part : String) (k : KeyType) (h : keyDirective part = some k) :
    k = "PK" ∨ k = "FK" ∨ k = "UK" := by
  unfold keyDirective at h
  split_ifs at h <;> simp_all

/-- C28, as stated, fails: for the attribute that already carries the key
`INVALID` and the tag `note:x`, which has no key directive, the resulting key
is `INVALID`: it is not the key of a directive and not a valid key type. -/
theorem C28_counterexample :
    (parseErdTag ⟨some "INVALID", none, "test", "string", false⟩ "note:x").Key =
      some "INVALID" ∧
    isValidKeyType "INVALID" = false ∧
    (∀ part ∈ Split "note:x" ",", keyDirective (TrimSpace part) = none) := by
  refine ⟨by decide, by decide, by decide⟩

/-- C28, amended: `parseErdTag` splits the tag on commas, trims white space
around each directive and applies the directives left to right: `pk`, `fk`,
`uk` set the key to `PK`, `FK`, `UK`, a directive starting with `note:` sets the
note to the text after that prefix, every other directive leaves the attribute
unchanged.  A tag with no recognized directive changes nothing; the resulting
key is that of the last key directive when the tag has one, and then a valid
key type, and otherwise the key the attribute had before the call; name, type
and nullability are never modified. -/
theorem C28_parseErdTag_directives (attr : Attribute) (tag : String) :
    parseErdTag attr tag =
      (Split tag ",").foldl (fun a part => applyDirective a (TrimSpace part)) attr ∧
    ((∀ part ∈ Split tag ",", keyDirective (TrimSpace part) = none ∧
        HasPrefix (TrimSpace part) "note:" = false) →
      parseErdTag attr tag = attr) ∧
    (parseErdTag attr tag).Key =
      (match ((Split tag ",").filterMap fun part => keyDirective (TrimSpace part)).getLast? with
        | some k => some k
        | none => attr.Key) ∧
    (∀ k, ((Split tag ",").filterMap fun part => keyDirective (TrimSpace part)).getLast? =
        some k → k = "PK" ∨ k = "FK" ∨ k = "UK") ∧
    (attr.Key = none →
      (parseErdTag attr tag).Key = none ∨ (parseErdTag attr tag).Key = some "PK" ∨
        (parseErdTag attr tag).Key = some "FK" ∨ (parseErdTag attr tag).Key = some "UK") ∧
    (parseErdTag attr tag).Name = attr.Name ∧
    (parseErdTag attr tag).Typ = attr.Typ ∧
    (parseErdTag attr tag).Nullable = attr.Nullable := by
  have hkey := foldl_directives_key (Split tag ",") attr
  have hfix := foldl_directives_fixed (Split tag ",") attr
  have hvalid : ∀ k,
      ((Split tag ",").filterMap fun part => keyDirective (TrimSpace part)).getLast? =
        some k → k = "PK" ∨ k = "FK" ∨ k = "UK" := by
    intro k hk
    have hmem := List.mem_of_getLast?_eq_some hk
    obtain ⟨part, _, hpart⟩ := List.mem_filterMap.mp hmem
    exact keyDirective_valid _ k hpart
  rw [parseErdTag_eq]
  refine ⟨rfl, foldl_directives_unchanged _ attr, hkey, hvalid, ?_, hfix.1, hfix.2.1,
    hfix.2.2⟩
  intro hnone
  rw [hkey]
  cases hl : ((Split tag ",").filterMap fun part => keyDirective (TrimSpace part)).getLast? with
  | none => left; simpa using hnone
  | some k =>
    right
    rcases hvalid k hl with h | h | h <;> simp [h]

/-- C28, witness: the tag `pk,note:Primary identifier` on a new attribute, and
a tag without recognized directive. -/
theorem C28_parseErdTag_directives_witness :
    parseErdTag (NewAttribute "test" "string") "pk,note:Primary identifier" =
      ⟨some "PK", some "Primary identifier", "test", "string", false⟩ ∧
    parseErdTag (NewAttribute "test" "string") "primary, json" =
      NewAttribute "test" "string" :=
  ⟨((C28_parseErdTag_directives (NewAttribute "test" "string")
      "pk,note:Primary identifier").1).trans (by decide),
   (C28_parseErdTag_directives (NewAttribute "test" "string") "primary, json").2.1
      (by decide)⟩

theorem hasPrefix_star (t : String) :
    HasPrefix t "*" = true ↔ ∃ rest, t.data = '*' :: rest := by
  have hs : ("*" : String).data = ['*'] := rfl
  unfold HasPrefix
  rw [hs]
  cases t.data with
  | nil => simp [List.isPrefixOf]
  | cons c cs =>
    simp only [List.isPrefixOf, List.cons.injEq, exists_and_left, exists_eq', and_true,
      Bool.and_true, beq_iff_eq]
    exact eq_comm

theorem parseErdTag_fixed (attr : Attribute) (tag : String) :
    (parseErdTag attr tag).Name = attr.Name ∧ (parseErdTag attr tag).Typ = attr.Typ ∧
    (parseErdTag attr tag).Nullable = attr.Nullable := by
  rw [parseErdTag_eq]
  exact foldl_directives_fixed _ attr

/-- C29: `attributeFromField` produces an attribute with the name of the field,
nullable if and only if the type string begins with `*`, whose stored type is
the type string with exactly one leading `*` removed when it begins with `*`,
and the unchanged type string otherwise. -/
theorem C29_attributeFromField_nullable (field : FieldMetadata) :
    (attributeFromField field).Name = field.Name ∧
    ((attributeFromField field).Nullable = true ↔ ∃ rest, field.Typ.data = '*' :: rest) ∧
    (∀ rest, field.Typ.data = '*' :: rest → (attributeFromField field).Typ = ⟨rest⟩) ∧
    ((¬ ∃ rest, field.Typ.data = '*' :: rest) → (attributeFromField field).Typ = field.Typ) := by
  have hs : ("*" : String).data = ['*'] := rfl
  have hfix : ∀ a : Attribute,
      (match field.Tags.lookup "erd" with
        | some erdTag => parseErdTag a erdTag
        | none => a).Name = a.Name ∧
      (match field.Tags.lookup "erd" with
        | some erdTag => parseErdTag a erdTag
        | none => a).Typ = a.Typ ∧
      (match field.Tags.lookup "erd" with
        | some erdTag => parseErdTag a erdTag
        | none => a).Nullable = a.Nullable := by
    intro a
    cases field.Tags.lookup "erd" with
    | none => exact ⟨rfl, rfl, rfl⟩
    | some erdTag => exact parseErdTag_fixed a erdTag
  unfold attributeFromField
  by_cases hp : HasPrefix field.Typ "*" = true
  · have hex := (hasPrefix_star field.Typ).mp hp
    simp only [hp, if_true]
    refine ⟨(hfix _).1, ?_, ?_, ?_⟩
    · rw [(hfix _).2.2]
      simp [Attribute.WithNullable, hex]
    · intro rest hrest
      rw [(hfix _).2.1]
      simp [Attribute.WithNullable, NewAttribute, TrimPrefix, hp, hs, hrest]
    · intro hno
      exact absurd hex hno
  · have hex : ¬ ∃ rest, field.Typ.data = '*' :: rest :=
      fun h => hp ((hasPrefix_star field.Typ).mpr h)
    simp only [hp, Bool.false_eq_true, if_false]
    refine ⟨(hfix _).1, ?_, ?_, ?_⟩
    · rw [(hfix _).2.2]
      simp [NewAttribute, hex]
    · intro rest hrest
      exact absurd ⟨rest, hrest⟩ hex
    · intro _
      rw [(hfix _).2.1]
      rfl

/-- C29, witness: the field `Bio` of type `*string`, the field of type
`**int`, and the field `ID` of type `string`. -/
theorem C29_attributeFromField_nullable_witness :
    (attributeFromField ⟨"Bio", "*string", []⟩).Typ = "string" ∧
    (attributeFromField ⟨"Depth", "**int", [("erd", "pk")]⟩).Typ = "*int" ∧
    (attributeFromField ⟨"ID", "string", [("erd", "pk")]⟩).Typ = "string" :=
  ⟨(C29_attributeFromField_nullable ⟨"Bio", "*string", []⟩).2.2.1 "string".data rfl,
   (C29_attributeFromField_nullable ⟨"Depth", "**int", [("erd", "pk")]⟩).2.2.1 "*int".data rfl,
   (C29_attributeFromField_nullable ⟨"ID", "string", [("erd", "pk")]⟩).2.2.2
      (by rintro ⟨rest, h⟩; cases h)⟩

/-! ## The builder -/

theorem mem_set (m : EntityMap) (k : String) (e : Entity) (p : String × Entity)
    (h : p ∈ m.set k e) : p = (k, e) ∨ p ∈ m := by
  induction m with
  | nil =>
    simp only [EntityMap.set, List.mem_singleton] at h
    exact Or.inl h
  | cons q rest ih =>
    obtain ⟨k1, e1⟩ := q
    by_cases hk : k1 = k
    · simp only [EntityMap.set, hk, if_true, List.mem_cons] at h
      rcases h with h | h
      · exact Or.inl h
      · exact Or.inr (List.mem_cons_of_mem _ h)
    · simp only [EntityMap.set, hk, if_false, List.mem_cons] at h
      rcases h with h | h
      · exact Or.inr (by rw [h]; exact List.mem_cons_self _ _)
      · rcases ih h with h2 | h2
        · exact Or.inl h2
        · exact Or.inr (List.mem_cons_of_mem _ h2)

theorem set_keys_of_mem (m : EntityMap) (k : String) (e : Entity) (h : k ∈ m.keys) :
    (m.set k e).keys = m.keys := by
  induction m with
  | nil => simp [EntityMap.keys] at h
  | cons q rest ih =>
    obtain ⟨k1, e1⟩ := q
    by_cases hk : k1 = k
    · simp [EntityMap.set, EntityMap.keys, hk]
    · have h2 : k ∈ EntityMap.keys rest := by
        simp only [EntityMap.keys, List.map_cons, List.mem_cons] at h
        rcases h with h | h
        · exact absurd h.symm hk
        · exact h
      have ih2 := ih h2
      simp only [EntityMap.keys] at ih2
      simp [EntityMap.set, EntityMap.keys, hk, ih2]

theorem set_keys_of_not_mem (m : EntityMap) (k : String) (e : Entity) (h : k ∉ m.keys) :
    (m.set k e).keys = m.keys ++ [k] := by
  induction m with
  | nil => rfl
  | cons q rest ih =>
    obtain ⟨k1, e1⟩ := q
    have hk : ¬ k1 = k := by
      intro hk
      apply h
      simp [EntityMap.keys, hk]
    have h2 : k ∉ EntityMap.keys rest := by
      intro h3
      apply h
      simp only [EntityMap.keys, List.map_cons, List.mem_cons]
      exact Or.inr h3
    have ih2 := ih h2
    simp only [EntityMap.keys] at ih2
    simp [EntityMap.set, EntityMap.keys, hk, ih2]

theorem set_wf (m : EntityMap) (k : String) (e : Entity) (h : m.WF) : (m.set k e).WF := by
  have hkeys : ∀ m2 : EntityMap, m2.WF ↔ m2.keys.Nodup := fun _ => Iff.rfl
  rw [hkeys] at h ⊢
  by_cases hk : k ∈ m.keys
  · rw [set_keys_of_mem m k e hk]; exact h
  · rw [set_keys_of_not_mem m k e hk]
    exact List.Nodup.append h (List.nodup_singleton k) (by
      intro a ha hb
      rw [List.mem_singleton] at hb
      exact hk (hb ▸ ha))

theorem lookup_set (m : EntityMap) (k k2 : String) (e : Entity) :
    (m.set k e).lookup k2 = if k2 = k then some e else m.lookup k2 := by
  induction m with
  | nil =>
    by_cases h : k2 = k
    · simp [EntityMap.set, List.lookup, h]
    · have hb : (k2 == k) = false := by simpa using h
      simp [EntityMap.set, List.lookup, h, hb]
  | cons q rest ih =>
    obtain ⟨k1, e1⟩ := q
    by_cases hk : k1 = k
    · subst hk
      by_cases h : k2 = k1
      · simp [EntityMap.set, List.lookup, h]
      · have hb : (k2 == k1) = false := by simpa using h
        simp [EntityMap.set, List.lookup, h, hb]
    · by_cases h : k2 = k1
      · subst h
        have hne : ¬ k2 = k := hk
        simp [EntityMap.set, List.lookup, hk, hne]
      · have hb : (k2 == k1) = false := by simpa using h
        simp [EntityMap.set, List.lookup, hk, hb, ih]

theorem apply_invariant (d : Diagram) (call : BuilderCall)
    (hown : ∀ p ∈ d.Entities, p.2.Name = p.1) (hwf : d.Entities.WF) :
    (∀ p ∈ (call.apply d).Entities, p.2.Name = p.1) ∧ (call.apply d).Entities.WF := by
  cases call with
  | AddEntity entity =>
    refine ⟨?_, set_wf _ _ _ hwf⟩
    intro p hp
    rcases mem_set _ _ _ _ hp with h | h
    · rw [h]
    · exact hown p h
  | AddRelationship rel => exact ⟨hown, hwf⟩
  | WithDescription description => exact ⟨hown, hwf⟩

theorem foldl_apply_invariant (calls : List BuilderCall) (d : Diagram)
    (hown : ∀ p ∈ d.Entities, p.2.Name = p.1) (hwf : d.Entities.WF) :
    (∀ p ∈ (calls.foldl BuilderCall.apply d).Entities, p.2.Name = p.1) ∧
    (calls.foldl BuilderCall.apply d).Entities.WF := by
  induction calls generalizing d with
  | nil => exact ⟨hown, hwf⟩
  | cons call rest ih =>
    have h := apply_invariant d call hown hwf
    exact ih (call.apply d) h.1 h.2

/-- C30: every diagram obtained from `NewDiagram` by a sequence of `AddEntity`,
`AddRelationship` and `WithDescription` calls stores each entity under its own
name, the keys of the mapping being distinct.  `AddEntity` with a name already
present keeps the number of entities and replaces the entity stored under that
name, the other entries being unchanged; `AddRelationship` appends at the end,
leaving the earlier relationships and their indices unchanged. -/
theorem C30_builder_invariant (title : String) (calls : List BuilderCall) :
    (∀ p ∈ (built title calls).Entities, p.2.Name = p.1) ∧
    (built title calls).Entities.WF ∧
    (∀ (d : Diagram) (entity : Entity), entity.Name ∈ d.Entities.keys →
      (d.AddEntity entity).Entities.length = d.Entities.length ∧
      (d.AddEntity entity).Entities.keys = d.Entities.keys) ∧
    (∀ (d : Diagram) (entity : Entity) (k : String),
      (d.AddEntity entity).Entities.get? k =
        if k = entity.Name then some entity else d.Entities.get? k) ∧
    (∀ (d : Diagram) (rel : Relationship),
      (d.AddRelationship rel).Relationships = d.Relationships ++ [rel] ∧
      (∀ i, i < d.Relationships.length →
        (d.AddRelationship rel).Relationships[i]? = d.Relationships[i]?) ∧
      (d.AddRelationship rel).Entities = d.Entities) := by
  have hinv := foldl_apply_invariant calls (NewDiagram title)
    (by intro p hp; simp [NewDiagram] at hp) (by simp [NewDiagram, EntityMap.WF])
  refine ⟨hinv.1, hinv.2, ?_, ?_, ?_⟩
  · intro d entity h
    have hk := set_keys_of_mem d.Entities entity.Name entity h
    refine ⟨?_, hk⟩
    have hl := congrArg List.length hk
    simpa [EntityMap.keys] using hl
  · intro d entity k
    exact lookup_set d.Entities entity.Name k entity
  · intro d rel
    refine ⟨rfl, ?_, rfl⟩
    intro i hi
    simp only [Diagram.AddRelationship]
    rw [List.getElem?_append_left hi]

/-- C30, witness: the entity `User` added twice, the second time with an
attribute, and a relationship appended after another one. -/
theorem C30_builder_invariant_witness :
    ((NewDiagram "Test").AddEntity (NewEntity "User")
        |>.AddEntity ⟨none, none, "User", [NewAttribute "ID" "string"]⟩).Entities.length =
      ((NewDiagram "Test").AddEntity (NewEntity "User")).Entities.length ∧
    (((NewDiagram "Test").AddRelationship (NewRelationship "User" "Post" "Posts" OneToMany)
        |>.AddRelationship (NewRelationship "Post" "User" "Author" ManyToOne)).Relationships)[0]? =
      (((NewDiagram "Test").AddRelationship
        (NewRelationship "User" "Post" "Posts" OneToMany)).Relationships)[0]? :=
  ⟨((C30_builder_invariant "Test" []).2.2.1
      ((NewDiagram "Test").AddEntity (NewEntity "User"))
      ⟨none, none, "User", [NewAttribute "ID" "string"]⟩ (by decide)).1,
   ((C30_builder_invariant "Test" []).2.2.2.2
      ((NewDiagram "Test").AddRelationship (NewRelationship "User" "Post" "Posts" OneToMany))
      (NewRelationship "Post" "User" "Author" ManyToOne)).2.1 0 (by decide)⟩

/-! ## Edges, nodes and identifiers -/

theorem mem_of_lookup_eq_some (m : EntityMap) (k : String) (e : Entity)
    (h : m.lookup k = some e) : (k, e) ∈ m := by
  induction m with
  | nil => simp at h
  | cons p rest ih =>
    obtain ⟨k1, e1⟩ := p
    by_cases hk : k = k1
    · subst hk
      simp only [List.lookup, beq_self_eq_true, Option.some.injEq] at h
      rw [h]; exact List.mem_cons_self _ _
    · have hb : (k == k1) = false := by simpa using hk
      simp only [List.lookup, hb] at h
      exact List.mem_cons_of_mem _ (ih h)

theorem concat_map_mem {α : Type} (f : α → String) (l : List α) (a : α) (h : a ∈ l) :
    ∃ pre post : String, Concat (l.map f) = pre ++ f a ++ post := by
  induction l with
  | nil => simp at h
  | cons x xs ih =>
    rcases List.mem_cons.mp h with hx | hx
    · subst hx
      exact ⟨"", Concat (xs.map f), by simp [Concat]⟩
    · obtain ⟨pre, post, hpp⟩ := ih hx
      exact ⟨f x ++ pre, post, by simp [Concat, hpp, String.append_assoc]⟩

/-- A name among the keys has a node in both renderings, declared for the
entity that the index expression finds. -/
theorem declared_node (table : Char → Bool) (d : Diagram) (k : String)
    (hk : k ∈ d.Entities.keys) :
    ∃ e, (k, e) ∈ d.Entities ∧ (k, e) ∈ d.Entities.sorted ∧
      (∃ pre post : String, d.ToDOT table = pre ++ formatDOTEntity e ++ post) ∧
      (∃ pre post : String, d.ToMermaid table = pre ++ mermaidBlock table e ++ post) := by
  obtain ⟨e, he⟩ := lookup_isSome_of_mem_keys d.Entities k hk
  have hmem : (k, e) ∈ d.Entities.sorted := by
    unfold EntityMap.sorted
    rw [List.mem_filterMap]
    exact ⟨k, (sortStrings_perm _).mem_iff.mpr hk, by simp [he]⟩
  refine ⟨e, mem_of_lookup_eq_some _ _ _ he, hmem, ?_, ?_⟩
  · obtain ⟨pre, post, hpp⟩ :=
      concat_map_mem (fun p : String × Entity => formatDOTEntity p.2) _ _ hmem
    rw [toDOT_eq, hpp]
    exact ⟨"digraph ERD \x7b\n    rankdir=LR;\n    node [shape=record];\n" ++
        (if d.Title ≠ "" then
          "    labelloc=\"t\";\n" ++ ("    label=" ++ Quote table (escapeDOT d.Title) ++ ";\n")
          else "") ++ "\n" ++ pre,
      post ++ "\n" ++ Concat (d.Relationships.map (formatDOTRelationship table)) ++ "\x7d\n",
      by simp only [String.append_assoc]⟩
  · obtain ⟨pre, post, hpp⟩ :=
      concat_map_mem (fun p : String × Entity => mermaidBlock table p.2) _ _ hmem
    rw [toMermaid_eq, hpp]
    exact ⟨"erDiagram\n" ++ pre,
      post ++ Concat (d.Relationships.map formatMermaidRelationship),
      by simp only [String.append_assoc]⟩

/-- C31: a validated diagram renders only edges between declared nodes.  In a
diagram that stores each entity under its own name and for which `Validate`
returns no errors, for every relationship `r` the identifiers
`sanitizeName r.From` and `sanitizeName r.To` used by its edge are the node
identifiers `sanitizeName e.Name` of entities `e` of the diagram, whose node
declaration is written by `ToDOT` and whose block is written by `ToMermaid`. -/
theorem C31_edges_between_declared_nodes (table : Char → Bool) (d : Diagram)
    (hown : ∀ p ∈ d.Entities, p.2.Name = p.1) (hvalid : d.Validate = [])
    (r : Relationship) (hr : r ∈ d.Relationships) :
    (∃ e, (r.From, e) ∈ d.Entities ∧ sanitizeName r.From = sanitizeName e.Name ∧
      (∃ pre post : String,
        d.ToDOT table =
          pre ++ ("    " ++ sanitizeName e.Name ++ " [label=\"\x7b" ++ escapeDOT e.Name ++ "|") ++
            post) ∧
      (∃ pre post : String,
        d.ToMermaid table = pre ++ ("    " ++ sanitizeName e.Name ++ " \x7b\n") ++ post)) ∧
    (∃ e, (r.To, e) ∈ d.Entities ∧ sanitizeName r.To = sanitizeName e.Name ∧
      (∃ pre post : String,
        d.ToDOT table =
          pre ++ ("    " ++ sanitizeName e.Name ++ " [label=\"\x7b" ++ escapeDOT e.Name ++ "|") ++
            post) ∧
      (∃ pre post : String,
        d.ToMermaid table = pre ++ ("    " ++ sanitizeName e.Name ++ " \x7b\n") ++ post)) := by
  have hrel : r.ValidIn d.Entities := by
    have h1 : d.StructurallyValid := by
      have h2 : d.Validate = [] := hvalid
      rw [diagramValidate_eq] at h2
      unfold Diagram.StructurallyValid entityDiagnostics relationshipDiagnostics List.enum at *
      simp only [List.append_eq_nil,
        flatMap_enumFrom_eq_nil_iff (fun r : Relationship => r.ValidateAgainst d.Entities)
          (fun i => "Relationship[" ++ toString i ++ "]."),
        validateAgainst_eq_nil_iff, List.flatMap_eq_nil_iff, rePrefix_eq_nil_iff,
        entityValidate_eq_nil_iff] at h2
      obtain ⟨⟨⟨ht, he⟩, hent⟩, hrels⟩ := h2
      refine ⟨?_, ?_, hent, hrels⟩
      · intro hb; simp [hb] at ht
      · intro hb; simp [hb] at he
    exact h1.2.2.2 r hr
  have hnode : ∀ k : String, k ∈ d.Entities.keys →
      ∃ e, (k, e) ∈ d.Entities ∧ sanitizeName k = sanitizeName e.Name ∧
        (∃ pre post : String,
          d.ToDOT table =
            pre ++ ("    " ++ sanitizeName e.Name ++ " [label=\"\x7b" ++ escapeDOT e.Name ++
              "|") ++ post) ∧
        (∃ pre post : String,
          d.ToMermaid table = pre ++ ("    " ++ sanitizeName e.Name ++ " \x7b\n") ++ post) := by
    intro k hk
    obtain ⟨e, hmem, _, ⟨pre1, post1, h1⟩, ⟨pre2, post2, h2⟩⟩ := declared_node table d k hk
    have hname : e.Name = k := hown (k, e) hmem
    refine ⟨e, hmem, by rw [hname], ?_, ?_⟩
    · refine ⟨pre1, Join (e.Attributes.foldl (fun attrs attr => attrs ++ [formatDOTAttribute attr]) []) "\\l" ++ "\\l\x7d\"];\n" ++ post1, ?_⟩
      rw [h1]
      simp only [formatDOTEntity, String.empty_append, String.append_assoc]
    · refine ⟨pre2, Concat (e.Attributes.map (formatMermaidAttribute table)) ++ "    \x7d\n" ++
        post2, ?_⟩
      rw [h2]
      simp only [mermaidBlock, String.append_assoc]
  exact ⟨hnode r.From hrel.2.2.2.1, hnode r.To hrel.2.2.2.2.1⟩

/-- C31, witness: the valid diagram with the entities `User` and `Blog Post`
and the relationship from `User` to `Blog Post`. -/
theorem C31_edges_between_declared_nodes_witness :
    (∃ e, (("User" : String), e) ∈
        [("User", (⟨none, none, "User", [⟨none, none, "ID", "string", false⟩]⟩ : Entity)),
         ("Blog Post", ⟨none, none, "Blog Post", [⟨none, none, "ID", "string", false⟩]⟩)] ∧
      sanitizeName "User" = sanitizeName e.Name) ∧
    (∃ e, (("Blog Post" : String), e) ∈
        [("User", (⟨none, none, "User", [⟨none, none, "ID", "string", false⟩]⟩ : Entity)),
         ("Blog Post", ⟨none, none, "Blog Post", [⟨none, none, "ID", "string", false⟩]⟩)] ∧
      sanitizeName "Blog Post" = sanitizeName e.Name) := by
  have h := C31_edges_between_declared_nodes (fun _ => true)
    ⟨"Blog", none,
      [("User", ⟨none, none, "User", [⟨none, none, "ID", "string", false⟩]⟩),
       ("Blog Post", ⟨none, none, "Blog Post", [⟨none, none, "ID", "string", false⟩]⟩)],
      [⟨none, none, "User", "Blog Post", "Posts", OneToMany⟩]⟩
    (by decide) (by decide) ⟨none, none, "User", "Blog Post", "Posts", OneToMany⟩ (by decide)
  obtain ⟨⟨e1, m1, s1, _⟩, ⟨e2, m2, s2, _⟩⟩ := h
  exact ⟨⟨e1, m1, s1⟩, ⟨e2, m2, s2⟩⟩

/-- C34: `sanitizeName` is not injective: the distinct names `a-b` and `a.b`
have the same result `a_b`; the diagram holding an entity under each of them
is accepted by `Validate`, and `ToDOT` and `ToMermaid` render it with two node
declarations carrying the identifier `a_b`. -/
theorem C34_sanitizeName_not_injective :
    ("a-b" : String) ≠ "a.b" ∧ sanitizeName "a-b" = "a_b" ∧ sanitizeName "a.b" = "a_b" ∧
    ¬ Function.Injective sanitizeName ∧
    EntityMap.WF
      [("a-b", ⟨none, none, "a-b", [⟨none, none, "ID", "string", false⟩]⟩),
       ("a.b", ⟨none, none, "a.b", [⟨none, none, "ID", "string", false⟩]⟩)] ∧
    Diagram.Validate
        ⟨"Clash", none,
          [("a-b", ⟨none, none, "a-b", [⟨none, none, "ID", "string", false⟩]⟩),
           ("a.b", ⟨none, none, "a.b", [⟨none, none, "ID", "string", false⟩]⟩)], []⟩ = [] ∧
    Diagram.ToDOT (fun _ => true)
        ⟨"Clash", none,
          [("a-b", ⟨none, none, "a-b", [⟨none, none, "ID", "string", false⟩]⟩),
           ("a.b", ⟨none, none, "a.b", [⟨none, none, "ID", "string", false⟩]⟩)], []⟩ =
      "digraph ERD \x7b\n    rankdir=LR;\n    node [shape=record];\n" ++
        "    labelloc=\"t\";\n    label=\"Clash\";\n\n" ++
        "    a_b [label=\"\x7ba-b|ID: string\\l\x7d\"];\n" ++
        "    a_b [label=\"\x7ba.b|ID: string\\l\x7d\"];\n" ++ "\n\x7d\n" ∧
    Diagram.ToMermaid (fun _ => true)
        ⟨"Clash", none,
          [("a-b", ⟨none, none, "a-b", [⟨none, none, "ID", "string", false⟩]⟩),
           ("a.b", ⟨none, none, "a.b", [⟨none, none, "ID", "string", false⟩]⟩)], []⟩ =
      "erDiagram\n" ++ "    a_b \x7b\n        string ID\n    \x7d\n" ++
        "    a_b \x7b\n        string ID\n    \x7d\n" := by
  refine ⟨by decide, by decide, by decide, ?_, by decide, by decide, rfl, rfl⟩
  intro hinj
  have h : sanitizeName "a-b" = sanitizeName "a.b" := by decide
  exact absurd (hinj h) (by decide)

/-! ## Injectivity and safety of `escapeDOT` -/

theorem unescapeDOT_plain (c : Char) (l : List Char) (h : c ≠ '\\') :
    unescapeDOT (c :: l) = c :: unescapeDOT l := by
  cases l with
  | nil => simp [unescapeDOT]
  | cons c2 rest => simp [unescapeDOT, h]

theorem unescapeDOT_escaped (c2 : Char) (rest : List Char) :
    unescapeDOT ('\\' :: c2 :: rest) =
      (if c2 = 'n' then '\n' else c2) :: unescapeDOT rest := by
  simp [unescapeDOT]

theorem unescapeDOT_flatMap (l : List Char) : unescapeDOT (l.flatMap escapeChar) = l := by
  induction l with
  | nil => simp [unescapeDOT]
  | cons x xs ih =>
    rw [List.flatMap_cons]
    by_cases h1 : x = '\\'
    · subst h1
      have e : escapeChar '\\' = ['\\', '\\'] := by decide
      rw [e]
      simp only [List.cons_append, List.nil_append, unescapeDOT_escaped, ih]
      simp
    · by_cases h2 : x = '"'
      · subst h2
        have e : escapeChar '"' = ['\\', '"'] := by decide
        rw [e]
        simp only [List.cons_append, List.nil_append, unescapeDOT_escaped, ih]
        simp
      · by_cases h3 : x = '\n'
        · subst h3
          have e : escapeChar '\n' = ['\\', 'n'] := by decide
          rw [e]
          simp only [List.cons_append, List.nil_append, unescapeDOT_escaped, ih]
          simp
        · have e : escapeChar x = [x] := by simp [escapeChar, h1, h2, h3]
          rw [e]
          simp only [List.cons_append, List.nil_append]
          rw [unescapeDOT_plain x _ h1, ih]

theorem escapeChar_no_newline (x : Char) : '\n' ∉ escapeChar x := by
  unfold escapeChar
  by_cases h1 : x = '\\'
  · simp only [h1, if_true]; decide
  · by_cases h2 : x = '"'
    · simp only [h2]; decide
    · by_cases h3 : x = '\n'
      · simp only [h3]; decide
      · simp only [h1, h2, h3, if_false, List.mem_singleton]
        exact fun h => h3 h.symm

theorem quotes_preceded (l pre post : List Char)
    (h : l.flatMap escapeChar = pre ++ '"' :: post) : ∃ pre2, pre = pre2 ++ ['\\'] := by
  induction l generalizing pre with
  | nil => simp at h
  | cons x xs ih =>
    rw [List.flatMap_cons] at h
    by_cases h1 : x = '\\'
    · have e : escapeChar x = ['\\', '\\'] := by subst h1; decide
      rw [e] at h
      rcases pre with _ | ⟨p1, _ | ⟨p2, pre3⟩⟩
      · simp at h
      · simp at h
      · simp only [List.cons_append, List.nil_append, List.cons.injEq] at h
        obtain ⟨hp1, hp2, h3⟩ := h
        obtain ⟨q, hq⟩ := ih pre3 h3
        exact ⟨p1 :: p2 :: q, by rw [hq]; rfl⟩
    · by_cases h2 : x = '"'
      · have e : escapeChar x = ['\\', '"'] := by subst h2; decide
        rw [e] at h
        rcases pre with _ | ⟨p1, _ | ⟨p2, pre3⟩⟩
        · simp at h
        · simp only [List.cons_append, List.nil_append, List.cons.injEq] at h
          exact ⟨[], by rw [← h.1]; rfl⟩
        · simp only [List.cons_append, List.nil_append, List.cons.injEq] at h
          obtain ⟨hp1, hp2, h3⟩ := h
          obtain ⟨q, hq⟩ := ih pre3 h3
          exact ⟨p1 :: p2 :: q, by rw [hq]; rfl⟩
      · by_cases h3 : x = '\n'
        · have e : escapeChar x = ['\\', 'n'] := by subst h3; decide
          rw [e] at h
          rcases pre with _ | ⟨p1, _ | ⟨p2, pre3⟩⟩
          · simp at h
          · simp at h
          · simp only [List.cons_append, List.nil_append, List.cons.injEq] at h
            obtain ⟨hp1, hp2, h4⟩ := h
            obtain ⟨q, hq⟩ := ih pre3 h4
            exact ⟨p1 :: p2 :: q, by rw [hq]; rfl⟩
        · have e : escapeChar x = [x] := by simp [escapeChar, h1, h2, h3]
          rw [e] at h
          rcases pre with _ | ⟨p1, pre2⟩
          · simp only [List.cons_append, List.nil_append, List.cons.injEq] at h
            exact absurd h.1 h2
          · simp only [List.cons_append, List.nil_append, List.cons.injEq] at h
            obtain ⟨q, hq⟩ := ih pre2 h.2
            exact ⟨p1 :: q, by rw [hq]; rfl⟩

/-- C32: `escapeDOT` is injective, and its output is safe inside a
double-quoted DOT string: it contains no newline character, and every double
quote in it is immediately preceded by a backslash. -/
theorem C32_escapeDOT_injective_safe (a b s : String) :
    (escapeDOT a = escapeDOT b → a = b) ∧
    '\n' ∉ (escapeDOT s).data ∧
    (∀ pre post : List Char, (escapeDOT s).data = pre ++ '"' :: post →
      ∃ pre2, pre = pre2 ++ ['\\']) := by
  refine ⟨?_, ?_, ?_⟩
  · intro h
    have h2 := congrArg (fun t : String => unescapeDOT t.data) h
    simp only [escapeDOT_single_pass, unescapeDOT_flatMap] at h2
    exact String.ext h2
  · rw [escapeDOT_single_pass]
    intro h
    obtain ⟨x, _, hx⟩ := List.mem_flatMap.mp h
    exact escapeChar_no_newline x hx
  · intro pre post h
    rw [escapeDOT_single_pass] at h
    exact quotes_preceded s.data pre post h

/-- C32, witness: the text `say "hi"`, its escaped form read back, and the
first double quote of the escaped form. -/
theorem C32_escapeDOT_injective_safe_witness :
    (∃ pre2, "say \\".data = pre2 ++ ['\\']) ∧ ("x" : String) = "x" :=
  ⟨(C32_escapeDOT_injective_safe "" "" "say \"hi\"").2.2 "say \\".data "hi\\\"".data
      (by decide),
   (C32_escapeDOT_injective_safe "x" "x" "").1 rfl⟩

/-! ## The slice marker in the result of `sanitizeType` -/

theorem occurs_pair_iff (a b : Char) (l : List Char) :
    Occurs [a, b] l ↔ ∃ pre post, l = pre ++ a :: b :: post := by
  unfold Occurs
  constructor
  · rintro ⟨pre, post, h⟩
    exact ⟨pre, post, by simpa using h⟩
  · rintro ⟨pre, post, h⟩
    exact ⟨pre, post, by simpa using h⟩

theorem occurs_cons (pat l : List Char) (c : Char) (h : Occurs pat l) : Occurs pat (c :: l) := by
  obtain ⟨pre, post, hl⟩ := h
  exact ⟨c :: pre, post, by rw [hl]; rfl⟩

theorem occurs_append_left (pat l l0 : List Char) (h : Occurs pat l) :
    Occurs pat (l0 ++ l) := by
  obtain ⟨pre, post, hl⟩ := h
  exact ⟨l0 ++ pre, post, by rw [hl]; simp⟩

theorem append_cons_split (l1 X pre rest : List Char) (a : Char) (ha : a ∉ l1)
    (h : l1 ++ X = pre ++ a :: rest) : ∃ pre2, pre = l1 ++ pre2 ∧ X = pre2 ++ a :: rest := by
  induction l1 generalizing pre with
  | nil => exact ⟨pre, rfl, h⟩
  | cons x xs ih =>
    have hx : ¬ a = x := fun e => ha (by rw [e]; exact List.mem_cons_self _ _)
    have hxs : a ∉ xs := fun e => ha (List.mem_cons_of_mem _ e)
    cases pre with
    | nil =>
      simp only [List.cons_append, List.nil_append, List.cons.injEq] at h
      exact absurd h.1.symm hx
    | cons p pre0 =>
      simp only [List.cons_append, List.cons.injEq] at h
      obtain ⟨pre2, h1, h2⟩ := ih pre0 hxs h.2
      exact ⟨pre2, by rw [h.1, h1]; rfl, h2⟩

theorem isPrefixOf_slice (c : Char) (cs : List Char) :
    ['[', ']'].isPrefixOf (c :: cs) = true ↔ ∃ rest, c :: cs = '[' :: ']' :: rest := by
  cases cs with
  | nil => simp [List.isPrefixOf]
  | cons c2 rest =>
    constructor
    · intro h
      simp only [List.isPrefixOf, Bool.and_true, Bool.and_eq_true, beq_iff_eq] at h
      exact ⟨rest, by rw [← h.1, ← h.2]⟩
    · rintro ⟨r, hr⟩
      simp only [List.cons.injEq] at hr
      simp [List.isPrefixOf, hr.1, hr.2.1]

theorem replaceScan_slice_head (cs : List Char) (x : Char) (post : List Char)
    (hx : x ≠ 'A')
    (h : replaceScan ['[', ']'] ['A', 'r', 'r', 'a', 'y', '_'] 0 cs = x :: post) :
    ∃ ys, cs = x :: ys := by
  cases cs with
  | nil => simp [replaceScan] at h
  | cons y ys =>
    simp only [replaceScan] at h
    by_cases hm : ['[', ']'].isPrefixOf (y :: ys) = true
    · simp only [hm, if_true, List.cons_append, List.cons.injEq] at h
      exact absurd h.1.symm hx
    · simp only [hm, Bool.false_eq_true, if_false, List.cons.injEq] at h
      exact ⟨ys, by rw [h.1]⟩

theorem replaceScan_slice_no_slice (l : List Char) (k : Nat) :
    ¬ Occurs ['[', ']'] (replaceScan ['[', ']'] ['A', 'r', 'r', 'a', 'y', '_'] k l) := by
  induction l generalizing k with
  | nil =>
    rw [occurs_pair_iff]
    rintro ⟨pre, post, h⟩
    simp [replaceScan] at h
  | cons c cs ih =>
    cases k with
    | succ k2 => simpa [replaceScan] using ih k2
    | zero =>
      rw [occurs_pair_iff]
      rintro ⟨pre, post, h⟩
      simp only [replaceScan] at h
      by_cases hm : ['[', ']'].isPrefixOf (c :: cs) = true
      · simp only [hm, if_true] at h
        obtain ⟨pre2, _, h2⟩ := append_cons_split _ _ pre _ '[' (by decide) h
        exact ih _ ((occurs_pair_iff _ _ _).mpr ⟨pre2, post, h2⟩)
      · simp only [hm, Bool.false_eq_true, if_false] at h
        cases pre with
        | nil =>
          simp only [List.nil_append, List.cons.injEq] at h
          obtain ⟨ys, hys⟩ := replaceScan_slice_head cs ']' post (by decide) h.2
          exact hm ((isPrefixOf_slice c cs).mpr ⟨ys, by rw [h.1, hys]⟩)
        | cons p pre0 =>
          simp only [List.cons_append, List.cons.injEq] at h
          exact ih 0 ((occurs_pair_iff _ _ _).mpr ⟨pre0, post, h.2⟩)

theorem replaceScan_slice_star (l : List Char) (k : Nat)
    (h : Occurs ['[', '*'] (replaceScan ['[', ']'] ['A', 'r', 'r', 'a', 'y', '_'] k l)) :
    Occurs ['[', '*'] l := by
  induction l generalizing k with
  | nil =>
    rw [occurs_pair_iff] at h
    obtain ⟨pre, post, h⟩ := h
    simp [replaceScan] at h
  | cons c cs ih =>
    cases k with
    | succ k2 =>
      simp only [replaceScan] at h
      exact occurs_cons _ _ c (ih k2 h)
    | zero =>
      rw [occurs_pair_iff] at h
      obtain ⟨pre, post, h⟩ := h
      simp only [replaceScan] at h
      by_cases hm : ['[', ']'].isPrefixOf (c :: cs) = true
      · simp only [hm, if_true] at h
        obtain ⟨pre2, _, h2⟩ := append_cons_split _ _ pre _ '[' (by decide) h
        exact occurs_cons _ _ c (ih _ ((occurs_pair_iff _ _ _).mpr ⟨pre2, post, h2⟩))
      · simp only [hm, Bool.false_eq_true, if_false] at h
        cases pre with
        | nil =>
          simp only [List.nil_append, List.cons.injEq] at h
          obtain ⟨ys, hys⟩ := replaceScan_slice_head cs '*' post (by decide) h.2
          exact (occurs_pair_iff _ _ _).mpr ⟨[], ys, by rw [h.1, hys]; rfl⟩
        | cons p pre0 =>
          simp only [List.cons_append, List.cons.injEq] at h
          exact occurs_cons _ _ c (ih 0 ((occurs_pair_iff _ _ _).mpr ⟨pre0, post, h.2⟩))

theorem delete_star_slice (l : List Char)
    (h : Occurs ['[', ']'] (replaceScan ['*'] [] 0 l)) :
    Occurs ['[', ']'] l ∨ Occurs ['[', '*'] l := by
  rw [replaceScan_single] at h
  induction l with
  | nil =>
    rw [occurs_pair_iff] at h
    obtain ⟨pre, post, h⟩ := h
    simp at h
  | cons x xs ih =>
    rw [List.flatMap_cons] at h
    by_cases hx : x = '*'
    · simp only [hx, if_true, List.nil_append] at h
      rcases ih h with h2 | h2
      · exact Or.inl (occurs_cons _ _ x h2)
      · exact Or.inr (occurs_cons _ _ x h2)
    · simp only [hx, if_false, List.singleton_append] at h
      rw [occurs_pair_iff] at h
      obtain ⟨pre, post, h⟩ := h
      cases pre with
      | cons p pre0 =>
        simp only [List.cons_append, List.cons.injEq] at h
        rcases ih ((occurs_pair_iff _ _ _).mpr ⟨pre0, post, h.2⟩) with h2 | h2
        · exact Or.inl (occurs_cons _ _ x h2)
        · exact Or.inr (occurs_cons _ _ x h2)
      | nil =>
        simp only [List.nil_append, List.cons.injEq] at h
        cases xs with
        | nil => simp at h
        | cons y ys =>
          rw [List.flatMap_cons] at h
          by_cases hy : y = '*'
          · exact Or.inr ((occurs_pair_iff _ _ _).mpr ⟨[], ys, by rw [h.1, hy]; rfl⟩)
          · simp only [hy, if_false, List.singleton_append, List.cons.injEq] at h
            exact Or.inl ((occurs_pair_iff _ _ _).mpr ⟨[], ys, by rw [h.1, h.2.1]; rfl⟩)

theorem underscore_space_slice (l : List Char)
    (h : Occurs ['[', ']'] (replaceScan [' '] ['_'] 0 l)) : Occurs ['[', ']'] l := by
  rw [replaceScan_single, flatMap_singleton_subst] at h
  rw [occurs_pair_iff] at h ⊢
  obtain ⟨pre, post, h⟩ := h
  obtain ⟨l1, l2, hl, _, h2⟩ := List.map_eq_append_iff.mp h
  obtain ⟨a, l3, hl2, ha, h3⟩ := List.map_eq_cons_iff.mp h2
  obtain ⟨b, l4, hl3, hb, _⟩ := List.map_eq_cons_iff.mp h3
  have ha2 : a = '[' := by
    by_cases e : a = ' '
    · simp [e] at ha
    · simpa [e] using ha
  have hb2 : b = ']' := by
    by_cases e : b = ' '
    · simp [e] at hb
    · simpa [e] using hb
  exact ⟨l1, l4, by rw [hl, hl2, hl3, ha2, hb2]⟩

theorem replaceScan_slice_id (l : List Char) (h : ¬ Occurs ['[', ']'] l) :
    replaceScan ['[', ']'] ['A', 'r', 'r', 'a', 'y', '_'] 0 l = l := by
  induction l with
  | nil => rfl
  | cons c cs ih =>
    have hm : ¬ ['[', ']'].isPrefixOf (c :: cs) = true := by
      intro hm
      obtain ⟨rest, hr⟩ := (isPrefixOf_slice c cs).mp hm
      exact h ((occurs_pair_iff _ _ _).mpr ⟨[], rest, by rw [hr]; rfl⟩)
    have hcs : ¬ Occurs ['[', ']'] cs := fun hc => h (occurs_cons _ _ c hc)
    simp only [replaceScan, hm, Bool.false_eq_true, if_false, ih hcs]

theorem replaceScan_single_id (c : Char) (new l : List Char) (h : c ∉ l) :
    replaceScan [c] new 0 l = l := by
  rw [replaceScan_single]
  induction l with
  | nil => rfl
  | cons x xs ih =>
    have hx : ¬ x = c := fun e => h (by rw [e]; exact List.mem_cons_self _ _)
    have hxs : c ∉ xs := fun e => h (List.mem_cons_of_mem _ e)
    simp [List.flatMap_cons, hx, ih hxs]

theorem clean_data (u : String) :
    (clean u).data =
      replaceScan [' '] ['_'] 0
        (replaceScan ['*'] [] 0
          (replaceScan ['[', ']'] ['A', 'r', 'r', 'a', 'y', '_'] 0 u.data)) := by
  have e1 : ("[]" : String).data = ['[', ']'] := rfl
  have e2 : ("*" : String).data = ['*'] := rfl
  have e3 : (" " : String).data = [' '] := rfl
  have n1 : ("Array_" : String).data = ['A', 'r', 'r', 'a', 'y', '_'] := rfl
  have n2 : ("" : String).data = [] := rfl
  have n3 : ("_" : String).data = ['_'] := rfl
  unfold clean
  simp [ReplaceAll, e1, e2, e3, n1, n2, n3]

theorem clean_chars (u : String) (hdot : '.' ∉ u.data) :
    '.' ∉ (clean u).data ∧ '*' ∉ (clean u).data ∧ ' ' ∉ (clean u).data := by
  rw [clean_data]
  refine ⟨?_, ?_, ?_⟩
  · intro h
    rcases mem_replaceScan _ _ _ _ _ h with h | h
    · rcases mem_replaceScan _ _ _ _ _ h with h | h
      · rcases mem_replaceScan _ _ _ _ _ h with h | h
        · exact hdot h
        · revert h; decide
      · simp at h
    · revert h; decide
  · intro h
    rcases mem_replaceScan _ _ _ _ _ h with h | h
    · exact not_mem_replaceScan_single '*' [] _ (by simp) h
    · revert h; decide
  · exact not_mem_replaceScan_single ' ' ['_'] _ (by decide)

theorem occurs_head_mem (a : Char) (pat l : List Char) (h : Occurs (a :: pat) l) : a ∈ l := by
  obtain ⟨pre, post, hl⟩ := h
  rw [hl]
  simp

theorem sanitizeType_chars (t : String) :
    '.' ∉ (sanitizeType t).data ∧ '*' ∉ (sanitizeType t).data ∧
    ' ' ∉ (sanitizeType t).data := by
  obtain ⟨u, _, hdot, hst⟩ := sanitizeType_after_period t
  rw [hst]
  exact clean_chars u hdot

theorem sanitizeType_twice (t : String) :
    (sanitizeType (sanitizeType t)).data =
      replaceScan ['[', ']'] ['A', 'r', 'r', 'a', 'y', '_'] 0 (sanitizeType t).data := by
  obtain ⟨hdot, hstar, hspace⟩ := sanitizeType_chars t
  obtain ⟨u, hu, _, hst⟩ := sanitizeType_after_period (sanitizeType t)
  have hueq : u = sanitizeType t := by
    rcases hu with ⟨_, h⟩ | ⟨pre, h⟩
    · exact h
    · exfalso
      apply hdot
      have hd := congrArg String.data h
      have hp : (".": String).data = ['.'] := rfl
      rw [hd]
      simp [String.data_append, hp]
  rw [hst, hueq, clean_data]
  have h1 : '*' ∉ replaceScan ['[', ']'] ['A', 'r', 'r', 'a', 'y', '_'] 0
      (sanitizeType t).data := by
    intro h
    rcases mem_replaceScan _ _ _ _ _ h with h | h
    · exact hstar h
    · revert h; decide
  have h2 : ' ' ∉ replaceScan ['[', ']'] ['A', 'r', 'r', 'a', 'y', '_'] 0
      (sanitizeType t).data := by
    intro h
    rcases mem_replaceScan _ _ _ _ _ h with h | h
    · exact hspace h
    · revert h; decide
  rw [replaceScan_single_id '*' [] _ h1, replaceScan_single_id ' ' ['_'] _ h2]

theorem sanitizeType_idempotent_iff (t : String) :
    sanitizeType (sanitizeType t) = sanitizeType t ↔
      ¬ Occurs ['[', ']'] (sanitizeType t).data := by
  constructor
  · intro h hocc
    have h2 := congrArg String.data h
    rw [sanitizeType_twice] at h2
    have h3 := replaceScan_slice_no_slice (sanitizeType t).data 0
    rw [h2] at h3
    exact h3 hocc
  · intro h
    apply String.ext
    rw [sanitizeType_twice]
    exact replaceScan_slice_id _ h

theorem sanitizeType_no_slice (t : String) (h : ¬ Occurs ['[', '*'] t.data) :
    ¬ Occurs ['[', ']'] (sanitizeType t).data := by
  obtain ⟨u, hu, _, hst⟩ := sanitizeType_after_period t
  have hu2 : ¬ Occurs ['[', '*'] u.data := by
    intro hocc
    rcases hu with ⟨_, hut⟩ | ⟨pre, hpre⟩
    · rw [hut] at hocc; exact h hocc
    · apply h
      have hd := congrArg String.data hpre
      rw [hd]
      simp only [String.data_append]
      exact occurs_append_left _ _ _ hocc
  rw [hst, clean_data]
  intro hocc
  rcases delete_star_slice _ (underscore_space_slice _ hocc) with h1 | h1
  · exact replaceScan_slice_no_slice _ 0 h1
  · exact hu2 (replaceScan_slice_star _ 0 h1)

/-- C33, as stated, fails: `sanitizeType` of `[*]` is the slice marker `[]`
itself (the asterisk is deleted after the slice markers were replaced), and
sanitizing that result again gives `Array_`. -/
theorem C33_counterexample :
    sanitizeType "[*]" = "[]" ∧
    Occurs "[]".data (sanitizeType "[*]").data ∧
    sanitizeType (sanitizeType "[*]") = "Array_" ∧
    sanitizeType (sanitizeType "[*]") ≠ sanitizeType "[*]" := by
  refine ⟨by decide, ⟨[], [], by decide⟩, by decide, by decide⟩

/-- C33, amended: `sanitizeType` applied twice gives the result of applying it
once exactly when that result does not contain the slice marker `[]`; and for
every type string in which no opening bracket is immediately followed by an
asterisk the result does not contain `[]`, so that `sanitizeType` is
idempotent there. -/
theorem C33_sanitizeType_idempotent_iff (t : String) :
    (sanitizeType (sanitizeType t) = sanitizeType t ↔
      ¬ Occurs "[]".data (sanitizeType t).data) ∧
    (¬ Occurs "[*".data t.data →
      ¬ Occurs "[]".data (sanitizeType t).data ∧
      sanitizeType (sanitizeType t) = sanitizeType t) := by
  have e1 : ("[]" : String).data = ['[', ']'] := rfl
  have e2 : ("[*" : String).data = ['[', '*'] := rfl
  rw [e1, e2]
  refine ⟨sanitizeType_idempotent_iff t, fun h => ?_⟩
  have h2 := sanitizeType_no_slice t h
  exact ⟨h2, (sanitizeType_idempotent_iff t).mpr h2⟩

/-- C33, witness: the pointer type `*User`, which has no opening bracket. -/
theorem C33_sanitizeType_idempotent_iff_witness :
    ¬ Occurs "[]".data (sanitizeType "*User").data ∧
    sanitizeType (sanitizeType "*User") = sanitizeType "*User" :=
  (C33_sanitizeType_idempotent_iff "*User").2
    (fun h => absurd (occurs_head_mem '[' ['*'] "*User".data h) (by decide))

/-! ## Rendering and nil pointers -/

theorem derefStep_foldl {α β : Type} (body : β → α → β) (l : List α) (acc : β) :
    (l.map some).foldl (derefStep body) (some acc) = some (l.foldl body acc) := by
  induction l generalizing acc with
  | nil => rfl
  | cons x xs ih => simpa [derefStep] using ih (body acc x)

theorem toP_entity (d : Diagram) (name : String) :
    d.toP.entity name = (d.Entities.lookup name).map Entity.toP := by
  unfold DiagramP.entity Diagram.toP
  simp only
  induction d.Entities with
  | nil => rfl
  | cons p rest ih =>
    obtain ⟨k, e⟩ := p
    by_cases hk : name = k
    · simp [List.lookup, hk]
    · have hb : (name == k) = false := by simpa using hk
      simpa [List.lookup, hb] using ih

theorem toP_names (d : Diagram) :
    SortStrings (d.toP.Entities.foldl (fun entityNames p => entityNames ++ [p.1]) []) =
      d.entityNames := by
  have h1 := foldl_append_singleton (Prod.fst : String × Option EntityP → String)
    d.toP.Entities []
  have h2 := foldl_append_singleton (Prod.fst : String × Entity → String) d.Entities []
  simp only [List.nil_append] at h1 h2
  have h3 : d.toP.Entities.map Prod.fst = d.Entities.map Prod.fst := by
    simp [Diagram.toP, List.map_map, Function.comp_def]
  unfold Diagram.entityNames
  simp only [h2]
  rw [h1, h3]

theorem formatDOTEntityP_toP (e : Entity) :
    formatDOTEntityP (some e.toP) = some (formatDOTEntity e) := by
  unfold formatDOTEntityP formatDOTEntity Entity.toP
  simp only [derefStep_foldl]

theorem toDOT_names_loop (d : Diagram) (ns : List String)
    (h : ∀ n ∈ ns, n ∈ d.Entities.keys) (sb : String) :
    ns.foldl
        (fun sb name =>
          sb.bind fun sb =>
            (formatDOTEntityP (d.toP.entity name)).map fun text => sb ++ text)
        (some sb) =
      some (ns.foldl
        (fun sb name =>
          match d.Entities.get? name with
          | some entity => sb ++ formatDOTEntity entity
          | none => sb)
        sb) := by
  induction ns generalizing sb with
  | nil => rfl
  | cons n rest ih =>
    obtain ⟨e, he⟩ := lookup_isSome_of_mem_keys d.Entities n (h n (List.mem_cons_self _ _))
    have ih2 := ih (fun m hm => h m (List.mem_cons_of_mem _ hm)) (sb ++ formatDOTEntity e)
    simp only [toP_entity, EntityMap.get?] at ih2 ⊢
    simp only [List.foldl_cons, he, Option.map_some', formatDOTEntityP_toP, Option.some_bind]
    exact ih2

theorem toMermaid_names_loop (table : Char → Bool) (d : Diagram) (ns : List String)
    (h : ∀ n ∈ ns, n ∈ d.Entities.keys) (sb : String) :
    ns.foldl
        (fun sb name =>
          sb.bind fun sb =>
            (d.toP.entity name).bind fun entity =>
              (entity.Attributes.foldl
                (derefStep fun sb attr => sb ++ formatMermaidAttribute table attr)
                (some (sb ++ ("    " ++ sanitizeName entity.Name ++ " \x7b\n")))).map
                fun sb => sb ++ "    \x7d\n")
        (some sb) =
      some (ns.foldl
        (fun sb name =>
          match d.Entities.get? name with
          | some entity =>
            (entity.Attributes.foldl (fun sb attr => sb ++ formatMermaidAttribute table attr)
              (sb ++ ("    " ++ sanitizeName entity.Name ++ " \x7b\n"))) ++ "    \x7d\n"
          | none => sb)
        sb) := by
  induction ns generalizing sb with
  | nil => rfl
  | cons n rest ih =>
    obtain ⟨e, he⟩ := lookup_isSome_of_mem_keys d.Entities n (h n (List.mem_cons_self _ _))
    have ih2 := ih (fun m hm => h m (List.mem_cons_of_mem _ hm))
      ((e.Attributes.foldl (fun sb attr => sb ++ formatMermaidAttribute table attr)
        (sb ++ ("    " ++ sanitizeName e.Name ++ " \x7b\n"))) ++ "    \x7d\n")
    simp only [toP_entity, EntityMap.get?] at ih2 ⊢
    simp only [List.foldl_cons, he, Option.map_some', Option.some_bind, Entity.toP,
      derefStep_foldl]
    exact ih2

/-- On a diagram without nil pointers the renderers with the pointers kept
return the text of the renderers on values. -/
theorem toP_render (table : Char → Bool) (d : Diagram) :
    d.toP.ToDOT table = some (d.ToDOT table) ∧
    d.toP.ToMermaid table = some (d.ToMermaid table) := by
  have hn : ∀ n ∈ d.entityNames, n ∈ d.Entities.keys := by
    intro n hn
    rw [entityNames_eq] at hn
    exact (sortStrings_perm _).mem_iff.mp hn
  constructor
  · unfold DiagramP.ToDOT Diagram.ToDOT
    simp only [toP_names, toDOT_names_loop d _ hn, Option.map_some']
    have hrel : d.toP.Relationships = d.Relationships.map some := rfl
    have htitle : d.toP.Title = d.Title := rfl
    simp only [hrel, htitle, derefStep_foldl, Option.map_some']
  · unfold DiagramP.ToMermaid Diagram.ToMermaid
    simp only [toP_names, toMermaid_names_loop table d _ hn]
    have hrel : d.toP.Relationships = d.Relationships.map some := rfl
    simp only [hrel, derefStep_foldl]

theorem all_isSome_eq_map {α : Type} (l : List (Option α)) (h : l.all Option.isSome = true) :
    ∃ l2 : List α, l = l2.map some := by
  induction l with
  | nil => exact ⟨[], rfl⟩
  | cons x xs ih =>
    simp only [List.all_cons, Bool.and_eq_true] at h
    obtain ⟨l2, hl2⟩ := ih h.2
    cases x with
    | none => simp at h
    | some a => exact ⟨a :: l2, by rw [hl2]; rfl⟩

theorem nonNil_entity (e : EntityP) (h : e.nonNil = true) : ∃ e2 : Entity, e = e2.toP := by
  obtain ⟨attrs, hattrs⟩ := all_isSome_eq_map e.Attributes h
  exact ⟨⟨e.Package, e.Note, e.Name, attrs⟩, by
    cases e
    simp only [Entity.toP, EntityP.mk.injEq, true_and]
    exact hattrs⟩

theorem nonNil_entities (l : List (String × Option EntityP))
    (h : l.all (fun p =>
      match p.2 with
      | some e => e.nonNil
      | none => false) = true) :
    ∃ m : EntityMap, l = m.map fun p => (p.1, some p.2.toP) := by
  induction l with
  | nil => exact ⟨[], rfl⟩
  | cons p rest ih =>
    simp only [List.all_cons, Bool.and_eq_true] at h
    obtain ⟨m, hm⟩ := ih h.2
    obtain ⟨k, x⟩ := p
    cases x with
    | none => simp at h
    | some e =>
      obtain ⟨e2, he2⟩ := nonNil_entity e h.1
      exact ⟨(k, e2) :: m, by rw [hm, he2]; rfl⟩

theorem nonNil_eq_toP (dp : DiagramP) (h : dp.nonNil = true) : ∃ d : Diagram, dp = d.toP := by
  unfold DiagramP.nonNil at h
  simp only [Bool.and_eq_true] at h
  obtain ⟨m, hm⟩ := nonNil_entities dp.Entities h.1
  obtain ⟨rels, hrels⟩ := all_isSome_eq_map dp.Relationships h.2
  exact ⟨⟨dp.Title, dp.Description, m, rels⟩, by
    cases dp
    simp only [Diagram.toP, DiagramP.mk.injEq, true_and]
    exact ⟨hm, hrels⟩⟩

/-- C26, as stated, fails: the diagram that `NewDiagram("x").AddRelationship(nil)`
builds holds a nil relationship pointer, and both renderers dereference it:
`ToMermaid` and `ToDOT` panic instead of returning a string.  The same happens
for a nil entity pointer in the map and for a nil attribute pointer. -/
theorem C26_counterexample :
    DiagramP.ToMermaid (fun _ => true) ⟨"x", none, [], [none]⟩ = none ∧
    DiagramP.ToDOT (fun _ => true) ⟨"x", none, [], [none]⟩ = none ∧
    DiagramP.ToDOT (fun _ => true) ⟨"x", none, [("a", none)], []⟩ = none ∧
    DiagramP.ToMermaid (fun _ => true)
      ⟨"x", none, [("a", some ⟨none, none, "a", [none]⟩)], []⟩ = none := by
  refine ⟨by decide, by decide, by decide, by decide⟩

/-- C26, amended: rendering does not depend on validity and does not fail on a
diagram without nil pointers.  For every diagram whose map values, attribute
pointers and relationship pointers are all non-nil, whatever `Validate`
reports, `ToDOT` and `ToMermaid` each return a string, the text of the
renderers on the values pointed to; the diagram with empty title, no entities
and no relationships is invalid and is rendered as the bare skeletons. -/
theorem C26_rendering_defined_without_nil (table : Char → Bool) (dp : DiagramP)
    (h : dp.nonNil = true) :
    (∃ text, dp.ToDOT table = some text) ∧ (∃ text, dp.ToMermaid table = some text) ∧
    (∃ d : Diagram, dp = d.toP ∧ dp.ToDOT table = some (d.ToDOT table) ∧
      dp.ToMermaid table = some (d.ToMermaid table)) ∧
    Diagram.Validate ⟨"", none, [], []⟩ ≠ [] ∧
    DiagramP.ToMermaid table ⟨"", none, [], []⟩ = some "erDiagram\n" ∧
    DiagramP.ToDOT table ⟨"", none, [], []⟩ =
      some "digraph ERD \x7b\n    rankdir=LR;\n    node [shape=record];\n\n\n\x7d\n" := by
  obtain ⟨d, hd⟩ := nonNil_eq_toP dp h
  have hr := toP_render table d
  refine ⟨⟨d.ToDOT table, by rw [hd]; exact hr.1⟩, ⟨d.ToMermaid table, by rw [hd]; exact hr.2⟩,
    ⟨d, hd, by rw [hd]; exact hr.1, by rw [hd]; exact hr.2⟩, by decide, rfl, rfl⟩

/-- C26, witness: a diagram without nil pointers that `Validate` rejects (an
entity without attributes, a relationship to a missing entity with an
unrecognized cardinality). -/
theorem C26_rendering_defined_without_nil_witness :
    (∃ text,
      DiagramP.ToDOT (fun _ => true)
        ⟨"x", none, [("a", some ⟨none, none, "a", []⟩)],
          [some ⟨none, none, "a", "zz", "f", "bad"⟩]⟩ = some text) ∧
    (∃ text,
      DiagramP.ToMermaid (fun _ => true)
        ⟨"x", none, [("a", some ⟨none, none, "a", []⟩)],
          [some ⟨none, none, "a", "zz", "f", "bad"⟩]⟩ = some text) ∧
    Diagram.Validate
      ⟨"x", none, [("a", ⟨none, none, "a", []⟩)], [⟨none, none, "a", "zz", "f", "bad"⟩]⟩ ≠ [] :=
  ⟨(C26_rendering_defined_without_nil (fun _ => true)
      ⟨"x", none, [("a", some ⟨none, none, "a", []⟩)],
        [some ⟨none, none, "a", "zz", "f", "bad"⟩]⟩ (by decide)).1,
   (C26_rendering_defined_without_nil (fun _ => true)
      ⟨"x", none, [("a", some ⟨none, none, "a", []⟩)],
        [some ⟨none, none, "a", "zz", "f", "bad"⟩]⟩ (by decide)).2.1,
   by decide⟩

end Erd
